import Mathlib

/-!
# Verification development for the probabilistic heuristic-search core

Shallow embedding of
* `src/search/probfd/value_utils.cc` (value updates),
* `include/search/probfd/engines/heuristic_search_state_information.h`
  (`StatesPolicy`, `StateFlags`),
* `include/search/probfd/quotients/quotient_system.h` (`DefaultQuotientSystem`),
* `src/search/probfd/bisimulation/bisimilar_state_space.cc`
  (`BisimilarStateSpace`),
* `include/search/probfd/engines/interval_iteration.h` (`IntervalIteration`),
* `include/search/probfd/engines/exhaustive_ao.h` (`ExhaustiveAOSearch`),
* `src/search/probfd/heuristics/dead_end_pruning.cc`,
* `include/search/probfd/open_lists/fifo_open_list.h` and `lifo_open_list.h`,
* `src/search/probfd/policy_picker/vdiff_tiebreaker.cc` and
  `src/search/mdps/policy_picker/arbitrary_tiebreaker.cc`,
* `src/search/probfd/solvers/mdp_solver.cc` (`MDPSolver::solve`),
* `src/search/mdps/heuristics/pdbs/abstract_state.cc` (`AbstractStateMapper`),
* `src/search/probfd/heuristics/pdbs/cegar/pucs_flaw_finder.cc`
  (`PUCSFlawFinder`).

The scalar `update` and `VDiffTiebreaker::pick` are embedded over an
arbitrary arithmetic `value_ops` of the values of type `value_t` (a C++
`double`, whose header is not among the sources), so that what is proved of
them holds for the rounded, overflowing floating-point operations; the type
`xvalue_t` (rationals, `+∞`, `-∞`, not-a-number) gives concrete
arithmetics. The interval updates and the other numeric code are embedded
over rationals under exact arithmetic. Undefined behaviour of the code is
modelled as an absent result.
-/

namespace probfd

/-- The scalar value type `value_type::value_t`, idealised as `ℚ`. -/
abbrev value_t := ℚ

namespace value_type

/-- Modelled from the spec: `value_type::is_approx_less` (declared in
`probfd/value_type.h`, which is not among the sources). `v1` is smaller than
`v2` by more than the tolerance. -/
def is_approx_less (v1 v2 eps : value_t) : Bool :=
  decide (v1 + eps < v2)

/-- Modelled from the spec: `value_type::is_approx_greater` (declared in
`probfd/value_type.h`, which is not among the sources). `v1` is larger than
`v2` by more than the tolerance. -/
def is_approx_greater (v1 v2 eps : value_t) : Bool :=
  decide (v1 - eps > v2)

/-- The arithmetic of `value_type::value_t`, a floating-point type, as far
as the scalar `update` and `VDiffTiebreaker::pick` use it. The header
`probfd/value_type.h` is not among the sources, so the type `V` of the
values, the constants `zero`, `inf` and the default tolerance `eps`, the
operations and the comparisons `<` and `<=` are parameters. -/
structure value_ops (V : Type) where
  zero : V
  inf : V
  eps : V
  add : V → V → V
  sub : V → V → V
  mul : V → V → V
  abs : V → V
  lt : V → V → Bool
  le : V → V → Bool

namespace value_ops

variable {V : Type}

/-- Modelled from the spec: `value_type::is_approx_less` with the default
tolerance (declared in `probfd/value_type.h`, which is not among the
sources), in the arithmetic of the values: the computed sum `v1 + eps` is
smaller than `v2`. -/
def is_approx_less (ops : value_ops V) (v1 v2 : V) : Bool :=
  ops.lt (ops.add v1 ops.eps) v2

end value_ops

end value_type

namespace value_utils

open value_type

/-- The struct `IntervalValue` with its two endpoints. -/
structure IntervalValue where
  lower : value_t
  upper : value_t
  deriving DecidableEq, Repr

/-- The function `update(IntervalValue& lhs, const IntervalValue& rhs, bool
check_upper)`: returns the result flag together with the new content of
`lhs` (the assertion is `update_assertion` below). -/
def update (eps : value_t) (lhs rhs : IntervalValue) (check_upper : Bool) :
    Bool × IntervalValue :=
  let result := is_approx_greater rhs.lower lhs.lower eps ||
                (check_upper && is_approx_less rhs.upper lhs.upper eps)
  (result, { lower := max lhs.lower rhs.lower, upper := min lhs.upper rhs.upper })

/-- A sequence of updates applied to one stored interval, in order. -/
def update_seq (eps : value_t) (lhs : IntervalValue) (us : List (IntervalValue × Bool)) :
    IntervalValue :=
  us.foldl (fun l u => (update eps l u.1 u.2).2) lhs

end value_utils

namespace engines
namespace heuristic_search

/-- The struct `StatesPolicy<Action, true>`. -/
structure StatesPolicy (Action : Type) where
  policy : Option Action := none

namespace StatesPolicy

variable {Action : Type}

/-- The method `set_policy`. -/
def set_policy (_p : StatesPolicy Action) (a : Action) : StatesPolicy Action :=
  { policy := some a }

/-- The method `clear_policy`. -/
def clear_policy (_p : StatesPolicy Action) : StatesPolicy Action :=
  { policy := none }

/-- The method `get_policy`. -/
def get_policy (p : StatesPolicy Action) : Option Action := p.policy

/-- The method `update_policy`: returns the flag and the new record. The
test `a != policy` compares an action with an optional action. -/
def update_policy [DecidableEq Action] (p : StatesPolicy Action) (a : Action) :
    Bool × StatesPolicy Action :=
  if p.policy.isNone || decide (some a ≠ p.policy) then
    (true, p.set_policy a)
  else
    (false, p)

end StatesPolicy

/-- The struct `StateFlags`; `info` is a `uint8_t`, kept below `256`. -/
structure StateFlags where
  info : Nat := 0
  termination_cost : value_t
  deriving DecidableEq, Repr

namespace StateFlags

def INITIALIZED : Nat := 1
def DEAD : Nat := 2
def GOAL : Nat := 4
def FRINGE : Nat := 5
def MASK : Nat := 7
def BITS : Nat := 3

/-- The expression `info & ~MASK` on a byte promoted to `int`: the
complement keeps every bit of the byte except the low three. -/
def and_not_mask (info : Nat) : Nat := info &&& (255 ^^^ MASK)

def is_value_initialized (f : StateFlags) : Bool := (f.info &&& MASK) != 0
def is_dead_end (f : StateFlags) : Bool := (f.info &&& MASK) == DEAD
def is_goal_state (f : StateFlags) : Bool := (f.info &&& MASK) == GOAL
def is_terminal (f : StateFlags) : Bool := f.is_dead_end || f.is_goal_state
def is_on_fringe (f : StateFlags) : Bool := (f.info &&& MASK) == FRINGE

/-- The assertion of `set_goal`. -/
def set_goal_assert (f : StateFlags) : Bool := !f.is_value_initialized
/-- The assignment of `set_goal`. -/
def set_goal (f : StateFlags) : StateFlags :=
  { f with info := (and_not_mask f.info ||| GOAL) % 256 }

/-- The assertion of `set_on_fringe`. -/
def set_on_fringe_assert (f : StateFlags) : Bool := !f.is_value_initialized
/-- The assignment of `set_on_fringe`. -/
def set_on_fringe (f : StateFlags) : StateFlags :=
  { f with info := (and_not_mask f.info ||| FRINGE) % 256 }

/-- The assertion of `set_dead_end`. -/
def set_dead_end_assert (f : StateFlags) : Bool := !f.is_goal_state && !f.is_dead_end
/-- The assignment of `set_dead_end`. -/
def set_dead_end (f : StateFlags) : StateFlags :=
  { f with info := (and_not_mask f.info ||| DEAD) % 256 }

/-- The assertion of `removed_from_fringe`. -/
def removed_from_fringe_assert (f : StateFlags) : Bool :=
  f.is_value_initialized && !f.is_terminal
/-- The assignment of `removed_from_fringe`. -/
def removed_from_fringe (f : StateFlags) : StateFlags :=
  { f with info := (and_not_mask f.info ||| INITIALIZED) % 256 }

/-- The four setters of `StateFlags`. -/
inductive Setter where
  | set_goal
  | set_on_fringe
  | set_dead_end
  | removed_from_fringe
  deriving DecidableEq, Repr

/-- The asserted precondition of a setter. -/
def Setter.pre : Setter → StateFlags → Bool
  | .set_goal, f => f.set_goal_assert
  | .set_on_fringe, f => f.set_on_fringe_assert
  | .set_dead_end, f => f.set_dead_end_assert
  | .removed_from_fringe, f => f.removed_from_fringe_assert

/-- The assignment performed by a setter. -/
def Setter.exec : Setter → StateFlags → StateFlags
  | .set_goal, f => f.set_goal
  | .set_on_fringe, f => f.set_on_fringe
  | .set_dead_end, f => f.set_dead_end
  | .removed_from_fringe, f => f.removed_from_fringe

/-- A sequence of setter calls respects the assertions when each call is
made in a state satisfying its asserted precondition. -/
def respects : List Setter → StateFlags → Bool
  | [], _ => true
  | c :: cs, f => c.pre f && respects cs (c.exec f)

/-- The record after a sequence of setter calls. -/
def run : List Setter → StateFlags → StateFlags
  | [], f => f
  | c :: cs, f => run cs (c.exec f)

end StateFlags

end heuristic_search
end engines

/-- Modelled from the spec: `Distribution<T>` (declared in
`probfd/distribution.h`, which is not among the sources): an ordered sequence
of `(element, probability)` pairs. -/
abbrev Distribution (T : Type) := List (T × value_t)

namespace Distribution

variable {T : Type}

/-- Modelled from the spec: `Distribution<T>::add_probability` (declared in
`probfd/distribution.h`, which is not among the sources): adds the
probability to the entry of the element when there is one (merging
duplicates) and appends a new entry otherwise. -/
def add_probability [DecidableEq T] : Distribution T → T → value_t → Distribution T
  | [], t, prob => [(t, prob)]
  | (x, p) :: rest, t, prob =>
    if x = t then (x, p + prob) :: rest else (x, p) :: add_probability rest t prob

/-- The probability mass a distribution gives to an element: the sum over
all entries of that element. -/
def mass [DecidableEq T] (d : Distribution T) (t : T) : value_t :=
  ((d.filter (fun e => decide (e.1 = t))).map Prod.snd).sum

/-- The total probability of a distribution. -/
def total (d : Distribution T) : value_t := (d.map Prod.snd).sum

/-- The elements of a distribution, in order. -/
def support (d : Distribution T) : List T := d.map Prod.fst

end Distribution

namespace quotients

/-- The struct `QuotientAction<Action>`. -/
structure QuotientAction (Action : Type) where
  state_id : Nat
  action : Action
  deriving DecidableEq, Repr

/-- The interface `engine_interfaces::StateSpace<State, Action>` of the base
MDP, restricted to the two generators the quotient system calls. Each
generator is given by the sequence it appends to its output argument. -/
structure StateSpace (Action : Type) where
  generate_applicable_actions : Nat → List Action
  generate_action_transitions : Nat → Action → Distribution Nat

/-- The constant `MASK = (StateID::size_type(-1) >> 1)` for a `w`-bit
`StateID::size_type`. -/
def MASK (w : Nat) : Nat := (2 ^ w - 1) >>> 1

/-- The constant `FLAG = ~MASK` for a `w`-bit `StateID::size_type`. -/
def FLAG (w : Nat) : Nat := (2 ^ w - 1) ^^^ MASK w

/-- The struct `QuotientInformation::StateInfo`. -/
structure StateInfo where
  state_id : Nat
  num_outer_acts : Nat := 0
  num_inner_acts : Nat := 0
  deriving DecidableEq, Repr

/-- The struct `QuotientInformation`. -/
structure QuotientInformation (Action : Type) where
  state_infos : List StateInfo := []
  aops : List Action := []
  total_num_outer_acts : Nat := 0
  deriving DecidableEq, Repr

namespace QuotientInformation

variable {Action : Type}

/-- The member ids of a class (`state_begin()` .. `state_end()`). -/
def states (q : QuotientInformation Action) : List Nat :=
  q.state_infos.map StateInfo.state_id

/-- The loop of `filter_actions`: `aops` is the part of the action vector
from `act_it` on; returns the updated state infos, the updated part of the
action vector and the new outer-action count. -/
def filter_loop [DecidableEq Action] (filter : List (QuotientAction Action)) :
    List StateInfo → List Action → Nat → List StateInfo × List Action × Nat
  | [], aops, total => ([], aops, total)
  | info :: infos, aops, total =>
    let range := aops.take info.num_outer_acts
    let kept := range.filter (fun a => !(filter.contains ⟨info.state_id, a⟩))
    let moved := range.filter (fun a => filter.contains ⟨info.state_id, a⟩)
    let num_total_acts := info.num_outer_acts + info.num_inner_acts
    let info1 : StateInfo :=
      { state_id := info.state_id,
        num_outer_acts := kept.length,
        num_inner_acts := num_total_acts - kept.length }
    let rest := filter_loop filter infos (aops.drop num_total_acts) (total + kept.length)
    (info1 :: rest.1,
     kept ++ moved ++ ((aops.drop info.num_outer_acts).take info.num_inner_acts) ++ rest.2.1,
     rest.2.2)

/-- The method `filter_actions`. -/
def filter_actions [DecidableEq Action] (q : QuotientInformation Action)
    (filter : List (QuotientAction Action)) : QuotientInformation Action :=
  if filter.isEmpty then q
  else
    let r := filter_loop filter q.state_infos q.aops 0
    { state_infos := r.1, aops := r.2.1, total_num_outer_acts := r.2.2 }

end QuotientInformation

/-- The class `DefaultQuotientSystem`: the map `quotients_` is a finite map
given by its lookup function, `quotient_ids_` is the vector of masked ids. -/
structure DefaultQuotientSystem (Action : Type) where
  quotients_ : Nat → Option (QuotientInformation Action)
  quotient_ids_ : List Nat
  state_space_ : StateSpace Action

namespace DefaultQuotientSystem

variable {Action : Type}

/-- The constructor: no class, no masked id. -/
def init (state_space : StateSpace Action) : DefaultQuotientSystem Action :=
  { quotients_ := fun _ => none, quotient_ids_ := [], state_space_ := state_space }

/-- The method `get_masked_state_id` on the vector `quotient_ids_`. -/
def get_masked_ids (ids : List Nat) (sid : Nat) : Nat :=
  if sid < ids.length then ids.getD sid 0 else sid

/-- The method `get_masked_state_id`. -/
def get_masked_state_id (qs : DefaultQuotientSystem Action) (sid : Nat) : Nat :=
  get_masked_ids qs.quotient_ids_ sid

/-- The method `set_masked_state_id` on the vector `quotient_ids_`. -/
def set_masked_ids (w : Nat) (ids : List Nat) (sid qsid : Nat) : List Nat :=
  let ids1 :=
    if sid ≥ ids.length then ids ++ List.range' ids.length (sid + 1 - ids.length) else ids
  ids1.set sid (qsid ||| FLAG w)

/-- The method `set_masked_state_id`. -/
def set_masked_state_id (w : Nat) (qs : DefaultQuotientSystem Action) (sid qsid : Nat) :
    DefaultQuotientSystem Action :=
  { qs with quotient_ids_ := set_masked_ids w qs.quotient_ids_ sid qsid }

/-- The method `translate_state_id`. -/
def translate_state_id (w : Nat) (qs : DefaultQuotientSystem Action) (sid : Nat) : Nat :=
  qs.get_masked_state_id sid &&& MASK w

/-- The method `get_quotient_info`: `none` when the lookup dereferences the
end iterator of `quotients_` (undefined behaviour), `some none` for the null
pointer, `some (some q)` for a pointer to `q`. -/
def get_quotient_info (w : Nat) (qs : DefaultQuotientSystem Action) (state_id : Nat) :
    Option (Option (QuotientInformation Action)) :=
  let qid := qs.get_masked_state_id state_id
  if qid &&& FLAG w ≠ 0 then
    match qs.quotients_ (qid &&& MASK w) with
    | some q => some (some q)
    | none => none
  else some none

/-- The three-argument `partition_actions` on the range it is given: returns
the reordered range and the offset of the returned iterator (the start of
the inner actions) from the start of the range. -/
def partition_actions [DecidableEq Action] (range : List Action) (filter : List Action) :
    List Action × Nat :=
  if filter.isEmpty then (range, range.length)
  else
    (range.filter (fun a => !(filter.contains a)) ++ range.filter (fun a => filter.contains a),
     (range.filter (fun a => !(filter.contains a))).length)

/-- The block "Add this state to the quotient" of `build_quotient`, applied
to the class `qinfo`: appends the state info of `state_id`, generates its
applicable actions behind the stored ones, partitions the new range and
records the counts. -/
def add_state [DecidableEq Action] (state_space : StateSpace Action)
    (qinfo : QuotientInformation Action) (state_id : Nat)
    (aops : List (QuotientAction Action)) : QuotientInformation Action :=
  let prev_size := qinfo.aops.length
  let generated := qinfo.aops ++ state_space.generate_applicable_actions state_id
  let part := partition_actions (generated.drop prev_size) (aops.map QuotientAction.action)
  let num_outer_acts := part.2
  let num_inner_acts := (generated.length - prev_size) - part.2
  { state_infos := qinfo.state_infos ++
      [{ state_id := state_id, num_outer_acts := num_outer_acts,
         num_inner_acts := num_inner_acts }],
    aops := generated.take prev_size ++ part.1,
    total_num_outer_acts := qinfo.total_num_outer_acts + num_outer_acts }

/-- The body of the loop of `build_quotient` for one entry of the sub-MDP;
the class `qinfo` of `rid` is read from and written back to `quotients_`
(it is there: `build_quotient_entry` creates it and the loop never erases
it). The result is `none` when the code has undefined behaviour: the old
quotient is not found, or it is the class of `rid` itself (whose vector
would be appended to while it is iterated). -/
def build_quotient_step [DecidableEq Action] (w rid : Nat) (qs : DefaultQuotientSystem Action)
    (entry : Nat × List (QuotientAction Action)) : Option (DefaultQuotientSystem Action) :=
  let state_id := entry.1
  let aops := entry.2
  if state_id = rid then some qs
  else
    match qs.quotients_ rid with
    | none => none
    | some qinfo =>
      let qsqid := qs.get_masked_state_id state_id
      if qsqid &&& FLAG w ≠ 0 then
        if qsqid &&& MASK w = rid then none
        else
          match qs.quotients_ (qsqid &&& MASK w) with
          | none => none
          | some q0 =>
            let q := q0.filter_actions aops
            let qinfo1 : QuotientInformation Action :=
              { state_infos := qinfo.state_infos ++ q.state_infos,
                aops := qinfo.aops ++ q.aops,
                total_num_outer_acts := qinfo.total_num_outer_acts + q.total_num_outer_acts }
            some
              { quotients_ :=
                  Function.update (Function.update qs.quotients_ rid (some qinfo1))
                    (qsqid &&& MASK w) none,
                quotient_ids_ :=
                  q.state_infos.foldl (fun ids p => set_masked_ids w ids p.state_id rid)
                    qs.quotient_ids_,
                state_space_ := qs.state_space_ }
      else
        some
          { quotients_ :=
              Function.update qs.quotients_ rid
                (some (add_state qs.state_space_ qinfo state_id aops)),
            quotient_ids_ := set_masked_ids w qs.quotient_ids_ state_id rid,
            state_space_ := qs.state_space_ }

/-- The loop `for (const auto& entry : submdp)` of `build_quotient`. -/
def build_quotient_loop [DecidableEq Action] (w rid : Nat) :
    DefaultQuotientSystem Action → List (Nat × List (QuotientAction Action)) →
      Option (DefaultQuotientSystem Action)
  | qs, [] => some qs
  | qs, entry :: rest =>
    match build_quotient_step w rid qs entry with
    | none => none
    | some qs1 => build_quotient_loop w rid qs1 rest

/-- The part of `build_quotient` before the loop: get or create the class of
`rid` and handle the representative. -/
def build_quotient_entry [DecidableEq Action] (w : Nat) (qs : DefaultQuotientSystem Action)
    (entry : Nat × List (QuotientAction Action)) : DefaultQuotientSystem Action :=
  let rid := entry.1
  let raops := entry.2
  let qinfo : QuotientInformation Action := (qs.quotients_ rid).getD {}
  if qinfo.state_infos.isEmpty then
    { quotients_ :=
        Function.update qs.quotients_ rid (some (add_state qs.state_space_ qinfo rid raops)),
      quotient_ids_ := set_masked_ids w qs.quotient_ids_ rid rid,
      state_space_ := qs.state_space_ }
  else
    { qs with quotients_ := Function.update qs.quotients_ rid (some (qinfo.filter_actions raops)) }

/-- The two-argument method `build_quotient(submdp, entry)`. -/
def build_quotient [DecidableEq Action] (w : Nat) (qs : DefaultQuotientSystem Action)
    (submdp : List (Nat × List (QuotientAction Action)))
    (entry : Nat × List (QuotientAction Action)) : Option (DefaultQuotientSystem Action) :=
  build_quotient_loop w entry.1 (build_quotient_entry w qs entry) submdp

/-- The loop of `generate_applicable_actions` over the state infos; `aid` is
the part of the action vector from the iterator on. -/
def outer_actions : List StateInfo → List Action → List (QuotientAction Action)
  | [], _ => []
  | sinfo :: rest, aid =>
    (aid.take sinfo.num_outer_acts).map (fun a => ⟨sinfo.state_id, a⟩) ++
      outer_actions rest (aid.drop (sinfo.num_outer_acts + sinfo.num_inner_acts))

/-- The method `generate_applicable_actions`, appending to `aops`; `none`
when the class lookup has undefined behaviour. -/
def generate_applicable_actions (w : Nat) (qs : DefaultQuotientSystem Action) (sid : Nat)
    (aops : List (QuotientAction Action)) : Option (List (QuotientAction Action)) :=
  match qs.get_quotient_info w sid with
  | none => none
  | some none =>
    some (aops ++ (qs.state_space_.generate_applicable_actions sid).map (fun a => ⟨sid, a⟩))
  | some (some info) => some (aops ++ outer_actions info.state_infos info.aops)

/-- The loop of `get_pruned_ops` over the state infos; `aid` is the part of
the action vector from the iterator on. -/
def inner_actions : List StateInfo → List Action → List (QuotientAction Action)
  | [], _ => []
  | sinfo :: rest, aid =>
    ((aid.drop sinfo.num_outer_acts).take sinfo.num_inner_acts).map
        (fun a => ⟨sinfo.state_id, a⟩) ++
      inner_actions rest (aid.drop (sinfo.num_outer_acts + sinfo.num_inner_acts))

/-- The method `get_pruned_ops`, appending to `aops`; `none` when the class
lookup has undefined behaviour. -/
def get_pruned_ops (w : Nat) (qs : DefaultQuotientSystem Action) (sid : Nat)
    (aops : List (QuotientAction Action)) : Option (List (QuotientAction Action)) :=
  match qs.get_quotient_info w sid with
  | none => none
  | some none => some aops
  | some (some info) => some (aops ++ inner_actions info.state_infos info.aops)

/-- The method `generate_action_transitions`, adding to `result`. -/
def generate_action_transitions (w : Nat) (qs : DefaultQuotientSystem Action) (_sid : Nat)
    (a : QuotientAction Action) (result : Distribution Nat) : Distribution Nat :=
  let orig := qs.state_space_.generate_action_transitions a.state_id a.action
  orig.foldl
    (fun res sp => res.add_probability (qs.get_masked_state_id sp.1 &&& MASK w) sp.2) result

/-- Representation invariant of the quotient system for `w`-bit ids. The
masked id of a state is either the state itself or, for a state below
`2^(w-1)`, a flagged representative below `2^(w-1)` whose class is stored
and lists the state; every stored class is keyed by a representative below
`2^(w-1)` that it lists, and each of its members is below `2^(w-1)` and has
the flagged representative as masked id. -/
structure Inv (w : Nat) (qs : DefaultQuotientSystem Action) : Prop where
  masked : ∀ t, qs.get_masked_state_id t = t ∨
    (t < 2 ^ (w - 1) ∧ ∃ r q, r < 2 ^ (w - 1) ∧
      qs.get_masked_state_id t = r ||| FLAG w ∧ qs.quotients_ r = some q ∧ t ∈ q.states)
  classes : ∀ r q, qs.quotients_ r = some q →
    r < 2 ^ (w - 1) ∧ r ∈ q.states ∧
      ∀ m ∈ q.states, m < 2 ^ (w - 1) ∧ qs.get_masked_state_id m = r ||| FLAG w

end DefaultQuotientSystem

/-- The members of the class built by `build_quotient(submdp, entry)` from
states in no class, in the order of the code: the entry first, then the
other entries of the sub-MDP in their order. -/
def members_in_order {Action : Type} (submdp : List (Nat × List (QuotientAction Action)))
    (entry : Nat × List (QuotientAction Action)) : List (Nat × List (QuotientAction Action)) :=
  entry :: submdp.filter (fun e => decide (e.1 ≠ entry.1))

/-- The base-applicable actions of the listed state `e.1` that are not among
its listed inner actions `e.2`, in base order. -/
def listed_outer {Action : Type} [DecidableEq Action] (ss : StateSpace Action)
    (e : Nat × List (QuotientAction Action)) : List Action :=
  (ss.generate_applicable_actions e.1).filter
    (fun a => !((e.2.map QuotientAction.action).contains a))

/-- The base-applicable actions of the listed state `e.1` that are among its
listed inner actions `e.2`, in base order. -/
def listed_inner {Action : Type} [DecidableEq Action] (ss : StateSpace Action)
    (e : Nat × List (QuotientAction Action)) : List Action :=
  (ss.generate_applicable_actions e.1).filter
    (fun a => (e.2.map QuotientAction.action).contains a)

/-- A small base MDP used for concrete evaluations: state `0` has the
actions `7` and `8`, state `1` has the action `9`; action `7` leads from
`0` to `1` or `2` with probability one half each, action `8` from `0` to
`0`, action `9` from `1` to `0`. -/
def example_space : StateSpace Nat where
  generate_applicable_actions := fun s =>
    if s = 0 then [7, 8] else if s = 1 then [9] else []
  generate_action_transitions := fun s a =>
    if s = 0 ∧ a = 7 then [(1, 1 / 2), (2, 1 / 2)]
    else if s = 0 ∧ a = 8 then [(0, 1)]
    else if s = 1 ∧ a = 9 then [(0, 1)]
    else []

end quotients

end probfd

namespace probfd

namespace heuristics

/-- The classical evaluator `::Evaluator` wrapped by the pruning heuristic
(`downward/evaluator.h` and `downward/evaluation_result.h` are not among the
sources): its result type `R` and the members the heuristic calls are taken
as parameters. -/
structure ClassicalEvaluator (State R : Type) where
  dead_ends_are_reliable : Bool
  compute_result : State → R
  is_infinite : R → Bool

/-- The result `EvaluationResult(is_unsolvable, estimate)` of a probabilistic
evaluator: the terminal flag and the value estimate. -/
structure EvaluationResult where
  is_unsolvable : Bool
  estimate : value_t
  deriving DecidableEq, Repr

/-- The class `DeadEndPruningHeuristic`. -/
structure DeadEndPruningHeuristic (State R : Type) where
  pruning_function_ : ClassicalEvaluator State R
  dead_end_value_ : value_t

namespace DeadEndPruningHeuristic

variable {State R : Type}

/-- The constructor: `none` when it exits with `SEARCH_INPUT_ERROR` because
the dead ends of the evaluator are not reliable. -/
def create (pruning_function : ClassicalEvaluator State R) (dead_end_value : value_t) :
    Option (DeadEndPruningHeuristic State R) :=
  if !pruning_function.dead_ends_are_reliable then none
  else some { pruning_function_ := pruning_function, dead_end_value_ := dead_end_value }

/-- The method `evaluate`. -/
def evaluate (h : DeadEndPruningHeuristic State R) (state : State) : EvaluationResult :=
  let result := h.pruning_function_.compute_result state
  if h.pruning_function_.is_infinite result then
    { is_unsolvable := true, estimate := h.dead_end_value_ }
  else
    { is_unsolvable := false, estimate := 0 }

end DeadEndPruningHeuristic

/-- The cost function of the task, restricted to the member the factory
calls. -/
structure TaskCostFunction where
  get_non_goal_termination_cost : value_t

/-- The class `DeadEndPruningHeuristicFactory`. -/
structure DeadEndPruningHeuristicFactory (State R : Type) where
  evaluator_ : ClassicalEvaluator State R

/-- The method `create_evaluator`. -/
def DeadEndPruningHeuristicFactory.create_evaluator {State R : Type}
    (f : DeadEndPruningHeuristicFactory State R) (task_cost_function : TaskCostFunction) :
    Option (DeadEndPruningHeuristic State R) :=
  DeadEndPruningHeuristic.create f.evaluator_ task_cost_function.get_non_goal_termination_cost

/-- A classical evaluator on natural-number states used for concrete
evaluations: the result is the state itself, and the results from `10` on
are infinite. -/
def example_evaluator : ClassicalEvaluator Nat Nat where
  dead_ends_are_reliable := true
  compute_result := fun s => s
  is_infinite := fun r => decide (10 ≤ r)

end heuristics

namespace open_lists

/-- The class `FifoOpenList`: the deque `queue_` from front to back. -/
structure FifoOpenList where
  queue_ : List Nat := []
  deriving DecidableEq, Repr

namespace FifoOpenList

/-- The method `clear`. -/
def clear (_l : FifoOpenList) : FifoOpenList := { queue_ := [] }

/-- The method `unsigned size() const`: `queue_.size()` converted to the
return type `unsigned`, a 32-bit integer. -/
def size (l : FifoOpenList) : Nat := l.queue_.length % 2 ^ 32

/-- The method `pop`: the front element and the list without it; `none` on
an empty deque, where `front()` is undefined. -/
def pop (l : FifoOpenList) : Option (Nat × FifoOpenList) :=
  match l.queue_ with
  | [] => none
  | s :: rest => some (s, { queue_ := rest })

/-- The method `push`. -/
def push (l : FifoOpenList) (state_id : Nat) : FifoOpenList :=
  { queue_ := l.queue_ ++ [state_id] }

/-- The calls `push(x1)`, ..., `push(xn)` in order. -/
def push_all (l : FifoOpenList) (xs : List Nat) : FifoOpenList :=
  xs.foldl push l

/-- The given number of calls of `pop`, collecting the returned ids in
order; `none` when one of the calls is made on an empty list. -/
def pop_n : Nat → FifoOpenList → Option (List Nat × FifoOpenList)
  | 0, l => some ([], l)
  | n + 1, l =>
    match l.pop with
    | none => none
    | some (s, l1) =>
      match pop_n n l1 with
      | none => none
      | some (ss, l2) => some (s :: ss, l2)

end FifoOpenList

/-- The class `LifoOpenList`: the deque `queue_` from front to back. -/
structure LifoOpenList where
  queue_ : List Nat := []
  deriving DecidableEq, Repr

namespace LifoOpenList

/-- The method `empty`. -/
def empty (l : LifoOpenList) : Bool := l.queue_.isEmpty

/-- The method `unsigned size() const`: `queue_.size()` converted to the
return type `unsigned`, a 32-bit integer. -/
def size (l : LifoOpenList) : Nat := l.queue_.length % 2 ^ 32

/-- The method `pop`: the back element and the list without it; `none` on
an empty deque, where `back()` is undefined. -/
def pop (l : LifoOpenList) : Option (Nat × LifoOpenList) :=
  match l.queue_.getLast? with
  | none => none
  | some s => some (s, { queue_ := l.queue_.dropLast })

/-- The method `push`. -/
def push (l : LifoOpenList) (state_id : Nat) : LifoOpenList :=
  { queue_ := l.queue_ ++ [state_id] }

/-- The method `clear`. -/
def clear (_l : LifoOpenList) : LifoOpenList := { queue_ := [] }

/-- The calls `push(x1)`, ..., `push(xn)` in order. -/
def push_all (l : LifoOpenList) (xs : List Nat) : LifoOpenList :=
  xs.foldl push l

/-- The given number of calls of `pop`, collecting the returned ids in
order; `none` when one of the calls is made on an empty list. -/
def pop_n : Nat → LifoOpenList → Option (List Nat × LifoOpenList)
  | 0, l => some ([], l)
  | n + 1, l =>
    match l.pop with
    | none => none
    | some (s, l1) =>
      match pop_n n l1 with
      | none => none
      | some (ss, l2) => some (s :: ss, l2)

end LifoOpenList

end open_lists

namespace policy_tiebreaking

/-- The method `ArbitraryTiebreaker::pick` of
`src/search/mdps/policy_picker/arbitrary_tiebreaker.cc`: the state, the
previous policy, the greedy operators and their successor distributions are
ignored. -/
def ArbitraryTiebreaker.pick {Op : Type} (_state : Nat) (_prev_policy : Nat)
    (_action_choices : List Op) (_successors : List (Distribution Nat)) : Int :=
  0

end policy_tiebreaking

end probfd

namespace probfd
namespace policy_tiebreaking

open value_type value_utils

/-- Modelled from the spec: `IntervalValue::error_bound` (declared in
`probfd/value_utils.h`, which is not among the sources): the difference
between the upper and the lower value bound. -/
def error_bound (v : IntervalValue) : value_t := v.upper - v.lower

/-- The class `VDiffTiebreaker`. -/
structure VDiffTiebreaker where
  favor_large_gaps_ : value_t
  deriving DecidableEq, Repr

namespace VDiffTiebreaker

/-- The inner loop of `pick`: the sum over the entries of `t` of the
probability times the error bound of the dual bounds of the element;
`lookup_dual_bounds` is the member of the heuristic search interface. -/
def weighted_sum (lookup_dual_bounds : Nat → IntervalValue) (t : Distribution Nat) : value_t :=
  t.foldl (fun sum it => sum + it.2 * error_bound (lookup_dual_bounds it.1)) 0

/-- The test `is_approx_less(x, best)`, where `best` is `none` while it is
`value_type::inf`, which is above every finite value by more than the
tolerance. -/
def approx_less_best (eps x : value_t) : Option value_t → Bool
  | none => true
  | some best => is_approx_less x best eps

/-- The loop `for (int i = successors.size() - 1; i >= 0; --i)` of `pick`
with `n` iterations left (the next index is `n - 1`), on the pair of `best`
and `choice`. -/
def pick_loop (tb : VDiffTiebreaker) (eps : value_t) (lookup_dual_bounds : Nat → IntervalValue)
    (successors : List (Distribution Nat)) : Nat → Option value_t × Nat → Option value_t × Nat
  | 0, st => st
  | n + 1, (best, choice) =>
    let sum := weighted_sum lookup_dual_bounds (successors.getD n [])
    if approx_less_best eps (tb.favor_large_gaps_ * sum) best then
      pick_loop tb eps lookup_dual_bounds successors n (some sum, n)
    else
      pick_loop tb eps lookup_dual_bounds successors n (best, choice)

/-- The method `pick`; `eps` is the default tolerance of `is_approx_less`.
The state, the previous policy and the operators are ignored. -/
def pick (tb : VDiffTiebreaker) (eps : value_t) (lookup_dual_bounds : Nat → IntervalValue)
    (successors : List (Distribution Nat)) : Nat :=
  (pick_loop tb eps lookup_dual_bounds successors successors.length (none, 1)).2

end VDiffTiebreaker

/-- Value bounds used for concrete evaluations: state `0` has the bounds
`[0, 1/10]`, every other state `[0, 9/10]`. -/
def example_bounds : Nat → IntervalValue :=
  fun s => if s = 0 then ⟨0, 1 / 10⟩ else ⟨0, 9 / 10⟩

end policy_tiebreaking
end probfd

namespace probfd
namespace solvers

/-- What the trajectory sampling of `MDPSolver::solve` reads from the policy,
the operators and the state registry: the action of the decision of the
policy (if any), the outcome probabilities and the cost of an operator, and
the successor state for an outcome of an operator. -/
structure TrajectoryModel (State Action : Type) where
  get_decision : State → Option Action
  outcome_probabilities : Action → List value_t
  get_cost : Action → value_t
  get_successor_state : State → Action → Nat → State

/-- The loop `for (;;)` that samples the outcome for the random number `p`,
on the outcome probabilities from `outcome_index` on; `none` when it reads
past the last outcome, which is undefined. -/
def sample_outcome (p : value_t) : List value_t → Nat → value_t → Option Nat
  | [], _, _ => none
  | q :: rest, outcome_index, prob_sum =>
    if p ≤ prob_sum + q then some outcome_index
    else sample_outcome p rest (outcome_index + 1) (prob_sum + q)

/-- The result of sampling one trajectory: the step lines written (state,
action, outcome index), the last state and the plan cost of the final
line. -/
structure Trajectory (State Action : Type) where
  steps : List (State × Action × Nat)
  last_state : State
  plan_cost : value_t

/-- The loop `while (auto decision = policy->get_decision(state))` of
`MDPSolver::solve` with the given number of iterations as fuel;
`trajectory_length` is the configured integer, `random k` the `k`-th random
number of the generator. The result is `none` when the fuel runs out before
the loop ends or when the outcome sampling is undefined. -/
def trajectory_loop {State Action : Type} (m : TrajectoryModel State Action)
    (trajectory_length : Int) (random : Nat → value_t) :
    Nat → State → value_t → Int → Nat → List (State × Action × Nat) →
      Option (Trajectory State Action)
  | 0, _, _, _, _, _ => none
  | fuel + 1, state, plan_cost, step, k, out =>
    match m.get_decision state with
    | none => some { steps := out, last_state := state, plan_cost := plan_cost }
    | some a =>
      match sample_outcome (random k) (m.outcome_probabilities a) 0 0 with
      | none => none
      | some outcome_index =>
        let out1 := out ++ [(state, a, outcome_index)]
        let state1 := m.get_successor_state state a outcome_index
        let plan_cost1 := plan_cost + m.get_cost a
        if step + 1 = trajectory_length then
          some { steps := out1, last_state := state1, plan_cost := plan_cost1 }
        else
          trajectory_loop m trajectory_length random fuel state1 plan_cost1 (step + 1) (k + 1)
            out1

/-- One iteration of the loop `for (int i = 0; i < trajectories; ++i)`: the
trajectory sampled from the initial state, with `plan_cost = 0` and
`step = 0`; `k` is the number of random numbers drawn before. -/
def sample_trajectory {State Action : Type} (m : TrajectoryModel State Action)
    (trajectory_length : Int) (random : Nat → value_t) (fuel : Nat) (initial_state : State)
    (k : Nat) : Option (Trajectory State Action) :=
  trajectory_loop m trajectory_length random fuel initial_state 0 0 k []

/-- A chain of states used for concrete evaluations: the policy applies the
operator `0`, which has one outcome, unit cost and leads from `s` to
`s + 1`, in the states below `3`, and has no decision from `3` on. -/
def example_chain : TrajectoryModel Nat Nat where
  get_decision := fun s => if s < 3 then some 0 else none
  outcome_probabilities := fun _ => [1]
  get_cost := fun _ => 1
  get_successor_state := fun s _ _ => s + 1

end solvers
end probfd

namespace probfd
namespace quotients
namespace DefaultQuotientSystem

variable {Action : Type}

/-- The block "Add this state to the quotient" of `build_new_quotient`,
applied to the class `qinfo`: appends the state info of `state_id`,
generates its applicable actions behind the stored ones, calls the
two-argument `partition_actions`, which partitions the whole action vector
of the class, and records the distances from the start of the vector to the
returned iterator and from there to the end. -/
def add_state_new [DecidableEq Action] (state_space : StateSpace Action)
    (qinfo : QuotientInformation Action) (state_id : Nat) (aops : List Action) :
    QuotientInformation Action :=
  let generated := qinfo.aops ++ state_space.generate_applicable_actions state_id
  let part := partition_actions generated aops
  let num_outer_acts := part.2
  let num_inner_acts := generated.length - part.2
  { state_infos := qinfo.state_infos ++
      [{ state_id := state_id, num_outer_acts := num_outer_acts,
         num_inner_acts := num_inner_acts }],
    aops := part.1,
    total_num_outer_acts := qinfo.total_num_outer_acts + num_outer_acts }

/-- The body of the loop of `build_new_quotient` for one entry of the
sub-MDP (the assertion is `build_new_quotient_assert`); the class `qinfo` of
`rid` is read from and written back to `quotients_`. -/
def build_new_quotient_step [DecidableEq Action] (w rid : Nat)
    (qs : DefaultQuotientSystem Action) (entry : Nat × List Action) :
    DefaultQuotientSystem Action :=
  if entry.1 = rid then qs
  else
    { quotients_ := Function.update qs.quotients_ rid
        (some (add_state_new qs.state_space_ ((qs.quotients_ rid).getD {}) entry.1 entry.2)),
      quotient_ids_ := set_masked_ids w qs.quotient_ids_ entry.1 rid,
      state_space_ := qs.state_space_ }

/-- The method `build_new_quotient(submdp, entry)`, whose sub-MDP lists
plain actions. -/
def build_new_quotient [DecidableEq Action] (w : Nat) (qs : DefaultQuotientSystem Action)
    (submdp : List (Nat × List Action)) (entry : Nat × List Action) :
    DefaultQuotientSystem Action :=
  let rid := entry.1
  let raops := entry.2
  let qinfo : QuotientInformation Action := (qs.quotients_ rid).getD {}
  submdp.foldl (build_new_quotient_step w rid)
    { quotients_ := Function.update qs.quotients_ rid
        (some (add_state_new qs.state_space_ qinfo rid raops)),
      quotient_ids_ := set_masked_ids w qs.quotient_ids_ rid rid,
      state_space_ := qs.state_space_ }

/-- The assertions of `build_new_quotient`: the class of the entry state has
no state info, and no other listed state carries the class flag. -/
def build_new_quotient_assert (w : Nat) (qs : DefaultQuotientSystem Action)
    (submdp : List (Nat × List Action)) (entry : Nat × List Action) : Bool :=
  ((qs.quotients_ entry.1).getD {}).state_infos.isEmpty &&
    submdp.all (fun e => e.1 = entry.1 || qs.get_masked_state_id e.1 &&& FLAG w = 0)

/-- The loop of `generate_all_transitions` over the state infos; `aop` is
the part of the action vector from the iterator on. Each outer action is
paired with the distribution that `generate_action_transitions` adds to a
new empty one. -/
def outer_transitions (w : Nat) (qs : DefaultQuotientSystem Action) (sid : Nat) :
    List StateInfo → List Action → List (QuotientAction Action × Distribution Nat)
  | [], _ => []
  | info :: rest, aop =>
    (aop.take info.num_outer_acts).map
        (fun x => (⟨info.state_id, x⟩,
          generate_action_transitions w qs sid ⟨info.state_id, x⟩ [])) ++
      outer_transitions w qs sid rest (aop.drop (info.num_outer_acts + info.num_inner_acts))

/-- The method `generate_all_transitions`, appending to `aops` and
`successors`; `none` when the class lookup has undefined behaviour. -/
def generate_all_transitions (w : Nat) (qs : DefaultQuotientSystem Action) (sid : Nat)
    (aops : List (QuotientAction Action)) (successors : List (Distribution Nat)) :
    Option (List (QuotientAction Action) × List (Distribution Nat)) :=
  match qs.get_quotient_info w sid with
  | none => none
  | some none =>
    let ts := (qs.state_space_.generate_applicable_actions sid).map
      (fun x => ((⟨sid, x⟩ : QuotientAction Action),
        generate_action_transitions w qs sid ⟨sid, x⟩ []))
    some (aops ++ ts.map Prod.fst, successors ++ ts.map Prod.snd)
  | some (some info) =>
    let ts := outer_transitions w qs sid info.state_infos info.aops
    some (aops ++ ts.map Prod.fst, successors ++ ts.map Prod.snd)

end DefaultQuotientSystem

/-- A base MDP in which the action `7` is applicable in two states: state
`0` has the actions `7` and `8`, state `1` the actions `7` and `9`. -/
def example_space_shared : StateSpace Nat where
  generate_applicable_actions := fun s =>
    if s = 0 then [7, 8] else if s = 1 then [7, 9] else []
  generate_action_transitions := fun _ _ => []

end quotients

namespace bisimulation

/-- The struct `QuotientAction` of the bisimulation quotient. -/
structure QuotientAction where
  idx : Nat
  deriving DecidableEq, Repr

/-- The struct `CachedTransition`: the operator and the array of successors,
one per outcome (an `int*`, given by its content at each index). -/
structure CachedTransition where
  op : Nat
  successors : Nat → Int

/-- The class `BisimilarStateSpace`, restricted to what the transition
generators read: the cached transitions per abstract state, the dead-end
state, the outcome probabilities of the operators of the task, and the
constant `PRUNED_STATE` of merge-and-shrink (not among the sources, taken as
a parameter). -/
structure BisimilarStateSpace where
  transitions_ : List (List CachedTransition)
  dead_end_state_ : Nat
  outcome_probabilities : Nat → List value_t
  PRUNED_STATE : Int

namespace BisimilarStateSpace

/-- The method `generate_applicable_actions`, appending to `result`; `none`
when `transitions_[s]` is out of range. -/
def generate_applicable_actions (bs : BisimilarStateSpace) (s : Nat)
    (result : List QuotientAction) : Option (List QuotientAction) :=
  if s = bs.dead_end_state_ then some result
  else
    match bs.transitions_[s]? with
    | none => none
    | some cache => some (result ++ (List.range cache.length).map QuotientAction.mk)

/-- The loop of `generate_action_transitions` over the outcomes from index
`i` on. -/
def transition_loop (bs : BisimilarStateSpace) (t : CachedTransition) :
    List value_t → Nat → Distribution Nat → Distribution Nat
  | [], _, result => result
  | probability :: rest, i, result =>
    let id := if t.successors i = bs.PRUNED_STATE then bs.dead_end_state_
      else (t.successors i).toNat
    transition_loop bs t rest (i + 1) (result.add_probability id probability)

/-- The method `generate_action_transitions`, adding to `result`; `none`
when `transitions_[s][a.idx]` is out of range. -/
def generate_action_transitions (bs : BisimilarStateSpace) (s : Nat) (a : QuotientAction)
    (result : Distribution Nat) : Option (Distribution Nat) :=
  match bs.transitions_[s]? with
  | none => none
  | some cache =>
    match cache[a.idx]? with
    | none => none
    | some t => some (transition_loop bs t (bs.outcome_probabilities t.op) 0 result)

/-- The call `result.resize(n)`: the first `n` entries, filled up with empty
distributions. -/
def resize (result : List (Distribution Nat)) (n : Nat) : List (Distribution Nat) :=
  result.take n ++ List.replicate (n - result.length) []

/-- The loop `for (int i = aops.size() - 1; i >= 0; --i)` of
`generate_all_transitions` with `n` iterations left (the next index is
`n - 1`). -/
def all_transitions_loop (bs : BisimilarStateSpace) (state : Nat) (aops : List QuotientAction) :
    Nat → List (Distribution Nat) → Option (List (Distribution Nat))
  | 0, result => some result
  | n + 1, result =>
    match aops[n]?, result[n]? with
    | some a, some r =>
      match bs.generate_action_transitions state a r with
      | none => none
      | some d => all_transitions_loop bs state aops n (result.set n d)
    | _, _ => none

/-- The method `generate_all_transitions`, appending to `aops` and filling
`result`. -/
def generate_all_transitions (bs : BisimilarStateSpace) (state : Nat)
    (aops : List QuotientAction) (result : List (Distribution Nat)) :
    Option (List QuotientAction × List (Distribution Nat)) :=
  match bs.generate_applicable_actions state aops with
  | none => none
  | some aops1 =>
    match all_transitions_loop bs state aops1 aops1.length (resize result aops1.length) with
    | none => none
    | some result1 => some (aops1, result1)

end BisimilarStateSpace

/-- The results of a sequence of calls, in order; `none` when one of the
calls is undefined. -/
def all_defined {α : Type} : List (Option α) → Option (List α)
  | [] => some []
  | none :: _ => none
  | some x :: rest =>
    match all_defined rest with
    | none => none
    | some xs => some (x :: xs)

/-- A bisimulation quotient used for concrete evaluations: state `0` has
two cached transitions (operator `0` to the states `1` and pruned, operator
`1` back to `0`), state `1` has none, and `2` is the dead-end state. -/
def example_bisimulation : BisimilarStateSpace where
  transitions_ :=
    [[⟨0, fun i => if i = 0 then 1 else -1⟩, ⟨1, fun _ => 0⟩], []]
  dead_end_state_ := 2
  outcome_probabilities := fun op => if op = 0 then [1 / 2, 1 / 2] else [1]
  PRUNED_STATE := -1

end bisimulation
end probfd

namespace probfd
namespace quotients
namespace DefaultQuotientSystem

variable {Action : Type}

/-- The loop `while (++i.id < size) { if (i == (ref & MASK)) break; }` of
`const_iterator::operator++`, after the increment: `j` is the incremented
id and `remaining` the distance from `j` to `quotient_ids_.size()` (zero
when `j` is not below the size). -/
def const_iterator_scan (w : Nat) (qs : DefaultQuotientSystem Action) : Nat → Nat → Nat
  | 0, j => j
  | remaining + 1, j =>
    if j = qs.quotient_ids_.getD j 0 &&& MASK w then j
    else const_iterator_scan w qs remaining (j + 1)

/-- The prefix `const_iterator::operator++` on the iterator at id `i`. -/
def const_iterator_next (w : Nat) (qs : DefaultQuotientSystem Action) (i : Nat) : Nat :=
  const_iterator_scan w qs (qs.quotient_ids_.length - (i + 1)) (i + 1)

/-- The ids dereferenced by a loop from the iterator at id `i` to `end()`
(the iterator at `quotient_ids_.size()`), with the given number of
iterations as fuel. -/
def const_iterator_range (w : Nat) (qs : DefaultQuotientSystem Action) : Nat → Nat → List Nat
  | 0, _ => []
  | fuel + 1, i =>
    if i = qs.quotient_ids_.length then []
    else i :: const_iterator_range w qs fuel (const_iterator_next w qs i)

/-- The ids visited by `for (StateID repr_id : *sys)`: from `begin()`, the
iterator at id `0`, to `end()`. Every iteration moves the iterator forward,
so `quotient_ids_.size()` iterations are enough. -/
def iterated_ids (w : Nat) (qs : DefaultQuotientSystem Action) : List Nat :=
  const_iterator_range w qs qs.quotient_ids_.length 0

/-- The method `quotient_range`: the member ids of the class of the state,
or the state alone when it is in no class; `none` when the class lookup has
undefined behaviour. -/
def quotient_range (w : Nat) (qs : DefaultQuotientSystem Action) (state_id : Nat) :
    Option (List Nat) :=
  match qs.get_quotient_info w state_id with
  | none => none
  | some none => some [state_id]
  | some (some info) => some info.states

/-- Every stored class lists its representative first, and every id stored
in `quotient_ids_` is below `2^(w-1)`. -/
structure RepFirst (w : Nat) (qs : DefaultQuotientSystem Action) : Prop where
  head : ∀ r q, qs.quotients_ r = some q → q.states.head? = some r
  size_le : qs.quotient_ids_.length ≤ 2 ^ (w - 1)

end DefaultQuotientSystem
end quotients

namespace engines
namespace interval_iteration

open quotients

/-- The outputs of `mysolve` that the six-argument `solve` lifts to the
members of the classes: the value store and the two state lists. -/
structure LiftState (V : Type) where
  value_store : Nat → V
  dead_ends : List Nat
  one_states : List Nat

/-- The loop `for (++sit; sit != send; ++sit)` of the six-argument `solve`
over the members after the first. -/
def lift_members {V : Type} (value : V) (dead one : Bool) : List Nat → LiftState V → LiftState V
  | [], st => st
  | m :: rest, st =>
    lift_members value dead one rest
      { value_store := Function.update st.value_store m value,
        dead_ends := if dead then st.dead_ends ++ [m] else st.dead_ends,
        one_states := if one then st.one_states ++ [m] else st.one_states }

/-- The body of the loop `for (StateID repr_id : *sys)` of the six-argument
`solve`; `none` when `quotient_range` is undefined or empty. -/
def lift_class {Action V : Type} (w : Nat) (sys : DefaultQuotientSystem Action)
    (repr_id : Nat) (st : LiftState V) : Option (LiftState V) :=
  match sys.quotient_range w repr_id with
  | none => none
  | some [] => none
  | some (repr :: rest) =>
    let value := st.value_store repr
    let dead := st.dead_ends.contains repr
    let one := st.one_states.contains repr
    some (lift_members value dead one rest st)

/-- The loop `for (StateID repr_id : *sys)` over the given ids. -/
def lift_loop {Action V : Type} (w : Nat) (sys : DefaultQuotientSystem Action) :
    List Nat → LiftState V → Option (LiftState V)
  | [], st => some st
  | repr_id :: rest, st =>
    match lift_class w sys repr_id st with
    | none => none
    | some st1 => lift_loop w sys rest st1

/-- The loop keeps the entries of the representatives: the value of every
representative of a class and its membership in the two state lists are
those of `st0`. -/
def reps_kept {Action V : Type} (sys : DefaultQuotientSystem Action) (st0 st : LiftState V) :
    Prop :=
  ∀ r q, sys.quotients_ r = some q →
    st.value_store r = st0.value_store r ∧
      (r ∈ st.dead_ends ↔ r ∈ st0.dead_ends) ∧ (r ∈ st.one_states ↔ r ∈ st0.one_states)

/-- The class of `r` has been lifted: every member has the value that `r`
has in `st0` and is in each state list of `st` when `r` is in that of
`st0`. -/
def class_done {Action V : Type} (sys : DefaultQuotientSystem Action) (st0 st : LiftState V)
    (r : Nat) : Prop :=
  ∀ q, sys.quotients_ r = some q → ∀ m ∈ q.states,
    st.value_store m = st0.value_store r ∧
      (r ∈ st0.dead_ends → m ∈ st.dead_ends) ∧ (r ∈ st0.one_states → m ∈ st.one_states)

/-- The part of the six-argument `solve` after the call of `mysolve`, whose
outputs are `st` and the quotient system `sys` (the decomposition, the
reachability analysis and the value iteration called by `mysolve` are not
among the sources). -/
def solve_lift {Action V : Type} (w : Nat) (sys : DefaultQuotientSystem Action)
    (st : LiftState V) : Option (LiftState V) :=
  lift_loop w sys (sys.iterated_ids w) st

end interval_iteration
end engines
end probfd

namespace probfd
namespace quotients
namespace DefaultQuotientSystem

variable {Action : Type}

/-- The one-argument method `build_quotient(Range& states)`: `dummy` holds
one empty action list per state, `range` zips the states with it, and the
entry passed on is `*range.begin()`. The result is `none` when the range is
empty: `range.begin()` is then the end iterator, and dereferencing it is
undefined. -/
def build_quotient_range [DecidableEq Action] (w : Nat) (qs : DefaultQuotientSystem Action)
    (states : List Nat) : Option (DefaultQuotientSystem Action) :=
  let dummy : List (List (QuotientAction Action)) := List.replicate states.length []
  let range := List.zip states dummy
  match range with
  | [] => none
  | entry :: _ => build_quotient w qs range entry

end DefaultQuotientSystem
end quotients

namespace engines
namespace interval_iteration

open quotients quotients.DefaultQuotientSystem

/-- The part of `IntervalIteration::mysolve` up to the two calls of
`build_quotient`. The qualitative reachability analysis `qr_analysis` is not
among the sources: `run_analysis` gives the dead states and the
probability-one states it finds on the quotient system. The dead states are
appended to `dead_ends`; the probability-one states are appended to
`one_states` when `extract_probability_one_states_` is set and discarded
otherwise. Then `sys.build_quotient(dead_ends)` and
`sys.build_quotient(one_states)` are called. -/
def mysolve_build_quotients {Action : Type} [DecidableEq Action]
    (extract_probability_one_states_ : Bool)
    (run_analysis : DefaultQuotientSystem Action → List Nat × List Nat)
    (w : Nat) (sys : DefaultQuotientSystem Action) (dead_ends one_states : List Nat) :
    Option (DefaultQuotientSystem Action) :=
  let found := run_analysis sys
  let dead_ends1 := dead_ends ++ found.1
  let one_states1 := if extract_probability_one_states_ then one_states ++ found.2 else one_states
  match build_quotient_range w sys dead_ends1 with
  | none => none
  | some sys1 => build_quotient_range w sys1 one_states1

end interval_iteration
end engines

namespace value_type

/-- Modelled from the spec: the scalar values with `+∞` (`value_type::value_t`
with `value_type::inf`, declared in `value_type.h`, which is not among the
sources). The finite values are rationals; the other values of the `f64`
type are `+∞`, `-∞` and not-a-number. -/
inductive xvalue_t where
  | fin (q : ℚ)
  | pinf
  | ninf
  | nan
  deriving DecidableEq

namespace xvalue_t

/-- Addition of the `f64` type, exact on finite values. -/
def add : xvalue_t → xvalue_t → xvalue_t
  | fin a, fin b => fin (a + b)
  | nan, _ => nan
  | _, nan => nan
  | pinf, ninf => nan
  | ninf, pinf => nan
  | pinf, _ => pinf
  | _, pinf => pinf
  | ninf, _ => ninf
  | _, ninf => ninf

/-- Negation of the `f64` type. -/
def neg : xvalue_t → xvalue_t
  | fin a => fin (-a)
  | pinf => ninf
  | ninf => pinf
  | nan => nan

/-- Subtraction of the `f64` type, exact on finite values. -/
def sub (a b : xvalue_t) : xvalue_t := add a (neg b)

/-- The product of a finite value and an infinity with the given sign
(`true` for `+∞`). -/
def mul_inf (a : ℚ) (positive : Bool) : xvalue_t :=
  if a = 0 then nan
  else if (0 < a) = positive then pinf
  else ninf

/-- Multiplication of the `f64` type, exact on finite values. -/
def mul : xvalue_t → xvalue_t → xvalue_t
  | fin a, fin b => fin (a * b)
  | nan, _ => nan
  | _, nan => nan
  | fin a, pinf => mul_inf a true
  | fin a, ninf => mul_inf a false
  | pinf, fin b => mul_inf b true
  | ninf, fin b => mul_inf b false
  | pinf, pinf => pinf
  | ninf, ninf => pinf
  | pinf, ninf => ninf
  | ninf, pinf => ninf

/-- The comparison `<` of the `f64` type: false when an operand is
not-a-number. -/
def lt : xvalue_t → xvalue_t → Bool
  | fin a, fin b => decide (a < b)
  | nan, _ => false
  | _, nan => false
  | ninf, ninf => false
  | ninf, _ => true
  | _, ninf => false
  | pinf, _ => false
  | fin _, pinf => true

/-- Modelled from the spec: `is_approx_less` on the values with `+∞`:
`v1` is below `v2` by more than the tolerance. -/
def is_approx_less (v1 v2 : xvalue_t) (eps : ℚ) : Bool := lt (add v1 (fin eps)) v2

end xvalue_t

end value_type

namespace policy_tiebreaking
namespace VDiffTiebreaker

open value_type

/-- The inner loop of `pick` on values with `+∞`: `lookup_dual_bounds` gives
the lower and the upper bound of a state, its `error_bound()` is their
difference (modelled from the spec, as `error_bound` above). -/
def weighted_sum_inf (lookup_dual_bounds : Nat → xvalue_t × xvalue_t)
    (t : Distribution Nat) : xvalue_t :=
  t.foldl
    (fun sum it =>
      sum.add ((xvalue_t.fin it.2).mul
        ((lookup_dual_bounds it.1).2.sub (lookup_dual_bounds it.1).1)))
    (xvalue_t.fin 0)

/-- The loop `for (int i = successors.size() - 1; i >= 0; --i)` of `pick` on
values with `+∞`, with `n` iterations left (the next index is `n - 1`), on
the pair of `best` and `choice`. -/
def pick_loop_inf (tb : VDiffTiebreaker) (eps : value_t)
    (lookup_dual_bounds : Nat → xvalue_t × xvalue_t) (successors : List (Distribution Nat)) :
    Nat → xvalue_t × Nat → xvalue_t × Nat
  | 0, st => st
  | n + 1, (best, choice) =>
    let sum := weighted_sum_inf lookup_dual_bounds (successors.getD n [])
    if xvalue_t.is_approx_less ((xvalue_t.fin tb.favor_large_gaps_).mul sum) best eps then
      pick_loop_inf tb eps lookup_dual_bounds successors n (sum, n)
    else
      pick_loop_inf tb eps lookup_dual_bounds successors n (best, choice)

/-- The method `pick` on values with `+∞`: `best` starts as
`value_type::inf` and `choice` as `1`. -/
def pick_inf (tb : VDiffTiebreaker) (eps : value_t)
    (lookup_dual_bounds : Nat → xvalue_t × xvalue_t) (successors : List (Distribution Nat)) :
    Nat :=
  (pick_loop_inf tb eps lookup_dual_bounds successors successors.length (xvalue_t.pinf, 1)).2

end VDiffTiebreaker
end policy_tiebreaking

namespace solvers

/-- What `algorithm->compute_policy` does in `MDPSolver::solve`: it raises
`utils::TimeoutException`, or returns a null policy, or returns a policy. -/
inductive ComputePolicyResult where
  | timeout
  | no_policy
  | policy
  deriving DecidableEq, Repr

/-- The blocks of output of `MDPSolver::solve`, in the order of the code. -/
inductive ReportLine where
  | running_algorithm
  | analysis_done
  | analysis_result
  | policy_file
  | trajectory_file (i : Nat)
  | registered_states (n : Nat)
  | state_space_statistics
  | algorithm_statistics
  | heuristic_statistics
  | additional_statistics
  | time_limit_reached
  deriving DecidableEq, Repr

/-- The method `MDPSolver::solve` as the sequence of output blocks it
writes: the header line, then the `try` block, which is left at the call of
`compute_policy` when that raises the timeout, and the handler of
`utils::TimeoutException`. `trajectories` is the configured number of
trajectories and `num_registered_states` the count of the state space. -/
def solve (compute_policy : ComputePolicyResult) (trajectories : Nat)
    (num_registered_states : Nat) : List ReportLine :=
  [ReportLine.running_algorithm] ++
    match compute_policy with
    | ComputePolicyResult.timeout => [ReportLine.time_limit_reached]
    | ComputePolicyResult.no_policy =>
      [ReportLine.analysis_done, ReportLine.registered_states num_registered_states,
        ReportLine.state_space_statistics, ReportLine.algorithm_statistics,
        ReportLine.heuristic_statistics, ReportLine.additional_statistics]
    | ComputePolicyResult.policy =>
      [ReportLine.analysis_done, ReportLine.analysis_result, ReportLine.policy_file] ++
        (List.range trajectories).map ReportLine.trajectory_file ++
        [ReportLine.registered_states num_registered_states,
          ReportLine.state_space_statistics, ReportLine.algorithm_statistics,
          ReportLine.heuristic_statistics, ReportLine.additional_statistics]

end solvers
end probfd

namespace probfd
namespace heuristics
namespace pdbs
namespace cegar

/-- Modelled from the spec: the entry of the map `probabilities` of
`PUCSFlawFinder` (declared in `pucs_flaw_finder.h`, which is not among the
sources): the `expanded` flag and the highest path probability found so
far, `false` and `0` in a new entry. -/
structure ExpansionInfo where
  expanded : Bool := false
  path_probability : value_t := 0
  deriving DecidableEq

/-- What `PUCSFlawFinder::expand` reads from the pattern database, the
policy and the task, for concrete states given by their registry ids:
whether the abstract state of a state is a dead end, the operators of the
policy for it, whether the state is a goal state of the task, whether the
preconditions of an operator on the variables that are not blacklisted hold
in a state, and the outcomes of an operator in a state as pairs of the
probability and the successor state. -/
structure FlawSearchModel where
  is_dead_end : Nat → Bool
  abs_operators : Nat → List Nat
  is_goal_state : Nat → Bool
  preconditions_ok : Nat → Nat → Bool
  outcomes : Nat → Nat → List (value_t × Nat)
  max_search_states : Nat

/-- The state of the flaw search: the queue `pq` as the list of its entries
in the order of insertion, the map `probabilities` and the ids of the
states of the registry. -/
structure SearchState where
  pq : List (value_t × Nat)
  probabilities : Nat → ExpansionInfo
  registry : List Nat

/-- The entry of highest path probability of a non-empty queue, the
earliest one among equals. -/
def pq_top : (value_t × Nat) → List (value_t × Nat) → value_t × Nat
  | best, [] => best
  | best, e :: rest => if best.1 < e.1 then pq_top e rest else pq_top best rest

/-- The method `pq.pop()`: the entry of highest path probability and the
queue without it; `none` on an empty queue. -/
def pq_pop : List (value_t × Nat) → Option ((value_t × Nat) × List (value_t × Nat))
  | [] => none
  | e :: rest => some (pq_top e rest, (e :: rest).erase (pq_top e rest))

/-- The loop over the outcomes of `PUCSFlawFinder::expand`: the successor is
registered, the search is given up (`false`) when the registry holds more
than `max_search_states` states, and the successor is pushed when it is not
expanded and reached with a higher path probability than before. -/
def expand_outcomes (m : FlawSearchModel) (path_probability : value_t) :
    List (value_t × Nat) → SearchState → Bool × SearchState
  | [], st => (true, st)
  | (p, successor) :: rest, st =>
    let succ_prob := path_probability * p
    let registry1 :=
      if st.registry.contains successor then st.registry else st.registry ++ [successor]
    if registry1.length > m.max_search_states then
      (false, { st with registry := registry1 })
    else
      let succ_entry := st.probabilities successor
      if !succ_entry.expanded && decide (succ_entry.path_probability < succ_prob) then
        expand_outcomes m path_probability rest
          { pq := st.pq ++ [(succ_prob, successor)],
            probabilities :=
              Function.update st.probabilities successor
                { expanded := succ_entry.expanded, path_probability := succ_prob },
            registry := registry1 }
      else
        expand_outcomes m path_probability rest
          { pq := st.pq, probabilities := st.probabilities, registry := registry1 }

/-- The loop over the operators of the policy of `PUCSFlawFinder::expand`:
the first operator without a precondition flaw generates the successors;
when every operator has one, the flaws are inserted and the result is
`false`. The flaw list is only written and is left out. -/
def expand_operators (m : FlawSearchModel) (state : Nat) (path_probability : value_t) :
    List Nat → SearchState → Bool × SearchState
  | [], st => (false, st)
  | op :: ops, st =>
    if !m.preconditions_ok op state then expand_operators m state path_probability ops st
    else expand_outcomes m path_probability (m.outcomes op state) st

/-- The method `PUCSFlawFinder::expand`. -/
def expand (m : FlawSearchModel) (state : Nat) (path_probability : value_t)
    (st : SearchState) : Bool × SearchState :=
  if m.is_dead_end state then (true, st)
  else if (m.abs_operators state).isEmpty then
    if !m.is_goal_state state then (false, st) else (true, st)
  else expand_operators m state path_probability (m.abs_operators state) st

/-- The result of `PUCSFlawFinder::apply_policy`: the returned value and the
values of the condition of `assert(!info.expanded)` at the pops, in order
(the function itself runs as without assertions). -/
structure ApplyPolicyResult where
  result : Bool
  asserts : List Bool
  deriving DecidableEq

/-- The loop `do ... while (!pq.empty())` of `PUCSFlawFinder::apply_policy`
with the given number of iterations as fuel; the timer is taken not to
expire. The result is `none` when the fuel runs out or the queue is popped
while empty. -/
def apply_policy_loop (m : FlawSearchModel) :
    Nat → SearchState → List Bool → Option ApplyPolicyResult
  | 0, _, _ => none
  | fuel + 1, st, asserts =>
    match pq_pop st.pq with
    | none => none
    | some ((path_probability, current), pq1) =>
      let info := st.probabilities current
      let asserts1 := asserts ++ [!info.expanded]
      if path_probability < info.path_probability then
        if pq1.isEmpty then some { result := true, asserts := asserts1 }
        else
          apply_policy_loop m fuel
            { pq := pq1, probabilities := st.probabilities, registry := st.registry } asserts1
      else
        let r := expand m current path_probability
          { pq := pq1,
            probabilities :=
              Function.update st.probabilities current
                { expanded := true, path_probability := info.path_probability },
            registry := st.registry }
        if !r.1 then some { result := false, asserts := asserts1 }
        else if r.2.pq.isEmpty then some { result := true, asserts := asserts1 }
        else apply_policy_loop m fuel r.2 asserts1

/-- The method `PUCSFlawFinder::apply_policy` for the initial state `init`:
the queue and the map are empty at the start, the initial state is
registered, pushed with the path probability `1` and recorded with it. -/
def apply_policy (m : FlawSearchModel) (fuel : Nat) (init : Nat) : Option ApplyPolicyResult :=
  apply_policy_loop m fuel
    { pq := [(1, init)],
      probabilities :=
        Function.update (fun _ => ({} : ExpansionInfo)) init
          { expanded := false, path_probability := 1 },
      registry := [init] } []

/-- A task used for concrete evaluations: in the state `0` the operator of
the policy leads to the state `1` with probability `3/10` and to the state
`2` with probability `7/10`; in the state `2` it leads to the state `1` with
probability `1`; the state `1` is a dead end of the pattern database. -/
def example_diamond : FlawSearchModel where
  is_dead_end := fun s => decide (s = 1)
  abs_operators := fun _ => [0]
  is_goal_state := fun _ => false
  preconditions_ok := fun _ _ => true
  outcomes := fun _ s =>
    if s = 0 then [(3 / 10, 1), (7 / 10, 2)] else if s = 2 then [(1, 1)] else []
  max_search_states := 100

end cegar
end pdbs
end heuristics
end probfd

namespace probfd
namespace engines
namespace exhaustive_ao

open value_utils

/-- Modelled from the spec: the per-state information of the AO* engines
(`ao_search::PerStateInformation`, declared in `ao_search.h`, which is not
among the sources) with the two fields `exhaustive_ao` adds: the flags read
by `is_solved()`, `is_tip_state()`, `is_dead_end()` and `is_marked()`, the
parent back-pointers (`add_parent` appends one), the update order, and the
bit-fields `unsolved : 31` and `alive : 1`. -/
structure PerStateInformation where
  solved : Bool := false
  tip_state : Bool := true
  dead_end : Bool := false
  marked : Bool := false
  parents : List Nat := []
  update_order : Nat := 0
  unsolved : Nat := 0
  alive : Bool := false
  deriving DecidableEq

/-- The interface `engine_interfaces::OpenList<Action>` (its header is not
among the sources), on a list type `L`: `pop` is `none` where it is
undefined. -/
structure OpenList (Action L : Type) where
  empty : L → Bool
  pop : L → Option (Nat × L)
  push : L → Nat → L
  push_transition : L → Nat → Action → value_t → Nat → L

/-- How a call ends: it returns, or a `TimeoutException` leaves it, or its
behaviour is undefined. -/
inductive Outcome (α : Type) where
  | ret (a : α)
  | timeout
  | undefined

/-- The state of the search engine: the per-state information, the open
list, the counter `statistics_.iterations` and the remaining state `base` of
the base class `AOBase` (value store, queue, statistics). -/
structure SearchState (L B : Type) where
  state_infos : Nat → PerStateInformation
  open_list : L
  iterations : Nat
  base : B

/-- The output flags of `initialize_tip_state_value`. -/
structure TipFlags where
  terminal : Bool
  solved : Bool
  dead : Bool
  value_changed : Bool
  deriving DecidableEq

/-- The members of the base class `AOBase` (`ao_search.h`, not among the
sources) and of the MDP that `do_solve` and `step` call, as functions on the
state of the engine; the ones that take the timer may raise the timeout. -/
structure AOBase (Action L B : Type) where
  initialize_tip_state_value :
    Nat → SearchState L B → Outcome (SearchState L B × TipFlags)
  mark_solved_push_parents : Nat → Bool → SearchState L B → SearchState L B
  backpropagate_tip_value : SearchState L B → Outcome (SearchState L B)
  backpropagate_update_order : Nat → SearchState L B → Outcome (SearchState L B)
  push_parents_to_queue : Nat → SearchState L B → SearchState L B
  generate_all_transitions : Nat → List (Action × Distribution Nat)
  get_bounds : SearchState L B → Nat → IntervalValue

/-- The local variables of the expansion in `step` together with the
per-state information and the open list. The counters `alive`, `unsolved`
and `min_succ_order` are of the type `unsigned`, a 32-bit integer: their
increments are taken modulo `2^32`. -/
structure Expansion (L : Type) where
  state_infos : Nat → PerStateInformation
  open_list : L
  alive : Nat
  unsolved : Nat
  min_succ_order : Nat

variable {Action L B : Type}

/-- The body of the inner loop of the expansion in `step` for one entry
`(succid, prob)` of the transition of the operator `op`. -/
def expand_successor (ol : OpenList Action L) (stateid : Nat) (op : Action)
    (ex : Expansion L) (sp : Nat × value_t) : Expansion L :=
  let succ_info := ex.state_infos sp.1
  if !succ_info.solved then
    let ex1 : Expansion L :=
      if !succ_info.marked then
        { state_infos :=
            Function.update ex.state_infos sp.1
              { succ_info with marked := true, parents := succ_info.parents ++ [stateid] },
          open_list := ex.open_list,
          alive := ex.alive,
          unsolved := (ex.unsolved + 1) % 2 ^ 32,
          min_succ_order := min ex.min_succ_order succ_info.update_order }
      else ex
    { state_infos := ex1.state_infos,
      open_list := ol.push_transition ex1.open_list stateid op sp.2 sp.1,
      alive := ex1.alive,
      unsolved := ex1.unsolved,
      min_succ_order := ex1.min_succ_order }
  else if !succ_info.dead_end then
    { state_infos := ex.state_infos,
      open_list := ex.open_list,
      alive := (ex.alive + 1) % 2 ^ 32,
      unsolved := ex.unsolved,
      min_succ_order := ex.min_succ_order }
  else ex

/-- The two nested loops of the expansion in `step` over the operators and
the entries of their transitions. -/
def expand_successors (ol : OpenList Action L) (stateid : Nat)
    (transitions : List (Action × Distribution Nat)) (ex : Expansion L) : Expansion L :=
  transitions.foldl (fun ex t => t.2.foldl (expand_successor ol stateid t.1) ex) ex

/-- The loop of `step` that calls `unmark()` on every successor in the
support of every transition. -/
def unmark_successors (transitions : List (Action × Distribution Nat))
    (state_infos : Nat → PerStateInformation) : Nat → PerStateInformation :=
  transitions.foldl
    (fun infos t =>
      (Distribution.support t.2).foldl
        (fun infos succ_id => Function.update infos succ_id { infos succ_id with marked := false })
        infos)
    state_infos

/-- The condition of `assert(!this->open_list_->empty())` at the start of
`step`. -/
def step_assert (ol : OpenList Action L) (st : SearchState L B) : Bool :=
  !ol.empty st.open_list

/-- The part of `step` after `generate_all_transitions`, in the state `st`
left by `initialize_tip_state_value` with the output flag `value_changed`. -/
def step_expand (ol : OpenList Action L) (bf : AOBase Action L B) (stateid : Nat)
    (value_changed : Bool) (st : SearchState L B) : Outcome (SearchState L B) :=
  let transitions := bf.generate_all_transitions stateid
  let ex := expand_successors ol stateid transitions
    { state_infos := st.state_infos, open_list := st.open_list, alive := 0, unsolved := 0,
      min_succ_order := 2 ^ 32 - 1 }
  let alive : Bool := decide (ex.alive > 0)
  let infos1 :=
    Function.update ex.state_infos stateid { ex.state_infos stateid with alive := alive }
  if ex.unsolved = 0 then
    bf.backpropagate_tip_value
      (bf.mark_solved_push_parents stateid (alive == false)
        { state_infos := infos1, open_list := ex.open_list, iterations := st.iterations,
          base := st.base })
  else
    let infos2 :=
      Function.update infos1 stateid
        { infos1 stateid with
          update_order := (ex.min_succ_order + 1) % 2 ^ 32,
          unsolved := ex.unsolved % 2 ^ 31 }
    let infos3 := unmark_successors transitions infos2
    match bf.backpropagate_update_order stateid
        { state_infos := infos3, open_list := ex.open_list, iterations := st.iterations,
          base := st.base } with
    | Outcome.ret st1 =>
      if value_changed then bf.backpropagate_tip_value (bf.push_parents_to_queue stateid st1)
      else Outcome.ret st1
    | Outcome.timeout => Outcome.timeout
    | Outcome.undefined => Outcome.undefined

/-- The method `step`; the assertion at its start is `step_assert`. -/
def step (ol : OpenList Action L) (bf : AOBase Action L B) (st : SearchState L B) :
    Outcome (SearchState L B) :=
  match ol.pop st.open_list with
  | none => Outcome.undefined
  | some (stateid, l1) =>
    let info := st.state_infos stateid
    if !info.tip_state || info.solved then
      Outcome.ret
        { state_infos := st.state_infos, open_list := l1, iterations := st.iterations,
          base := st.base }
    else
      match bf.initialize_tip_state_value stateid
          { state_infos := st.state_infos, open_list := l1, iterations := st.iterations + 1,
            base := st.base } with
      | Outcome.ret (st1, flags) =>
        if flags.terminal then Outcome.ret st1
        else step_expand ol bf stateid flags.value_changed st1
      | Outcome.timeout => Outcome.timeout
      | Outcome.undefined => Outcome.undefined

/-- The loop `do ... while (!state_info.is_solved())` of `do_solve` with the
given number of iterations as fuel; `expired k` tells whether the timer has
expired at the start of the iteration `k`. The result is `none` when the
fuel runs out; a returned value is the pair of `state_info.get_bounds()` and
the final state of the engine. The progress output is left out. -/
def do_solve_loop (ol : OpenList Action L) (bf : AOBase Action L B) (expired : Nat → Bool)
    (stateid : Nat) :
    Nat → Nat → SearchState L B → Option (Outcome (IntervalValue × SearchState L B))
  | 0, _, _ => none
  | fuel + 1, k, st =>
    if expired k then some Outcome.timeout
    else
      match step ol bf st with
      | Outcome.ret st1 =>
        if !(st1.state_infos stateid).solved then
          do_solve_loop ol bf expired stateid fuel (k + 1) st1
        else some (Outcome.ret (bf.get_bounds st1 stateid, st1))
      | Outcome.timeout => some Outcome.timeout
      | Outcome.undefined => some Outcome.undefined

/-- The method `do_solve` for the initial state with the id `stateid`. -/
def do_solve (ol : OpenList Action L) (bf : AOBase Action L B) (expired : Nat → Bool)
    (fuel : Nat) (stateid : Nat) (st : SearchState L B) :
    Option (Outcome (IntervalValue × SearchState L B)) :=
  do_solve_loop ol bf expired stateid fuel 0
    { state_infos := st.state_infos, open_list := ol.push st.open_list stateid,
      iterations := st.iterations, base := st.base }

/-- An instance of the parameters `AOBase`, used to show that the hypotheses
of the statements about `step` can be met together. It is not a model of
`ao_search.h`: every member returns the state of the engine as it is, and
`initialize_tip_state_value` reports a state that is not terminal; the
transitions of the applicable operators of a state are the given ones. -/
def idle_base (transitions : Nat → List (Nat × Distribution Nat)) :
    AOBase Nat open_lists.FifoOpenList Unit where
  initialize_tip_state_value := fun _ st =>
    Outcome.ret
      (st, { terminal := false, solved := false, dead := false, value_changed := false })
  mark_solved_push_parents := fun _ _ st => st
  backpropagate_tip_value := fun st => Outcome.ret st
  backpropagate_update_order := fun _ st => Outcome.ret st
  push_parents_to_queue := fun _ st => st
  generate_all_transitions := transitions
  get_bounds := fun _ _ => ⟨0, 0⟩

/-- That the members of the base class called after the expansion leave the
mark bits as they are. -/
structure KeepsMarks (bf : AOBase Action L B) : Prop where
  mark_solved_push_parents : ∀ s d st id,
    ((bf.mark_solved_push_parents s d st).state_infos id).marked = (st.state_infos id).marked
  backpropagate_tip_value : ∀ st st1, bf.backpropagate_tip_value st = Outcome.ret st1 →
    ∀ id, (st1.state_infos id).marked = (st.state_infos id).marked
  backpropagate_update_order : ∀ s st st1,
    bf.backpropagate_update_order s st = Outcome.ret st1 →
    ∀ id, (st1.state_infos id).marked = (st.state_infos id).marked
  push_parents_to_queue : ∀ s st id,
    ((bf.push_parents_to_queue s st).state_infos id).marked = (st.state_infos id).marked

end exhaustive_ao
end engines
end probfd

namespace probfd
namespace engines
namespace exhaustive_ao

variable {L : Type}

end exhaustive_ao
end engines
end probfd

namespace probabilistic
namespace pdbs

/-- The largest value of the type `int` (32 bits). -/
def maxint : Int := 2 ^ 31 - 1

/-- The smallest value of the type `int` (32 bits). -/
def minint : Int := -(2 ^ 31)

/-- The element `xs[i]` of a vector for an `int` index; `none` when the
index is out of range, where the access is undefined. -/
def read (xs : List Int) (i : Int) : Option Int :=
  if 0 ≤ i ∧ i < xs.length then xs[i.toNat]? else none

/-- The product of two values of type `int`; `none` on overflow, which is
undefined. -/
def int_mul (a b : Int) : Option Int :=
  if minint ≤ a * b ∧ a * b ≤ maxint then some (a * b) else none

/-- The quotient `a / b` of two values of type `int`, rounded towards zero;
`none` where it is undefined. -/
def int_div (a b : Int) : Option Int :=
  if b = 0 ∨ (a = minint ∧ b = -1) then none else some (a.tdiv b)

/-- The class `AbstractStateMapper`; the members of type `int` and
`std::vector<int>` hold values of type `int`. -/
structure AbstractStateMapper where
  oob_ : Bool
  size_ : Int
  vars_ : List Int
  domains_ : List Int
  multipliers_ : List Int
  deriving DecidableEq, Repr

namespace AbstractStateMapper

/-- The body of the constructor from the variable at position `j` on,
`rest` being the variables from that position on: the loop
`for (unsigned i = 1; i < variables.size(); i++)` handles the variable at
position `i - 1` and writes `multipliers_[i]`; the statements after the
loop handle the last variable in the same way and write `size_`. The result
is `none` where the code is undefined (an index out of range, a division by
zero, an overflow of the multiplication). -/
def construct_loop (domains : List Int) :
    List Int → Nat → AbstractStateMapper → Option AbstractStateMapper
  | [], _, m => some m
  | v :: rest, j, m =>
    match read domains v with
    | none => none
    | some d =>
      if j < m.domains_.length then
        let domains1 := m.domains_.set j d
        match m.multipliers_[j]?, int_div maxint d with
        | some mult, some q =>
          if mult > q then
            some { oob_ := true, size_ := m.size_, vars_ := m.vars_, domains_ := domains1,
                   multipliers_ := m.multipliers_ }
          else
            match int_mul mult d with
            | none => none
            | some p =>
              if rest.isEmpty then
                some { oob_ := m.oob_, size_ := p, vars_ := m.vars_, domains_ := domains1,
                       multipliers_ := m.multipliers_ }
              else if j + 1 < m.multipliers_.length then
                construct_loop domains rest (j + 1)
                  { oob_ := m.oob_, size_ := m.size_, vars_ := m.vars_, domains_ := domains1,
                    multipliers_ := m.multipliers_.set (j + 1) p }
              else none
        | _, _ => none
      else none

/-- The constructor `AbstractStateMapper(variables, domains)`; `none` where
the code is undefined, as for an empty pattern (`variables.back()`). The
parameter `vars` is the argument `variables`. -/
def construct (vars domains : List Int) : Option AbstractStateMapper :=
  if vars.isEmpty then none
  else
    construct_loop domains vars 0
      { oob_ := false, size_ := -1, vars_ := vars,
        domains_ := List.replicate vars.length 0,
        multipliers_ := List.replicate vars.length 1 }

/-- The method `size`: `size_` converted to `unsigned`. -/
def size (m : AbstractStateMapper) : Int := m.size_ % 2 ^ 32

/-- The method `is_size_within_limits`. -/
def is_size_within_limits (m : AbstractStateMapper) : Bool := !m.oob_

end AbstractStateMapper

/-- The domain sizes of the variables of a pattern, in the order of the
pattern (`0` for a variable that `domains` does not hold). -/
def pattern_domains (vars domains : List Int) : List Int :=
  vars.map (fun v => (read domains v).getD 0)

/-- The products `p`, `p * d0`, `p * d0 * d1`, ... of the domain sizes before
each position. -/
def prefix_products : Int → List Int → List Int
  | _, [] => []
  | p, d :: ds => p :: prefix_products (p * d) ds

end pdbs
end probabilistic

namespace probfd
namespace quotients

namespace QuotientInformation

variable {Action : Type}

/-- The counts of a class agree with its action vector: the outer and inner
counts of the members add up to `aops.size()`, and the outer counts add up
to `total_num_outer_acts`. -/
def counts_ok (q : QuotientInformation Action) : Prop :=
  (q.state_infos.map (fun i => i.num_outer_acts + i.num_inner_acts)).sum = q.aops.length ∧
    (q.state_infos.map StateInfo.num_outer_acts).sum = q.total_num_outer_acts

/-- The class that holds the members and the actions of `q1` followed by
those of `q2`. -/
def append (q1 q2 : QuotientInformation Action) : QuotientInformation Action :=
  { state_infos := q1.state_infos ++ q2.state_infos,
    aops := q1.aops ++ q2.aops,
    total_num_outer_acts := q1.total_num_outer_acts + q2.total_num_outer_acts }

end QuotientInformation

namespace DefaultQuotientSystem

variable {Action : Type}

/-- Every class stored in the quotient system has counts that agree with its
action vector. -/
def counts_ok (qs : DefaultQuotientSystem Action) : Prop :=
  ∀ r q, qs.quotients_ r = some q → q.counts_ok

/-- Whether the iterator `aid` of the loops of `generate_applicable_actions`
and `get_pruned_ops` stays within the action vector, of which `n` elements
are left: for every member, `aid + num_outer_acts` and then
`aid + num_inner_acts` are not past the end. -/
def reads_in_bounds : List StateInfo → Nat → Bool
  | [], _ => true
  | sinfo :: rest, n =>
    decide (sinfo.num_outer_acts ≤ n) &&
      (decide (sinfo.num_inner_acts ≤ n - sinfo.num_outer_acts) &&
        reads_in_bounds rest (n - sinfo.num_outer_acts - sinfo.num_inner_acts))

/-- The method `unsigned quotient_size(StateID) const`: the number of
members `state_infos.size()` converted to the return type `unsigned`, a
32-bit integer; `none` when the class lookup has undefined behaviour. -/
def quotient_size (w : Nat) (qs : DefaultQuotientSystem Action) (state_id : Nat) :
    Option Nat :=
  match qs.get_quotient_info w state_id with
  | none => none
  | some none => some 1
  | some (some info) => some (info.state_infos.length % 2 ^ 32)

/-- The condition of `assert(act_it == aops.end())` at the end of
`filter_actions`, which is reached when the filter is not empty: the
iterator `act_it` starts at `aops.begin()` and is advanced by
`num_outer_acts + num_inner_acts` for every member. -/
def filter_actions_assert (q : QuotientInformation Action)
    (filter : List (QuotientAction Action)) : Bool :=
  filter.isEmpty ||
    decide ((q.state_infos.map (fun i => i.num_outer_acts + i.num_inner_acts)).sum =
      q.aops.length)

/-- What the iteration of the loop of `build_quotient` for the listed state
`e` appends to the class of the representative: the class of `e` with its
actions filtered when `e` is in a class, and the block of the state
otherwise. -/
def listed_block [DecidableEq Action] (w : Nat) (qs : DefaultQuotientSystem Action)
    (e : Nat × List (QuotientAction Action)) : QuotientInformation Action :=
  if qs.get_masked_state_id e.1 &&& FLAG w ≠ 0 then
    ((qs.quotients_ (qs.get_masked_state_id e.1 &&& MASK w)).getD {}).filter_actions e.2
  else add_state qs.state_space_ {} e.1 e.2

end DefaultQuotientSystem
end quotients
end probfd

namespace probfd
namespace value_type

namespace xvalue_t

/-- The bound from which on the exact result of an operation of the binary64
format overflows to an infinity: `2^1024 - 2^970`. -/
def overflow_bound : ℚ := 2 ^ 1024 - 2 ^ 970

/-- The result of an operation of the binary64 format whose exact result is
the rational `q`: an infinity from `overflow_bound` on, and `q` otherwise
(the rounding of a result within the range is not modelled). -/
def overflow (q : ℚ) : xvalue_t :=
  if overflow_bound ≤ q then pinf
  else if q ≤ -overflow_bound then ninf
  else fin q

/-- Addition of the binary64 format with overflow. -/
def add64 : xvalue_t → xvalue_t → xvalue_t
  | fin a, fin b => overflow (a + b)
  | a, b => add a b

/-- Subtraction of the binary64 format with overflow. -/
def sub64 (a b : xvalue_t) : xvalue_t := add64 a (neg b)

/-- Multiplication of the binary64 format with overflow. -/
def mul64 : xvalue_t → xvalue_t → xvalue_t
  | fin a, fin b => overflow (a * b)
  | a, b => mul a b

/-- The function `std::abs` of the binary64 format. -/
def abs64 : xvalue_t → xvalue_t
  | fin a => fin |a|
  | pinf => pinf
  | ninf => pinf
  | nan => nan

/-- The position of a value in the order of the binary64 format; none for
not-a-number. A finite value from `overflow_bound` on, which no operation
produces, stands for the infinity of its sign. -/
def rank : xvalue_t → Option ℚ
  | fin q => some (max (-overflow_bound) (min overflow_bound q))
  | pinf => some overflow_bound
  | ninf => some (-overflow_bound)
  | nan => none

/-- The comparison `<` of the binary64 format: false when an operand is
not-a-number. -/
def lt64 (a b : xvalue_t) : Bool :=
  match rank a, rank b with
  | some x, some y => decide (x < y)
  | _, _ => false

/-- The comparison `<=` of the binary64 format: false when an operand is
not-a-number. -/
def le64 (a b : xvalue_t) : Bool :=
  match rank a, rank b with
  | some x, some y => decide (x ≤ y)
  | _, _ => false

end xvalue_t

/-- The arithmetic of the binary64 format on `xvalue_t` with the default
tolerance `eps` of the approximate comparisons: results are exact within the
range and overflow to the infinities (rounding is not modelled). -/
def binary64_ops (eps : ℚ) : value_ops xvalue_t where
  zero := xvalue_t.fin 0
  inf := xvalue_t.pinf
  eps := xvalue_t.fin eps
  add := xvalue_t.add64
  sub := xvalue_t.sub64
  mul := xvalue_t.mul64
  abs := xvalue_t.abs64
  lt := xvalue_t.lt64
  le := xvalue_t.le64

end value_type

namespace policy_tiebreaking
namespace VDiffTiebreaker

open value_type

variable {V : Type}

/-- The inner loop of `pick` in the arithmetic `ops` of the values:
`lookup_dual_bounds` gives the lower and the upper bound of a state, its
`error_bound()` is their computed difference (modelled from the spec, as
`error_bound` above). -/
def weighted_sum_ops (ops : value_ops V) (lookup_dual_bounds : Nat → V × V)
    (t : List (Nat × V)) : V :=
  t.foldl
    (fun sum it =>
      ops.add sum
        (ops.mul it.2 (ops.sub (lookup_dual_bounds it.1).2 (lookup_dual_bounds it.1).1)))
    ops.zero

/-- The number of iterations of the loop
`for (int i = successors.size() - 1; i >= 0; --i)` for a vector of `n`
elements: `successors.size() - 1` is computed in the 64-bit type `size_t`
(for the empty vector it is `2^64 - 1`) and converted to the 32-bit `int`
(for the empty vector `-1`); the loop starts at that value and is not
entered when it is negative. -/
def pick_iterations : Nat → Nat
  | 0 => 0
  | n + 1 => if n % 2 ^ 32 < 2 ^ 31 then n % 2 ^ 32 + 1 else 0

/-- The loop of `pick` in the arithmetic `ops` with `n` iterations left (the
next index is `n - 1`), on the pair of `best` and `choice`. -/
def pick_loop_ops (ops : value_ops V) (favor_large_gaps_ : V)
    (lookup_dual_bounds : Nat → V × V) (successors : List (List (Nat × V))) :
    Nat → V × Nat → V × Nat
  | 0, st => st
  | n + 1, (best, choice) =>
    let sum := weighted_sum_ops ops lookup_dual_bounds (successors.getD n [])
    if ops.is_approx_less (ops.mul favor_large_gaps_ sum) best then
      pick_loop_ops ops favor_large_gaps_ lookup_dual_bounds successors n (sum, n)
    else
      pick_loop_ops ops favor_large_gaps_ lookup_dual_bounds successors n (best, choice)

/-- The method `pick` in the arithmetic `ops` of the values: `best` starts as
`value_type::inf` and `choice` as `1`. The state, the previous policy and
the operators are ignored. -/
def pick_ops (ops : value_ops V) (favor_large_gaps_ : V)
    (lookup_dual_bounds : Nat → V × V) (successors : List (List (Nat × V))) : Nat :=
  (pick_loop_ops ops favor_large_gaps_ lookup_dual_bounds successors
    (pick_iterations successors.length) (ops.inf, 1)).2

end VDiffTiebreaker

/-- Value bounds used for concrete evaluations: state `0` has the bounds
`[-2^1023, 2^1023]`, every other state `[-3 * 2^1022, 3 * 2^1022]`. -/
def example_wide_bounds : Nat → value_utils.IntervalValue :=
  fun s => if s = 0 then ⟨-2 ^ 1023, 2 ^ 1023⟩ else ⟨-(3 * 2 ^ 1022), 3 * 2 ^ 1022⟩

/-- The value bounds `lookup_dual_bounds` with rational endpoints as pairs
of the lower and the upper bound in `xvalue_t`. -/
def xbounds (lookup_dual_bounds : Nat → value_utils.IntervalValue) :
    Nat → value_type.xvalue_t × value_type.xvalue_t :=
  fun s =>
    (value_type.xvalue_t.fin (lookup_dual_bounds s).lower,
     value_type.xvalue_t.fin (lookup_dual_bounds s).upper)

end policy_tiebreaking
end probfd

/-! ## Value updates -/

namespace probfd
namespace value_type

namespace value_ops

variable {V : Type}

/-- The three laws of `is_approx_less` used below hold in every arithmetic
whose values other than not-a-number are ranked in a linear order such that
`<` compares the ranks, adding the tolerance does not lower the rank, and
`inf` has the highest rank. -/
theorem approx_less_laws_of_rank {K : Type} [LinearOrder K] (ops : value_ops V)
    (rank : V → Option K)
    (hlt : ∀ a b, ops.lt a b = true ↔ ∃ u v, rank a = some u ∧ rank b = some v ∧ u < v)
    (hadd : ∀ a v, rank (ops.add a ops.eps) = some v → ∃ u, rank a = some u ∧ u ≤ v)
    (hinf : ∃ t, rank ops.inf = some t ∧ ∀ a u, rank a = some u → u ≤ t) :
    (∀ a, ops.is_approx_less a a = false) ∧
      (∀ a b c, ops.is_approx_less b c = true → ops.is_approx_less a c = false →
        ops.is_approx_less a b = false) ∧
      (∀ a b, ops.is_approx_less a b = true → ops.is_approx_less a ops.inf = true) := by
  refine ⟨?_, ?_, ?_⟩
  · intro a
    by_contra h
    have h1 : ops.lt (ops.add a ops.eps) a = true := by
      simpa [is_approx_less] using h
    obtain ⟨v, u1, hv, hu1, hlt1⟩ := (hlt _ _).1 h1
    obtain ⟨u, hu, hle⟩ := hadd a v hv
    rw [hu1] at hu
    cases hu
    exact absurd (lt_of_lt_of_le hlt1 hle) (lt_irrefl _)
  · intro a b c hbc hac
    by_contra hab
    have hab1 : ops.lt (ops.add a ops.eps) b = true := by
      simpa [is_approx_less] using hab
    obtain ⟨va, ub, hva, hub, h1⟩ := (hlt _ _).1 hab1
    obtain ⟨vb, wc, hvb, hwc, h2⟩ := (hlt _ _).1 hbc
    obtain ⟨ub1, hub1, h3⟩ := hadd b vb hvb
    rw [hub] at hub1
    cases hub1
    have : ops.lt (ops.add a ops.eps) c = true :=
      (hlt _ _).2 ⟨va, wc, hva, hwc, lt_trans (lt_of_lt_of_le h1 h3) h2⟩
    have hac1 : ops.lt (ops.add a ops.eps) c = false := hac
    rw [this] at hac1
    cases hac1
  · intro a b hab
    obtain ⟨va, ub, hva, hub, h1⟩ := (hlt _ _).1 hab
    obtain ⟨t, ht, htop⟩ := hinf
    exact (hlt _ _).2 ⟨va, t, hva, ht, lt_of_lt_of_le h1 (htop b ub hub)⟩

end value_ops

namespace xvalue_t

theorem overflow_bound_pos : 0 < overflow_bound := by
  unfold overflow_bound
  norm_num

theorem rank_overflow (q : ℚ) :
    rank (overflow q) = some (max (-overflow_bound) (min overflow_bound q)) := by
  have hT := overflow_bound_pos
  unfold overflow
  split_ifs with h1 h2
  · simp only [rank, min_eq_left h1]
    rw [max_eq_right (by linarith)]
  · simp only [rank]
    have : min overflow_bound q = q := min_eq_right (by linarith)
    rw [this, max_eq_left h2]
  · rfl

theorem rank_add64_eps (eps : ℚ) (heps : 0 ≤ eps) (a : xvalue_t) (v : ℚ)
    (h : rank (add64 a (fin eps)) = some v) : ∃ u, rank a = some u ∧ u ≤ v := by
  cases a with
  | fin q =>
    have h1 : add64 (fin q) (fin eps) = overflow (q + eps) := rfl
    rw [h1, rank_overflow] at h
    refine ⟨_, rfl, ?_⟩
    simp only [Option.some.injEq] at h
    rw [← h]
    exact max_le_max (le_refl _) (min_le_min (le_refl _) (by linarith))
  | pinf =>
    have h1 : overflow_bound = v := by simpa [add64, add, rank] using h
    exact ⟨_, rfl, h1.le⟩
  | ninf =>
    have h1 : -overflow_bound = v := by simpa [add64, add, rank] using h
    exact ⟨_, rfl, h1.le⟩
  | nan => simp [add64, add, rank] at h

theorem rank_le_bound (a : xvalue_t) (u : ℚ) (h : rank a = some u) : u ≤ overflow_bound := by
  have hT := overflow_bound_pos
  cases a with
  | fin q =>
    simp only [rank, Option.some.injEq] at h
    rw [← h]
    exact max_le (by linarith) (min_le_left _ _)
  | pinf => simp only [rank, Option.some.injEq] at h; rw [← h]
  | ninf => simp only [rank, Option.some.injEq] at h; rw [← h]; linarith
  | nan => simp [rank] at h

theorem lt64_iff (a b : xvalue_t) :
    lt64 a b = true ↔ ∃ u v, rank a = some u ∧ rank b = some v ∧ u < v := by
  unfold lt64
  cases ha : rank a with
  | none => simp
  | some x =>
    cases hb : rank b with
    | none => simp
    | some y => simp

end xvalue_t

/-- The laws of `is_approx_less` hold in the arithmetic `binary64_ops` for
every non-negative tolerance. -/
theorem binary64_approx_less_laws (eps : ℚ) (heps : 0 ≤ eps) :
    (∀ a, (binary64_ops eps).is_approx_less a a = false) ∧
      (∀ a b c, (binary64_ops eps).is_approx_less b c = true →
        (binary64_ops eps).is_approx_less a c = false →
        (binary64_ops eps).is_approx_less a b = false) ∧
      (∀ a b, (binary64_ops eps).is_approx_less a b = true →
        (binary64_ops eps).is_approx_less a (binary64_ops eps).inf = true) :=
  value_ops.approx_less_laws_of_rank (binary64_ops eps) xvalue_t.rank
    xvalue_t.lt64_iff
    (fun a v h => xvalue_t.rank_add64_eps eps heps a v h)
    ⟨xvalue_t.overflow_bound, rfl, xvalue_t.rank_le_bound⟩

end value_type
end probfd

namespace probfd
namespace value_utils

open value_type

end value_utils
end probfd


namespace probfd
namespace value_utils

open value_type

theorem update_seq_append (eps : value_t) (lhs : IntervalValue)
    (us vs : List (IntervalValue × Bool)) :
    update_seq eps lhs (us ++ vs) = update_seq eps (update_seq eps lhs us) vs := by
  simp [update_seq, List.foldl_append]

theorem update_seq_monotone (eps : value_t) (vs : List (IntervalValue × Bool)) :
    ∀ lhs : IntervalValue, lhs.lower ≤ (update_seq eps lhs vs).lower ∧
      (update_seq eps lhs vs).upper ≤ lhs.upper := by
  induction vs with
  | nil => intro lhs; simp [update_seq]
  | cons u vs ih =>
    intro lhs
    have h := ih (update eps lhs u.1 u.2).2
    simp only [update_seq, List.foldl_cons] at h ⊢
    simp only [update] at h ⊢
    exact ⟨le_trans (le_max_left _ _) h.1, le_trans h.2 (min_le_left _ _)⟩

/-- C3: after `update(lhs, rhs, check_upper)` the lower endpoint is the
maximum of the old lower endpoint and `rhs.lower`, the upper endpoint is the
minimum of the old upper endpoint and `rhs.upper`; along every sequence of
updates of one stored interval, the lower endpoint at a later point is at
least the one at an earlier point and the upper endpoint at most. -/
theorem update_endpoints_monotone (eps : value_t) (lhs rhs : IntervalValue)
    (check_upper : Bool) :
    (update eps lhs rhs check_upper).2.lower = max lhs.lower rhs.lower ∧
      (update eps lhs rhs check_upper).2.upper = min lhs.upper rhs.upper ∧
      ∀ us vs : List (IntervalValue × Bool),
        (update_seq eps lhs us).lower ≤ (update_seq eps lhs (us ++ vs)).lower ∧
          (update_seq eps lhs (us ++ vs)).upper ≤ (update_seq eps lhs us).upper := by
  refine ⟨rfl, rfl, ?_⟩
  intro us vs
  rw [update_seq_append]
  exact update_seq_monotone eps vs _

end value_utils
end probfd

/-! ## State flags and stored policy -/

namespace probfd
namespace engines
namespace heuristic_search

namespace StateFlags

theorem pre_false_of_terminal (f : StateFlags)
    (h : f.is_dead_end = true ∨ f.is_goal_state = true) (c : Setter) : c.pre f = false := by
  have h1 : f.info &&& MASK = DEAD ∨ f.info &&& MASK = GOAL := by
    simpa [is_dead_end, is_goal_state] using h
  cases c <;>
    rcases h1 with h1 | h1 <;>
    simp [Setter.pre, set_goal_assert, set_on_fringe_assert, set_dead_end_assert,
      removed_from_fringe_assert, is_value_initialized, is_dead_end, is_goal_state,
      is_terminal, h1, DEAD, GOAL]

theorem run_append (cs1 cs2 : List Setter) :
    ∀ f : StateFlags, run (cs1 ++ cs2) f = run cs2 (run cs1 f) := by
  induction cs1 with
  | nil => intro f; rfl
  | cons c cs ih => intro f; simp [run, ih]

theorem respects_append (cs1 cs2 : List Setter) :
    ∀ f : StateFlags,
      respects (cs1 ++ cs2) f = (respects cs1 f && respects cs2 (run cs1 f)) := by
  induction cs1 with
  | nil => intro f; simp [respects, run]
  | cons c cs ih => intro f; simp [respects, run, ih, Bool.and_assoc]

/-- C5: once a record reports `is_dead_end()` or `is_goal_state()`, the
asserted precondition of each of the four setters is false; hence in every
sequence of setter calls respecting the assertions, from the point where the
record reports dead end (respectively goal) it reports it at every later
point. -/
theorem terminal_status_permanent (f : StateFlags)
    (h : f.is_dead_end = true ∨ f.is_goal_state = true) :
    (∀ c : Setter, c.pre f = false) ∧
      ∀ (f0 : StateFlags) (cs1 cs2 : List Setter),
        run cs1 f0 = f → respects (cs1 ++ cs2) f0 = true →
          (run (cs1 ++ cs2) f0).is_dead_end = f.is_dead_end ∧
            (run (cs1 ++ cs2) f0).is_goal_state = f.is_goal_state := by
  refine ⟨pre_false_of_terminal f h, ?_⟩
  intro f0 cs1 cs2 hrun hres
  rw [respects_append, hrun] at hres
  rw [run_append, hrun]
  cases cs2 with
  | nil => exact ⟨rfl, rfl⟩
  | cons c cs =>
    have hp := pre_false_of_terminal f h c
    simp [respects, hp] at hres

/-- Witness of C5: a fresh record made a dead end by `set_dead_end`. -/
theorem terminal_status_permanent_witness :
    ((set_dead_end ⟨0, 0⟩).is_dead_end = true ∨ (set_dead_end ⟨0, 0⟩).is_goal_state = true) ∧
      ((∀ c : Setter, c.pre (set_dead_end ⟨0, 0⟩) = false) ∧
        ∀ (f0 : StateFlags) (cs1 cs2 : List Setter),
          run cs1 f0 = set_dead_end ⟨0, 0⟩ → respects (cs1 ++ cs2) f0 = true →
            (run (cs1 ++ cs2) f0).is_dead_end = (set_dead_end ⟨0, 0⟩).is_dead_end ∧
              (run (cs1 ++ cs2) f0).is_goal_state = (set_dead_end ⟨0, 0⟩).is_goal_state) :=
  ⟨Or.inl (by decide), terminal_status_permanent (set_dead_end ⟨0, 0⟩) (Or.inl (by decide))⟩

/-- The five status codes. -/
theorem exec_status (c : Setter) (f : StateFlags)
    (h : f.info = 0 ∨ f.info = 1 ∨ f.info = 2 ∨ f.info = 4 ∨ f.info = 5) :
    (c.exec f).info = 0 ∨ (c.exec f).info = 1 ∨ (c.exec f).info = 2 ∨
      (c.exec f).info = 4 ∨ (c.exec f).info = 5 := by
  cases c <;>
    rcases h with h | h | h | h | h <;>
    simp [Setter.exec, set_goal, set_on_fringe, set_dead_end, removed_from_fringe,
      and_not_mask, h, MASK, GOAL, FRINGE, DEAD, INITIALIZED] <;> decide

theorem run_status (cs : List Setter) :
    ∀ f : StateFlags,
      (f.info = 0 ∨ f.info = 1 ∨ f.info = 2 ∨ f.info = 4 ∨ f.info = 5) →
        ((run cs f).info = 0 ∨ (run cs f).info = 1 ∨ (run cs f).info = 2 ∨
          (run cs f).info = 4 ∨ (run cs f).info = 5) := by
  induction cs with
  | nil => intro f h; exact h
  | cons c cs ih => intro f h; exact ih _ (exec_status c f h)

/-- C6: from a fresh record (`info = 0`), after any sequence of setter calls
whose assertions hold, the low three bits are one of New (0), Initialized
(1), DeadEnd (2), Goal (4), OnFringe (5); `is_dead_end`, `is_goal_state` and
`is_on_fringe` are pairwise exclusive, `is_terminal` holds exactly for Goal
and DeadEnd, and `is_value_initialized` is false exactly for New. -/
theorem status_encoding (tc : value_t) (cs : List Setter)
    (_h : respects cs ⟨0, tc⟩ = true) :
    ((run cs ⟨0, tc⟩).info &&& MASK) ∈ [0, INITIALIZED, DEAD, GOAL, FRINGE] ∧
      ¬ ((run cs ⟨0, tc⟩).is_dead_end = true ∧ (run cs ⟨0, tc⟩).is_goal_state = true) ∧
      ¬ ((run cs ⟨0, tc⟩).is_dead_end = true ∧ (run cs ⟨0, tc⟩).is_on_fringe = true) ∧
      ¬ ((run cs ⟨0, tc⟩).is_goal_state = true ∧ (run cs ⟨0, tc⟩).is_on_fringe = true) ∧
      ((run cs ⟨0, tc⟩).is_terminal = true ↔
        ((run cs ⟨0, tc⟩).info &&& MASK = GOAL ∨ (run cs ⟨0, tc⟩).info &&& MASK = DEAD)) ∧
      ((run cs ⟨0, tc⟩).is_value_initialized = false ↔ (run cs ⟨0, tc⟩).info &&& MASK = 0) := by
  have h := run_status cs ⟨0, tc⟩ (Or.inl rfl)
  rcases h with h | h | h | h | h <;>
    simp [h, is_dead_end, is_goal_state, is_on_fringe, is_terminal, is_value_initialized,
      MASK, GOAL, FRINGE, DEAD, INITIALIZED] <;> decide

/-- Witness of C6: `set_on_fringe`, `removed_from_fringe`, `set_dead_end`. -/
theorem status_encoding_witness :
    respects [.set_on_fringe, .removed_from_fringe, .set_dead_end] ⟨0, 0⟩ = true ∧
      (run [.set_on_fringe, .removed_from_fringe, .set_dead_end] ⟨0, 0⟩).info &&& MASK
        ∈ [0, INITIALIZED, DEAD, GOAL, FRINGE] :=
  ⟨by decide,
    (status_encoding 0 [.set_on_fringe, .removed_from_fringe, .set_dead_end] (by decide)).1⟩

end StateFlags

namespace StatesPolicy

/-- C7: `update_policy(a)` returns true exactly when the stored policy is
absent or differs from `a`, and `get_policy()` returns `a` afterwards in
both cases. -/
theorem update_policy_changed_iff {Action : Type} [DecidableEq Action]
    (p : StatesPolicy Action) (a : Action) :
    ((p.update_policy a).1 = true ↔ (p.policy = none ∨ p.policy ≠ some a)) ∧
      (p.update_policy a).2.get_policy = some a := by
  obtain ⟨pol⟩ := p
  cases pol with
  | none => simp [update_policy, set_policy, get_policy]
  | some b =>
    by_cases hab : a = b
    · subst hab; simp [update_policy, set_policy, get_policy]
    · have hba : ¬ b = a := fun h => hab h.symm
      simp [update_policy, set_policy, get_policy, hab, hba]

end StatesPolicy

end heuristic_search
end engines
end probfd

/-! ## Quotient system: masked ids -/

namespace probfd
namespace quotients

theorem MASK_eq (w : Nat) (hw : 0 < w) : MASK w = 2 ^ (w - 1) - 1 := by
  obtain ⟨k, rfl⟩ : ∃ k, w = k + 1 := ⟨w - 1, by omega⟩
  simp only [MASK, Nat.shiftRight_succ, Nat.shiftRight_zero, Nat.add_sub_cancel, pow_succ]
  have := Nat.one_le_two_pow (n := k)
  omega

theorem FLAG_eq (w : Nat) (hw : 0 < w) : FLAG w = 2 ^ (w - 1) := by
  rw [FLAG, MASK_eq w hw]
  apply Nat.eq_of_testBit_eq
  intro i
  rw [Nat.testBit_xor, Nat.testBit_two_pow_sub_one, Nat.testBit_two_pow_sub_one,
    Nat.testBit_two_pow]
  by_cases h1 : i < w <;> by_cases h2 : i < w - 1 <;> by_cases h3 : w - 1 = i <;>
    simp [h1, h2, h3] <;> omega

theorem testBit_of_lt_two_pow (x k i : Nat) (hx : x < 2 ^ k) (hi : k ≤ i) :
    x.testBit i = false :=
  Nat.testBit_lt_two_pow (lt_of_lt_of_le hx (Nat.pow_le_pow_right (by norm_num) hi))

theorem and_FLAG_of_lt (w x : Nat) (hw : 0 < w) (hx : x < 2 ^ (w - 1)) :
    x &&& FLAG w = 0 := by
  rw [FLAG_eq w hw, Nat.and_two_pow, Nat.testBit_lt_two_pow hx]; simp

theorem and_MASK_of_lt (w x : Nat) (hw : 0 < w) (hx : x < 2 ^ (w - 1)) :
    x &&& MASK w = x := by
  rw [MASK_eq w hw, Nat.and_pow_two_sub_one_eq_mod, Nat.mod_eq_of_lt hx]

theorem or_FLAG_and_MASK (w x : Nat) (hw : 0 < w) (hx : x < 2 ^ (w - 1)) :
    (x ||| FLAG w) &&& MASK w = x := by
  rw [FLAG_eq w hw, MASK_eq w hw]
  apply Nat.eq_of_testBit_eq
  intro i
  rw [Nat.testBit_and, Nat.testBit_or, Nat.testBit_two_pow_sub_one, Nat.testBit_two_pow]
  by_cases h1 : i < w - 1
  · have : ¬ (w - 1 = i) := by omega
    simp [h1, this]
  · have := testBit_of_lt_two_pow x (w - 1) i hx (by omega)
    simp [h1, this]

theorem or_FLAG_and_FLAG (w x : Nat) (hw : 0 < w) : (x ||| FLAG w) &&& FLAG w ≠ 0 := by
  rw [FLAG_eq w hw, Nat.and_two_pow, Nat.testBit_or, Nat.testBit_two_pow]
  simp

theorem or_FLAG_inj (w x y : Nat) (hw : 0 < w) (hx : x < 2 ^ (w - 1)) (hy : y < 2 ^ (w - 1))
    (h : x ||| FLAG w = y ||| FLAG w) : x = y := by
  have h1 := or_FLAG_and_MASK w x hw hx
  rw [h, or_FLAG_and_MASK w y hw hy] at h1
  exact h1.symm

theorem ne_or_FLAG_of_lt (w x y : Nat) (hw : 0 < w) (hx : x < 2 ^ (w - 1)) :
    x ≠ y ||| FLAG w := by
  intro h
  have h1 := and_FLAG_of_lt w x hw hx
  rw [h] at h1
  exact or_FLAG_and_FLAG w y hw h1

namespace DefaultQuotientSystem

theorem get_masked_set (w : Nat) (ids : List Nat) (sid qsid t : Nat) :
    get_masked_ids (set_masked_ids w ids sid qsid) t =
      if t = sid then qsid ||| FLAG w else get_masked_ids ids t := by
  unfold get_masked_ids set_masked_ids
  by_cases h : sid ≥ ids.length
  · simp only [h, if_true, List.length_set, List.length_append, List.length_range']
    have hl : ids.length + (sid + 1 - ids.length) = sid + 1 := by omega
    rw [hl]
    by_cases h1 : t = sid
    · subst h1
      simp [List.getD_eq_getElem?_getD, List.getElem?_set, hl]
    · by_cases h2 : t < ids.length
      · have : t < sid + 1 := by omega
        simp [h1, h2, this, List.getD_eq_getElem?_getD, List.getElem?_set, Ne.symm h1,
          List.getElem?_append_left]
      · by_cases h3 : t < sid + 1
        · have h4 : ids.length ≤ t := by omega
          have h5 : t - ids.length < sid + 1 - ids.length := by omega
          simp [h1, h2, h3, List.getD_eq_getElem?_getD, List.getElem?_set, Ne.symm h1,
            List.getElem?_append_right h4, List.getElem?_range' _ _ h5]
          omega
        · simp [h1, h2, h3]
  · have h' : sid < ids.length := by omega
    simp only [h, if_false, List.length_set]
    by_cases h1 : t = sid
    · subst h1
      simp [h', List.getD_eq_getElem?_getD, List.getElem?_set]
    · by_cases h2 : t < ids.length
      · simp [h1, h2, List.getD_eq_getElem?_getD, List.getElem?_set, Ne.symm h1]
      · simp [h1, h2]

theorem get_masked_foldl_set (w rid : Nat) (l : List StateInfo) :
    ∀ (ids : List Nat) (t : Nat),
      get_masked_ids (l.foldl (fun ids p => set_masked_ids w ids p.state_id rid) ids) t =
        if t ∈ l.map StateInfo.state_id then rid ||| FLAG w else get_masked_ids ids t := by
  induction l with
  | nil => intro ids t; simp
  | cons p ps ih =>
    intro ids t
    rw [List.foldl_cons, ih, get_masked_set]
    by_cases h1 : t ∈ ps.map StateInfo.state_id
    · simp [h1]
    · by_cases h2 : t = p.state_id
      · simp [h2]
      · have h3 : ¬ (p.state_id = t) := fun h => h2 h.symm
        simp only [List.map_cons, List.mem_cons, h1, h2, or_self, if_false]

variable {Action : Type}

theorem filter_loop_states [DecidableEq Action] (filter : List (QuotientAction Action))
    (infos : List StateInfo) :
    ∀ (aops : List Action) (total : Nat),
      (QuotientInformation.filter_loop filter infos aops total).1.map StateInfo.state_id =
        infos.map StateInfo.state_id := by
  induction infos with
  | nil => intro aops total; rfl
  | cons info infos ih =>
    intro aops total
    simp only [QuotientInformation.filter_loop, List.map_cons, ih]

theorem filter_actions_states [DecidableEq Action] (q : QuotientInformation Action)
    (filter : List (QuotientAction Action)) :
    (q.filter_actions filter).states = q.states := by
  unfold QuotientInformation.filter_actions
  by_cases h : filter.isEmpty
  · simp [h]
  · simp only [h, QuotientInformation.states]
    exact filter_loop_states filter q.state_infos q.aops 0

theorem add_state_states [DecidableEq Action] (ss : StateSpace Action)
    (q : QuotientInformation Action) (s : Nat) (aops : List (QuotientAction Action)) :
    (add_state ss q s aops).states = q.states ++ [s] := by
  simp [add_state, QuotientInformation.states]

theorem inv_init (w : Nat) (ss : StateSpace Action) : Inv w (init ss) := by
  constructor
  · intro t; left; simp [init, get_masked_state_id, get_masked_ids]
  · intro r q h; simp [init] at h

theorem inv_class_of_masked (w : Nat) (hw : 0 < w) (qs : DefaultQuotientSystem Action)
    (hinv : Inv w qs) (t r : Nat) (ht : t < 2 ^ (w - 1)) (hr : r < 2 ^ (w - 1))
    (hg : qs.get_masked_state_id t = r ||| FLAG w) :
    ∃ q, qs.quotients_ r = some q ∧ t ∈ q.states := by
  rcases hinv.masked t with h | ⟨_, r1, q, hr1, hg1, hQ, hmem⟩
  · exact absurd (h.symm.trans hg) (ne_or_FLAG_of_lt w t r hw ht)
  · have : r1 = r := or_FLAG_inj w r1 r hw hr1 hr (hg1.symm.trans hg)
    subst this
    exact ⟨q, hQ, hmem⟩

theorem inv_no_class_of_unflagged (w : Nat) (hw : 0 < w) (qs : DefaultQuotientSystem Action)
    (hinv : Inv w qs) (s : Nat) (hflag : qs.get_masked_state_id s &&& FLAG w = 0) :
    qs.quotients_ s = none := by
  cases hQ : qs.quotients_ s with
  | none => rfl
  | some q =>
    obtain ⟨_, hmem, hall⟩ := hinv.classes s q hQ
    have := (hall s hmem).2
    rw [this] at hflag
    exact absurd hflag (or_FLAG_and_FLAG w s hw)

theorem inv_not_masked_of_unflagged (w : Nat) (hw : 0 < w) (qs : DefaultQuotientSystem Action)
    (hinv : Inv w qs) (s t : Nat) (hs : s < 2 ^ (w - 1)) (ht : t < 2 ^ (w - 1))
    (hflag : qs.get_masked_state_id s &&& FLAG w = 0) :
    qs.get_masked_state_id t ≠ s ||| FLAG w := by
  intro hg
  obtain ⟨q, hQ, _⟩ := inv_class_of_masked w hw qs hinv t s ht hs hg
  rw [inv_no_class_of_unflagged w hw qs hinv s hflag] at hQ
  cases hQ

end DefaultQuotientSystem
end quotients
end probfd

/-! ## Quotient system: `build_quotient` and the translation of state ids -/

namespace probfd
namespace quotients
namespace DefaultQuotientSystem

variable {Action : Type}

theorem inv_rep_class (w : Nat) (hw : 0 < w) (qs : DefaultQuotientSystem Action)
    (hinv : Inv w qs) (r : Nat) (hr : r < 2 ^ (w - 1))
    (hg : qs.get_masked_state_id r = r ||| FLAG w) :
    ∃ q, qs.quotients_ r = some q ∧ r ∈ q.states :=
  inv_class_of_masked w hw qs hinv r r hr hr hg

/-- Redirecting a set `S` of states to the representative `rid` keeps the
invariant, when the class of `rid` absorbs `S` and every other class is
either untouched and disjoint from `S`, or erased and contained in `S`. -/
theorem inv_redirect (w : Nat) (qs qs1 : DefaultQuotientSystem Action)
    (hinv : Inv w qs) (rid : Nat) (hrid : rid < 2 ^ (w - 1)) (S : Nat → Prop)
    (hS : ∀ t, S t → t < 2 ^ (w - 1))
    (hg_in : ∀ t, S t → qs1.get_masked_state_id t = rid ||| FLAG w)
    (hg_out : ∀ t, ¬ S t → qs1.get_masked_state_id t = qs.get_masked_state_id t)
    (q1 : QuotientInformation Action) (hQ1 : qs1.quotients_ rid = some q1)
    (hmem : ∀ m, m ∈ q1.states ↔ (S m ∨ ∃ q, qs.quotients_ rid = some q ∧ m ∈ q.states))
    (hridmem : rid ∈ q1.states)
    (hother : ∀ r, r ≠ rid →
      (qs1.quotients_ r = qs.quotients_ r ∧
          ∀ q, qs.quotients_ r = some q → ∀ m ∈ q.states, ¬ S m) ∨
        (qs1.quotients_ r = none ∧ ∀ q, qs.quotients_ r = some q → ∀ m ∈ q.states, S m)) :
    Inv w qs1 := by
  constructor
  · intro t
    by_cases hSt : S t
    · right
      exact ⟨hS t hSt, rid, q1, hrid, hg_in t hSt, hQ1, (hmem t).2 (Or.inl hSt)⟩
    · rw [hg_out t hSt]
      rcases hinv.masked t with h | ⟨ht, r, q, hr, hgt, hQr, hm⟩
      · exact Or.inl h
      · right
        by_cases hrr : r = rid
        · subst hrr
          exact ⟨ht, r, q1, hr, hgt, hQ1, (hmem t).2 (Or.inr ⟨q, hQr, hm⟩)⟩
        · rcases hother r hrr with ⟨h1, _⟩ | ⟨_, h2⟩
          · exact ⟨ht, r, q, hr, hgt, h1.trans hQr, hm⟩
          · exact absurd (h2 q hQr t hm) hSt
  · intro r q hQ
    by_cases hrr : r = rid
    · subst hrr
      rw [hQ1] at hQ; cases hQ
      refine ⟨hrid, hridmem, ?_⟩
      intro m hm
      by_cases hSm : S m
      · exact ⟨hS m hSm, hg_in m hSm⟩
      · rw [hg_out m hSm]
        rcases (hmem m).1 hm with h | ⟨q0, hQ0, hm0⟩
        · exact absurd h hSm
        · exact (hinv.classes r q0 hQ0).2.2 m hm0
    · rcases hother r hrr with ⟨h1, h2⟩ | ⟨h1, _⟩
      · rw [h1] at hQ
        obtain ⟨ha, hb, hall⟩ := hinv.classes r q hQ
        refine ⟨ha, hb, ?_⟩
        intro m hm
        rw [hg_out m (h2 q hQ m hm)]
        exact hall m hm
      · rw [h1] at hQ; cases hQ

/-- One iteration of the loop of `build_quotient` on a state that is in no
class: the invariant is kept and exactly that state is redirected. -/
theorem build_quotient_step_fresh [DecidableEq Action] (w : Nat) (hw : 0 < w) (rid : Nat)
    (qs : DefaultQuotientSystem Action) (hinv : Inv w qs) (hrid : rid < 2 ^ (w - 1))
    (hridrep : qs.get_masked_state_id rid = rid ||| FLAG w)
    (e : Nat × List (QuotientAction Action)) (hne : e.1 ≠ rid) (hlt : e.1 < 2 ^ (w - 1))
    (hflag : qs.get_masked_state_id e.1 &&& FLAG w = 0) :
    ∃ qs1, build_quotient_step w rid qs e = some qs1 ∧ Inv w qs1 ∧
      qs1.state_space_ = qs.state_space_ ∧
      ∀ t, qs1.get_masked_state_id t =
        if t = e.1 then rid ||| FLAG w else qs.get_masked_state_id t := by
  obtain ⟨qinfo, hQ, hridmem⟩ := inv_rep_class w hw qs hinv rid hrid hridrep
  obtain ⟨qs1, hqs1⟩ : ∃ qs1 : DefaultQuotientSystem Action, qs1 =
      { quotients_ := Function.update qs.quotients_ rid
          (some (add_state qs.state_space_ qinfo e.1 e.2)),
        quotient_ids_ := set_masked_ids w qs.quotient_ids_ e.1 rid,
        state_space_ := qs.state_space_ } := ⟨_, rfl⟩
  have hg : ∀ t, qs1.get_masked_state_id t =
      if t = e.1 then rid ||| FLAG w else qs.get_masked_state_id t := by
    intro t; rw [hqs1]; exact get_masked_set w qs.quotient_ids_ e.1 rid t
  have hQ1 : qs1.quotients_ = Function.update qs.quotients_ rid
      (some (add_state qs.state_space_ qinfo e.1 e.2)) := by rw [hqs1]
  refine ⟨qs1, ?_, ?_, by rw [hqs1], hg⟩
  · simp only [build_quotient_step, hne, if_false, hQ, hflag, ne_eq, not_true_eq_false, hqs1]
  · refine inv_redirect w qs qs1 hinv rid hrid (fun t => t = e.1) ?_ ?_ ?_
      (add_state qs.state_space_ qinfo e.1 e.2) ?_ ?_ ?_ ?_
    · intro t ht; rw [ht]; exact hlt
    · intro t ht; rw [hg, if_pos ht]
    · intro t ht; rw [hg, if_neg ht]
    · rw [hQ1, Function.update_same]
    · intro m
      rw [add_state_states, List.mem_append, List.mem_singleton, hQ]
      constructor
      · rintro (h | h)
        · exact Or.inr ⟨qinfo, rfl, h⟩
        · exact Or.inl h
      · rintro (h | ⟨q, hq, h⟩)
        · exact Or.inr h
        · cases hq; exact Or.inl h
    · rw [add_state_states]; simp [hridmem]
    · intro r hr
      left
      refine ⟨by rw [hQ1, Function.update_noteq hr], ?_⟩
      intro q hq m hm hme
      have hme : m = e.1 := hme
      subst hme
      have := ((hinv.classes r q hq).2.2 _ hm).2
      rw [this] at hflag
      exact or_FLAG_and_FLAG w r hw hflag

/-- One iteration of the loop of `build_quotient` on the representative of an
existing class: the invariant is kept and exactly the members of that class
are redirected. -/
theorem build_quotient_step_class [DecidableEq Action] (w : Nat) (hw : 0 < w) (rid : Nat)
    (qs : DefaultQuotientSystem Action) (hinv : Inv w qs) (hrid : rid < 2 ^ (w - 1))
    (hridrep : qs.get_masked_state_id rid = rid ||| FLAG w)
    (e : Nat × List (QuotientAction Action)) (hne : e.1 ≠ rid) (hlt : e.1 < 2 ^ (w - 1))
    (hrep : qs.get_masked_state_id e.1 = e.1 ||| FLAG w)
    (q0 : QuotientInformation Action) (hQ0 : qs.quotients_ e.1 = some q0) :
    ∃ qs1, build_quotient_step w rid qs e = some qs1 ∧ Inv w qs1 ∧
      qs1.state_space_ = qs.state_space_ ∧
      ∀ t, qs1.get_masked_state_id t =
        if t ∈ q0.states then rid ||| FLAG w else qs.get_masked_state_id t := by
  obtain ⟨qinfo, hQ, hridmem⟩ := inv_rep_class w hw qs hinv rid hrid hridrep
  obtain ⟨qs1, hqs1⟩ : ∃ qs1 : DefaultQuotientSystem Action, qs1 =
      { quotients_ := Function.update (Function.update qs.quotients_ rid
          (some
            { state_infos := qinfo.state_infos ++ (q0.filter_actions e.2).state_infos,
              aops := qinfo.aops ++ (q0.filter_actions e.2).aops,
              total_num_outer_acts :=
                qinfo.total_num_outer_acts + (q0.filter_actions e.2).total_num_outer_acts }))
          e.1 none,
        quotient_ids_ :=
          (q0.filter_actions e.2).state_infos.foldl
            (fun ids p => set_masked_ids w ids p.state_id rid) qs.quotient_ids_,
        state_space_ := qs.state_space_ } := ⟨_, rfl⟩
  have hg : ∀ t, qs1.get_masked_state_id t =
      if t ∈ q0.states then rid ||| FLAG w else qs.get_masked_state_id t := by
    intro t; rw [hqs1, ← filter_actions_states q0 e.2]
    exact get_masked_foldl_set w rid _ qs.quotient_ids_ t
  have hQrid : qs1.quotients_ rid = some
      { state_infos := qinfo.state_infos ++ (q0.filter_actions e.2).state_infos,
        aops := qinfo.aops ++ (q0.filter_actions e.2).aops,
        total_num_outer_acts :=
          qinfo.total_num_outer_acts + (q0.filter_actions e.2).total_num_outer_acts } := by
    rw [hqs1]
    show Function.update _ _ _ rid = _
    rw [Function.update_noteq (Ne.symm hne), Function.update_same]
  have hQe : qs1.quotients_ e.1 = none := by
    rw [hqs1]; show Function.update _ _ _ e.1 = _
    rw [Function.update_same]
  have hQo : ∀ r, r ≠ rid → r ≠ e.1 → qs1.quotients_ r = qs.quotients_ r := by
    intro r h1 h2
    rw [hqs1]; show Function.update _ _ _ r = _
    rw [Function.update_noteq h2, Function.update_noteq h1]
  have h1 : (e.1 ||| FLAG w) &&& FLAG w ≠ 0 := or_FLAG_and_FLAG w e.1 hw
  have h2 : (e.1 ||| FLAG w) &&& MASK w = e.1 := or_FLAG_and_MASK w e.1 hw hlt
  refine ⟨qs1, ?_, ?_, by rw [hqs1], hg⟩
  · simp only [build_quotient_step, hne, if_false, hQ, hrep, h1, h2, ne_eq, not_false_eq_true,
      if_true, hQ0, hqs1]
  · refine inv_redirect w qs qs1 hinv rid hrid (fun t => t ∈ q0.states) ?_ ?_ ?_
      _ hQrid ?_ ?_ ?_
    · intro t ht; exact ((hinv.classes e.1 q0 hQ0).2.2 t ht).1
    · intro t ht; rw [hg, if_pos ht]
    · intro t ht; rw [hg, if_neg ht]
    · intro m
      have : ∀ (a b : List StateInfo) (x y : List Action) (n : Nat),
          (QuotientInformation.mk (a ++ b) x n).states =
            a.map StateInfo.state_id ++ b.map StateInfo.state_id := by
        intro a b x y n; simp [QuotientInformation.states]
      rw [this _ _ _ [] _, List.mem_append, hQ]
      have hf := filter_actions_states q0 e.2
      simp only [QuotientInformation.states] at hf
      rw [hf]
      constructor
      · rintro (h | h)
        · exact Or.inr ⟨qinfo, rfl, h⟩
        · exact Or.inl h
      · rintro (h | ⟨q, hq, h⟩)
        · exact Or.inr h
        · cases hq; exact Or.inl h
    · simp only [QuotientInformation.states, List.map_append, List.mem_append]
      exact Or.inl hridmem
    · intro r hr
      by_cases hre : r = e.1
      · right
        subst hre
        refine ⟨hQe, ?_⟩
        intro q hq m hm
        rw [hQ0] at hq; cases hq; exact hm
      · left
        refine ⟨hQo r hr hre, ?_⟩
        intro q hq m hm hm0
        have ha := ((hinv.classes r q hq).2.2 m hm).2
        have hb := ((hinv.classes e.1 q0 hQ0).2.2 m hm0).2
        exact hre (or_FLAG_inj w r e.1 hw (hinv.classes r q hq).1 hlt (ha.symm.trans hb))

/-- One iteration of the loop of `build_quotient`, for a listed state below
`2^(w-1)` that is in no class or represents its own class: the iteration is
defined, keeps the invariant, and redirects to `rid` exactly the state and
the states whose masked id is the flagged state. -/
theorem build_quotient_step_spec [DecidableEq Action] (w : Nat) (hw : 0 < w) (rid : Nat)
    (qs : DefaultQuotientSystem Action) (hinv : Inv w qs) (hrid : rid < 2 ^ (w - 1))
    (hridrep : qs.get_masked_state_id rid = rid ||| FLAG w)
    (e : Nat × List (QuotientAction Action)) (hne : e.1 ≠ rid) (hlt : e.1 < 2 ^ (w - 1))
    (hrep : qs.get_masked_state_id e.1 &&& FLAG w = 0 ∨
      qs.get_masked_state_id e.1 = e.1 ||| FLAG w) :
    ∃ qs1, build_quotient_step w rid qs e = some qs1 ∧ Inv w qs1 ∧
      qs1.state_space_ = qs.state_space_ ∧
      (∀ t, (t = e.1 ∨ (t < 2 ^ (w - 1) ∧ qs.get_masked_state_id t = e.1 ||| FLAG w)) →
        qs1.get_masked_state_id t = rid ||| FLAG w) ∧
      (∀ t, ¬ (t = e.1 ∨ (t < 2 ^ (w - 1) ∧ qs.get_masked_state_id t = e.1 ||| FLAG w)) →
        qs1.get_masked_state_id t = qs.get_masked_state_id t) := by
  rcases hrep with hflag | hrep
  · obtain ⟨qs1, h1, h2, h3, h4⟩ :=
      build_quotient_step_fresh w hw rid qs hinv hrid hridrep e hne hlt hflag
    have hiff : ∀ t, (t = e.1 ∨ (t < 2 ^ (w - 1) ∧
        qs.get_masked_state_id t = e.1 ||| FLAG w)) ↔ t = e.1 := by
      intro t
      constructor
      · rintro (h | ⟨ht, hg⟩)
        · exact h
        · exact absurd hg (inv_not_masked_of_unflagged w hw qs hinv e.1 t hlt ht hflag)
      · exact Or.inl
    refine ⟨qs1, h1, h2, h3, ?_, ?_⟩
    · intro t ht; rw [h4, if_pos ((hiff t).1 ht)]
    · intro t ht; rw [h4, if_neg (fun h => ht ((hiff t).2 h))]
  · obtain ⟨q0, hQ0, hmem0⟩ := inv_rep_class w hw qs hinv e.1 hlt hrep
    obtain ⟨qs1, h1, h2, h3, h4⟩ :=
      build_quotient_step_class w hw rid qs hinv hrid hridrep e hne hlt hrep q0 hQ0
    have hiff : ∀ t, (t = e.1 ∨ (t < 2 ^ (w - 1) ∧
        qs.get_masked_state_id t = e.1 ||| FLAG w)) ↔ t ∈ q0.states := by
      intro t
      constructor
      · rintro (h | ⟨ht, hg⟩)
        · rw [h]; exact hmem0
        · obtain ⟨q, hq, hm⟩ := inv_class_of_masked w hw qs hinv t e.1 ht hlt hg
          rw [hQ0] at hq; cases hq; exact hm
      · intro h
        exact Or.inr ((hinv.classes e.1 q0 hQ0).2.2 t h)
    refine ⟨qs1, h1, h2, h3, ?_, ?_⟩
    · intro t ht; rw [h4, if_pos ((hiff t).1 ht)]
    · intro t ht; rw [h4, if_neg (fun h => ht ((hiff t).2 h))]

/-- The loop of `build_quotient` over listed states that are pairwise
distinct, below `2^(w-1)`, and each in no class or representing its own
class: the loop is defined, keeps the invariant, and redirects to `rid`
exactly the listed states other than `rid` and the members of their
classes. -/
theorem build_quotient_loop_spec [DecidableEq Action] (w : Nat) (hw : 0 < w) (rid : Nat)
    (hrid : rid < 2 ^ (w - 1)) (l : List (Nat × List (QuotientAction Action))) :
    ∀ qs : DefaultQuotientSystem Action, Inv w qs →
      qs.get_masked_state_id rid = rid ||| FLAG w →
      (l.map Prod.fst).Nodup →
      (∀ e ∈ l, e.1 < 2 ^ (w - 1)) →
      (∀ e ∈ l, e.1 ≠ rid → (qs.get_masked_state_id e.1 &&& FLAG w = 0 ∨
        qs.get_masked_state_id e.1 = e.1 ||| FLAG w)) →
      ∃ qs1, build_quotient_loop w rid qs l = some qs1 ∧ Inv w qs1 ∧
        qs1.state_space_ = qs.state_space_ ∧
        (∀ t, (∃ e ∈ l, e.1 ≠ rid ∧ (t = e.1 ∨ (t < 2 ^ (w - 1) ∧
            qs.get_masked_state_id t = e.1 ||| FLAG w))) →
          qs1.get_masked_state_id t = rid ||| FLAG w) ∧
        (∀ t, ¬ (∃ e ∈ l, e.1 ≠ rid ∧ (t = e.1 ∨ (t < 2 ^ (w - 1) ∧
            qs.get_masked_state_id t = e.1 ||| FLAG w))) →
          qs1.get_masked_state_id t = qs.get_masked_state_id t) := by
  induction l with
  | nil =>
    intro qs hinv _ _ _ _
    refine ⟨qs, rfl, hinv, rfl, ?_, ?_⟩
    · rintro t ⟨e, he, _⟩; simp at he
    · intro t _; rfl
  | cons e rest ih =>
    intro qs hinv hridrep hnd hlt hrep
    have hnd1 : e.1 ∉ rest.map Prod.fst := (List.nodup_cons.1 hnd).1
    have hnd2 : (rest.map Prod.fst).Nodup := (List.nodup_cons.1 hnd).2
    by_cases hne : e.1 = rid
    · obtain ⟨qs1, h1, h2, h3, h4, h5⟩ := ih qs hinv hridrep hnd2
        (fun e1 he1 => hlt e1 (List.mem_cons_of_mem _ he1))
        (fun e1 he1 => hrep e1 (List.mem_cons_of_mem _ he1))
      have hiff : ∀ t, (∃ e1 ∈ e :: rest, e1.1 ≠ rid ∧ (t = e1.1 ∨ (t < 2 ^ (w - 1) ∧
            qs.get_masked_state_id t = e1.1 ||| FLAG w))) ↔
          (∃ e1 ∈ rest, e1.1 ≠ rid ∧ (t = e1.1 ∨ (t < 2 ^ (w - 1) ∧
            qs.get_masked_state_id t = e1.1 ||| FLAG w))) := by
        intro t
        constructor
        · rintro ⟨e1, he1, hne1, hc⟩
          rcases List.mem_cons.1 he1 with h | h
          · subst h; exact absurd hne hne1
          · exact ⟨e1, h, hne1, hc⟩
        · rintro ⟨e1, he1, hne1, hc⟩
          exact ⟨e1, List.mem_cons_of_mem _ he1, hne1, hc⟩
      refine ⟨qs1, ?_, h2, h3, ?_, ?_⟩
      · simp only [build_quotient_loop, build_quotient_step, hne, if_true]
        exact h1
      · intro t ht; exact h4 t ((hiff t).1 ht)
      · intro t ht; exact h5 t (fun h => ht ((hiff t).2 h))
    · obtain ⟨qs1, hs1, hs2, hs3, hs4, hs5⟩ :=
        build_quotient_step_spec w hw rid qs hinv hrid hridrep e hne
          (hlt e (List.mem_cons_self _ _)) (hrep e (List.mem_cons_self _ _) hne)
      have hrid1 : qs1.get_masked_state_id rid = rid ||| FLAG w := by
        by_cases hc : (rid = e.1 ∨ (rid < 2 ^ (w - 1) ∧
            qs.get_masked_state_id rid = e.1 ||| FLAG w))
        · exact hs4 rid hc
        · rw [hs5 rid hc]; exact hridrep
      have hkeep : ∀ e1 ∈ rest, e1.1 ≠ rid →
          qs1.get_masked_state_id e1.1 = qs.get_masked_state_id e1.1 := by
        intro e1 he1 hne1
        apply hs5
        have hdiff : e1.1 ≠ e.1 := by
          intro h
          exact hnd1 (h ▸ List.mem_map_of_mem Prod.fst he1)
        rintro (h | ⟨ht, hg⟩)
        · exact hdiff h
        · rcases hrep e1 (List.mem_cons_of_mem _ he1) hne1 with hf | hr
          · rw [hg] at hf; exact or_FLAG_and_FLAG w e.1 hw hf
          · exact hdiff (or_FLAG_inj w e1.1 e.1 hw ht (hlt e (List.mem_cons_self _ _))
              (hr.symm.trans hg))
      obtain ⟨qs2, h1, h2, h3, h4, h5⟩ := ih qs1 hs2 hrid1 hnd2
        (fun e1 he1 => hlt e1 (List.mem_cons_of_mem _ he1))
        (fun e1 he1 hne1 => by
          rw [hkeep e1 he1 hne1]; exact hrep e1 (List.mem_cons_of_mem _ he1) hne1)
      refine ⟨qs2, ?_, h2, h3.trans hs3, ?_, ?_⟩
      · simp only [build_quotient_loop, hs1]
        exact h1
      · rintro t ⟨e1, he1, hne1, hc⟩
        by_cases hP : (∃ e2 ∈ rest, e2.1 ≠ rid ∧ (t = e2.1 ∨ (t < 2 ^ (w - 1) ∧
            qs1.get_masked_state_id t = e2.1 ||| FLAG w)))
        · exact h4 t hP
        · rw [h5 t hP]
          by_cases hce : (t = e.1 ∨ (t < 2 ^ (w - 1) ∧
              qs.get_masked_state_id t = e.1 ||| FLAG w))
          · exact hs4 t hce
          · exfalso
            rcases List.mem_cons.1 he1 with h | h
            · subst h; exact hce hc
            · apply hP
              refine ⟨e1, h, hne1, ?_⟩
              rw [hs5 t hce]; exact hc
      · intro t ht
        have hce : ¬ (t = e.1 ∨ (t < 2 ^ (w - 1) ∧
            qs.get_masked_state_id t = e.1 ||| FLAG w)) :=
          fun h => ht ⟨e, List.mem_cons_self _ _, hne, h⟩
        have hP : ¬ (∃ e2 ∈ rest, e2.1 ≠ rid ∧ (t = e2.1 ∨ (t < 2 ^ (w - 1) ∧
            qs1.get_masked_state_id t = e2.1 ||| FLAG w))) := by
          rintro ⟨e2, he2, hne2, hc⟩
          rw [hs5 t hce] at hc
          exact ht ⟨e2, List.mem_cons_of_mem _ he2, hne2, hc⟩
        rw [h5 t hP, hs5 t hce]

/-- The part of `build_quotient` before the loop, for a representative
below `2^(w-1)` that is in no class or represents its own class: the
invariant is kept and only the representative is redirected, to itself. -/
theorem build_quotient_entry_spec [DecidableEq Action] (w : Nat) (hw : 0 < w)
    (qs : DefaultQuotientSystem Action) (hinv : Inv w qs)
    (entry : Nat × List (QuotientAction Action)) (hlt : entry.1 < 2 ^ (w - 1))
    (hrep : qs.get_masked_state_id entry.1 &&& FLAG w = 0 ∨
      qs.get_masked_state_id entry.1 = entry.1 ||| FLAG w) :
    Inv w (build_quotient_entry w qs entry) ∧
      (build_quotient_entry w qs entry).state_space_ = qs.state_space_ ∧
      ∀ t, (build_quotient_entry w qs entry).get_masked_state_id t =
        if t = entry.1 then entry.1 ||| FLAG w else qs.get_masked_state_id t := by
  rcases hrep with hflag | hrep
  · have hnone := inv_no_class_of_unflagged w hw qs hinv entry.1 hflag
    have hqe : build_quotient_entry w qs entry =
        { quotients_ := Function.update qs.quotients_ entry.1
            (some (add_state qs.state_space_ {} entry.1 entry.2)),
          quotient_ids_ := set_masked_ids w qs.quotient_ids_ entry.1 entry.1,
          state_space_ := qs.state_space_ } := by
      simp [build_quotient_entry, hnone]
    have hg : ∀ t, (build_quotient_entry w qs entry).get_masked_state_id t =
        if t = entry.1 then entry.1 ||| FLAG w else qs.get_masked_state_id t := by
      intro t; rw [hqe]; exact get_masked_set w qs.quotient_ids_ entry.1 entry.1 t
    have hQ : (build_quotient_entry w qs entry).quotients_ =
        Function.update qs.quotients_ entry.1
          (some (add_state qs.state_space_ {} entry.1 entry.2)) := by rw [hqe]
    refine ⟨?_, by rw [hqe], hg⟩
    refine inv_redirect w qs _ hinv entry.1 hlt (fun t => t = entry.1) ?_ ?_ ?_
      (add_state qs.state_space_ {} entry.1 entry.2) ?_ ?_ ?_ ?_
    · intro t ht; rw [ht]; exact hlt
    · intro t ht; rw [hg, if_pos ht]
    · intro t ht; rw [hg, if_neg ht]
    · rw [hQ, Function.update_same]
    · intro m
      rw [add_state_states, hnone]
      simp [QuotientInformation.states]
    · rw [add_state_states]; simp
    · intro r hr
      left
      refine ⟨by rw [hQ, Function.update_noteq hr], ?_⟩
      intro q hq m hm hme
      have hme : m = entry.1 := hme
      subst hme
      have := ((hinv.classes r q hq).2.2 _ hm).2
      rw [this] at hflag
      exact or_FLAG_and_FLAG w r hw hflag
  · obtain ⟨q0, hQ0, hmem0⟩ := inv_rep_class w hw qs hinv entry.1 hlt hrep
    have hne : q0.state_infos.isEmpty = false := by
      cases hsi : q0.state_infos with
      | nil => simp [QuotientInformation.states, hsi] at hmem0
      | cons a b => rfl
    have hqe : build_quotient_entry w qs entry =
        { quotients_ := Function.update qs.quotients_ entry.1
            (some (q0.filter_actions entry.2)),
          quotient_ids_ := qs.quotient_ids_,
          state_space_ := qs.state_space_ } := by
      simp [build_quotient_entry, hQ0, hne]
    have hg : ∀ t, (build_quotient_entry w qs entry).get_masked_state_id t =
        qs.get_masked_state_id t := by
      intro t; rw [hqe]; rfl
    have hQ : (build_quotient_entry w qs entry).quotients_ =
        Function.update qs.quotients_ entry.1 (some (q0.filter_actions entry.2)) := by
      rw [hqe]
    refine ⟨?_, by rw [hqe], ?_⟩
    · refine inv_redirect w qs _ hinv entry.1 hlt (fun _ => False) ?_ ?_ ?_
        (q0.filter_actions entry.2) ?_ ?_ ?_ ?_
      · intro t ht; exact absurd ht id
      · intro t ht; exact absurd ht id
      · intro t _; exact hg t
      · rw [hQ, Function.update_same]
      · intro m
        rw [filter_actions_states, hQ0]
        simp
      · rw [filter_actions_states]; exact hmem0
      · intro r hr
        left
        exact ⟨by rw [hQ, Function.update_noteq hr], fun _ _ _ _ h => h⟩
    · intro t
      rw [hg]
      by_cases h : t = entry.1
      · rw [if_pos h, h]; exact hrep
      · rw [if_neg h]

/-- Under the invariant, `translate_state_id` is idempotent on the states
below `2^(w-1)`. -/
theorem translate_idem_of_inv (w : Nat) (hw : 0 < w) (qs : DefaultQuotientSystem Action)
    (hinv : Inv w qs) (t : Nat) (ht : t < 2 ^ (w - 1)) :
    translate_state_id w qs (translate_state_id w qs t) = translate_state_id w qs t := by
  unfold translate_state_id
  rcases hinv.masked t with h | ⟨_, r, q, hr, hg, hQ, _⟩
  · rw [h, and_MASK_of_lt w t hw ht, h, and_MASK_of_lt w t hw ht]
  · rw [hg, or_FLAG_and_MASK w r hw hr]
    have := ((hinv.classes r q hQ).2.2 r (hinv.classes r q hQ).2.1).2
    rw [this, or_FLAG_and_MASK w r hw hr]

/-- Effect of `build_quotient` on the masked ids: the call is defined, keeps
the invariant and the base state space, sets the masked id of every listed
state and of every member of a listed class to the flagged representative,
and leaves every other masked id unchanged. -/
theorem build_quotient_masked [DecidableEq Action] (w : Nat) (hw : 0 < w)
    (qs : DefaultQuotientSystem Action) (hinv : Inv w qs)
    (submdp : List (Nat × List (QuotientAction Action)))
    (entry : Nat × List (QuotientAction Action)) (hentry : entry ∈ submdp)
    (hnodup : (submdp.map Prod.fst).Nodup)
    (hlt : ∀ e ∈ submdp, e.1 < 2 ^ (w - 1))
    (hrep : ∀ e ∈ submdp, qs.get_masked_state_id e.1 &&& FLAG w = 0 ∨
      qs.get_masked_state_id e.1 = e.1 ||| FLAG w) :
    ∃ qs1, build_quotient w qs submdp entry = some qs1 ∧ Inv w qs1 ∧
      qs1.state_space_ = qs.state_space_ ∧
      (∀ e ∈ submdp, qs1.get_masked_state_id e.1 = entry.1 ||| FLAG w) ∧
      (∀ e ∈ submdp, ∀ q, qs.quotients_ e.1 = some q → ∀ m ∈ q.states,
        qs1.get_masked_state_id m = entry.1 ||| FLAG w) ∧
      (∀ t, (∀ e ∈ submdp, t ≠ e.1 ∧ ∀ q, qs.quotients_ e.1 = some q → t ∉ q.states) →
        qs1.get_masked_state_id t = qs.get_masked_state_id t) := by
  have hrid := hlt entry hentry
  obtain ⟨hi, hss, hge⟩ :=
    build_quotient_entry_spec w hw qs hinv entry hrid (hrep entry hentry)
  have hgrid : (build_quotient_entry w qs entry).get_masked_state_id entry.1 =
      entry.1 ||| FLAG w := by rw [hge, if_pos rfl]
  have hgne : ∀ t, t ≠ entry.1 →
      (build_quotient_entry w qs entry).get_masked_state_id t = qs.get_masked_state_id t := by
    intro t ht; rw [hge, if_neg ht]
  obtain ⟨qs1, h1, h2, h3, h4, h5⟩ :=
    build_quotient_loop_spec w hw entry.1 hrid submdp (build_quotient_entry w qs entry) hi
      hgrid hnodup hlt (fun e he hne => by rw [hgne e.1 hne]; exact hrep e he)
  have hridfin : qs1.get_masked_state_id entry.1 = entry.1 ||| FLAG w := by
    by_cases hP : (∃ e ∈ submdp, e.1 ≠ entry.1 ∧ (entry.1 = e.1 ∨ (entry.1 < 2 ^ (w - 1) ∧
        (build_quotient_entry w qs entry).get_masked_state_id entry.1 = e.1 ||| FLAG w)))
    · exact h4 _ hP
    · rw [h5 _ hP]; exact hgrid
  refine ⟨qs1, h1, h2, h3.trans hss, ?_, ?_, ?_⟩
  · intro e he
    by_cases hne : e.1 = entry.1
    · rw [hne]; exact hridfin
    · exact h4 e.1 ⟨e, he, hne, Or.inl rfl⟩
  · intro e he q hq m hm
    obtain ⟨hm1, hm2⟩ := (hinv.classes e.1 q hq).2.2 m hm
    by_cases hmr : m = entry.1
    · rw [hmr]; exact hridfin
    · by_cases hne : e.1 = entry.1
      · by_cases hP : (∃ e ∈ submdp, e.1 ≠ entry.1 ∧ (m = e.1 ∨ (m < 2 ^ (w - 1) ∧
            (build_quotient_entry w qs entry).get_masked_state_id m = e.1 ||| FLAG w)))
        · exact h4 _ hP
        · rw [h5 _ hP, hgne m hmr, hm2, hne]
      · apply h4
        exact ⟨e, he, hne, Or.inr ⟨hm1, by rw [hgne m hmr]; exact hm2⟩⟩
  · intro t ht
    have htr : t ≠ entry.1 := (ht entry hentry).1
    rw [← hgne t htr]
    apply h5
    rintro ⟨e, he, _, hc | ⟨ht1, hg⟩⟩
    · exact (ht e he).1 hc
    · rw [hgne t htr] at hg
      obtain ⟨q, hq, hm⟩ := inv_class_of_masked w hw qs hinv t e.1 ht1 (hlt e he) hg
      exact (ht e he).2 q hq hm

/-- The states of a class after the block "Add this state to the quotient" of
`build_new_quotient`. -/
theorem add_state_new_states [DecidableEq Action] (ss : StateSpace Action)
    (q : QuotientInformation Action) (s : Nat) (aops : List Action) :
    (add_state_new ss q s aops).states = q.states ++ [s] := by
  simp [add_state_new, QuotientInformation.states]

/-- One iteration of the loop of `build_new_quotient` on a state that is in
no class: the invariant is kept and exactly that state is redirected. -/
theorem build_new_quotient_step_inv [DecidableEq Action] (w : Nat) (hw : 0 < w) (rid : Nat)
    (qs : DefaultQuotientSystem Action) (hinv : Inv w qs) (hrid : rid < 2 ^ (w - 1))
    (hridrep : qs.get_masked_state_id rid = rid ||| FLAG w)
    (e : Nat × List Action) (hne : e.1 ≠ rid) (hlt : e.1 < 2 ^ (w - 1))
    (hflag : qs.get_masked_state_id e.1 &&& FLAG w = 0) :
    Inv w (build_new_quotient_step w rid qs e) ∧
      ∀ t, (build_new_quotient_step w rid qs e).get_masked_state_id t =
        if t = e.1 then rid ||| FLAG w else qs.get_masked_state_id t := by
  obtain ⟨qinfo, hQ, hridmem⟩ := inv_rep_class w hw qs hinv rid hrid hridrep
  have hqs1 : build_new_quotient_step w rid qs e =
      { quotients_ := Function.update qs.quotients_ rid
          (some (add_state_new qs.state_space_ qinfo e.1 e.2)),
        quotient_ids_ := set_masked_ids w qs.quotient_ids_ e.1 rid,
        state_space_ := qs.state_space_ } := by
    simp only [build_new_quotient_step, hne, if_false, hQ, Option.getD_some]
  have hg : ∀ t, (build_new_quotient_step w rid qs e).get_masked_state_id t =
      if t = e.1 then rid ||| FLAG w else qs.get_masked_state_id t := by
    intro t; rw [hqs1]; exact get_masked_set w qs.quotient_ids_ e.1 rid t
  have hQ1 : (build_new_quotient_step w rid qs e).quotients_ =
      Function.update qs.quotients_ rid
        (some (add_state_new qs.state_space_ qinfo e.1 e.2)) := by rw [hqs1]
  refine ⟨?_, hg⟩
  refine inv_redirect w qs _ hinv rid hrid (fun t => t = e.1) ?_ ?_ ?_
    (add_state_new qs.state_space_ qinfo e.1 e.2) ?_ ?_ ?_ ?_
  · intro t ht; rw [ht]; exact hlt
  · intro t ht; rw [hg, if_pos ht]
  · intro t ht; rw [hg, if_neg ht]
  · rw [hQ1, Function.update_same]
  · intro m
    rw [add_state_new_states, List.mem_append, List.mem_singleton, hQ]
    constructor
    · rintro (h | h)
      · exact Or.inr ⟨qinfo, rfl, h⟩
      · exact Or.inl h
    · rintro (h | ⟨q, hq, h⟩)
      · exact Or.inr h
      · cases hq; exact Or.inl h
  · rw [add_state_new_states]; simp [hridmem]
  · intro r hr
    left
    refine ⟨by rw [hQ1, Function.update_noteq hr], ?_⟩
    intro q hq m hm hme
    have hme : m = e.1 := hme
    subst hme
    have := ((hinv.classes r q hq).2.2 _ hm).2
    rw [this] at hflag
    exact or_FLAG_and_FLAG w r hw hflag

/-- The loop of `build_new_quotient` over states that are in no class keeps
the invariant and redirects exactly the listed states. -/
theorem build_new_quotient_loop_inv [DecidableEq Action] (w : Nat) (hw : 0 < w) (rid : Nat)
    (hrid : rid < 2 ^ (w - 1)) (l : List (Nat × List Action)) :
    ∀ qs : DefaultQuotientSystem Action, Inv w qs →
      qs.get_masked_state_id rid = rid ||| FLAG w →
      (l.map Prod.fst).Nodup →
      (∀ e ∈ l, e.1 < 2 ^ (w - 1)) →
      (∀ e ∈ l, e.1 ≠ rid → qs.get_masked_state_id e.1 &&& FLAG w = 0) →
      Inv w (l.foldl (build_new_quotient_step w rid) qs) ∧
        ∀ t, (l.foldl (build_new_quotient_step w rid) qs).get_masked_state_id t =
          if t ≠ rid ∧ t ∈ l.map Prod.fst then rid ||| FLAG w
          else qs.get_masked_state_id t := by
  induction l with
  | nil =>
    intro qs hinv _ _ _ _
    exact ⟨hinv, fun t => by simp⟩
  | cons e l ih =>
    intro qs hinv hridrep hnd hlt hflag
    rw [List.map_cons, List.nodup_cons] at hnd
    rw [List.foldl_cons]
    by_cases hne : e.1 = rid
    · have hstep : build_new_quotient_step w rid qs e = qs := by
        simp [build_new_quotient_step, hne]
      rw [hstep]
      obtain ⟨h1, h2⟩ := ih qs hinv hridrep hnd.2 (fun x hx => hlt x (List.mem_cons_of_mem _ hx))
        (fun x hx => hflag x (List.mem_cons_of_mem _ hx))
      refine ⟨h1, fun t => ?_⟩
      rw [h2 t]
      by_cases ht : t = rid
      · simp [ht]
      · have : t ≠ e.1 := fun h => ht (h.trans hne)
        simp only [List.map_cons, List.mem_cons, this, false_or]
    · obtain ⟨hinv1, hg1⟩ := build_new_quotient_step_inv w hw rid qs hinv hrid hridrep e hne
        (hlt e (List.mem_cons_self _ _)) (hflag e (List.mem_cons_self _ _) hne)
      have hridrep1 : (build_new_quotient_step w rid qs e).get_masked_state_id rid =
          rid ||| FLAG w := by
        rw [hg1, if_neg (fun h => hne h.symm)]; exact hridrep
      obtain ⟨h1, h2⟩ := ih _ hinv1 hridrep1 hnd.2
        (fun x hx => hlt x (List.mem_cons_of_mem _ hx))
        (fun x hx hx1 => by
          have hxe : x.1 ≠ e.1 := fun h => hnd.1 (h ▸ List.mem_map_of_mem Prod.fst hx)
          rw [hg1, if_neg hxe]
          exact hflag x (List.mem_cons_of_mem _ hx) hx1)
      refine ⟨h1, fun t => ?_⟩
      rw [h2 t, hg1 t]
      by_cases ht : t = e.1
      · subst ht
        simp [hne, hnd.1]
      · by_cases ht1 : t ∈ l.map Prod.fst
        · simp [ht, ht1]
        · simp only [List.map_cons, List.mem_cons, ht, ht1, or_self, and_false, if_false]

/-- The method `build_new_quotient` keeps the representation invariant when
called as its assertions and the id layout require: the listed states are
below `2^(w-1)`, pairwise distinct and in no class. The states it redirects
to the entry are exactly the entry and the listed states. -/
theorem build_new_quotient_inv [DecidableEq Action] (w : Nat) (hw : 0 < w)
    (qs : DefaultQuotientSystem Action) (hinv : Inv w qs)
    (submdp : List (Nat × List Action)) (entry : Nat × List Action)
    (hentry : entry.1 < 2 ^ (w - 1))
    (hentry_flag : qs.get_masked_state_id entry.1 &&& FLAG w = 0)
    (hnd : (submdp.map Prod.fst).Nodup)
    (hlt : ∀ e ∈ submdp, e.1 < 2 ^ (w - 1))
    (hflag : ∀ e ∈ submdp, e.1 ≠ entry.1 → qs.get_masked_state_id e.1 &&& FLAG w = 0) :
    Inv w (build_new_quotient w qs submdp entry) ∧
      ∀ t, (build_new_quotient w qs submdp entry).get_masked_state_id t =
        if t = entry.1 ∨ t ∈ submdp.map Prod.fst then entry.1 ||| FLAG w
        else qs.get_masked_state_id t := by
  have hnone := inv_no_class_of_unflagged w hw qs hinv entry.1 hentry_flag
  obtain ⟨qs0, hqs0⟩ : ∃ qs0 : DefaultQuotientSystem Action, qs0 =
      { quotients_ := Function.update qs.quotients_ entry.1
          (some (add_state_new qs.state_space_ {} entry.1 entry.2)),
        quotient_ids_ := set_masked_ids w qs.quotient_ids_ entry.1 entry.1,
        state_space_ := qs.state_space_ } := ⟨_, rfl⟩
  have hb : build_new_quotient w qs submdp entry =
      submdp.foldl (build_new_quotient_step w entry.1) qs0 := by
    simp only [build_new_quotient, hnone, Option.getD_none, hqs0]
  have hg0 : ∀ t, qs0.get_masked_state_id t =
      if t = entry.1 then entry.1 ||| FLAG w else qs.get_masked_state_id t := by
    intro t; rw [hqs0]; exact get_masked_set w qs.quotient_ids_ entry.1 entry.1 t
  have hQ0 : qs0.quotients_ = Function.update qs.quotients_ entry.1
      (some (add_state_new qs.state_space_ {} entry.1 entry.2)) := by rw [hqs0]
  have hinv0 : Inv w qs0 := by
    refine inv_redirect w qs qs0 hinv entry.1 hentry (fun t => t = entry.1) ?_ ?_ ?_
      (add_state_new qs.state_space_ {} entry.1 entry.2) ?_ ?_ ?_ ?_
    · intro t ht; rw [ht]; exact hentry
    · intro t ht; rw [hg0, if_pos ht]
    · intro t ht; rw [hg0, if_neg ht]
    · rw [hQ0, Function.update_same]
    · intro m
      rw [add_state_new_states, hnone]
      simp [QuotientInformation.states]
    · rw [add_state_new_states]; simp
    · intro r hr
      left
      refine ⟨by rw [hQ0, Function.update_noteq hr], ?_⟩
      intro q hq m hm hme
      have hme : m = entry.1 := hme
      subst hme
      have := ((hinv.classes r q hq).2.2 _ hm).2
      rw [this] at hentry_flag
      exact or_FLAG_and_FLAG w r hw hentry_flag
  obtain ⟨h1, h2⟩ := build_new_quotient_loop_inv w hw entry.1 hentry submdp qs0 hinv0
    (by rw [hg0, if_pos rfl]) hnd hlt
    (fun e he hne => by rw [hg0, if_neg hne]; exact hflag e he hne)
  rw [hb]
  refine ⟨h1, fun t => ?_⟩
  rw [h2 t, hg0 t]
  by_cases ht : t = entry.1
  · simp [ht]
  · simp only [ht, false_or, if_false, ne_eq, not_false_eq_true, true_and]

/-- C8: after `build_quotient(submdp, entry)`, where the listed states are
pairwise distinct, have ids below `2^(w-1)`, and each is in no class or
represents its own class, every listed state and every member of every
listed class is translated to the id `rid` of the entry state, `rid` is
translated to itself, every other state keeps its translation, and
`translate_state_id` is idempotent on all states. The states are the ids
below `2^(w-1)`: the high bit of a stored id is the class flag, so no state
has an id from `2^(w-1)` on. The system the call is made on satisfies the
invariant `Inv` of the representation, which holds for the constructed
system (`inv_init`), after every such call (`build_quotient_masked`) and
after every call of `build_new_quotient` on states in no class
(`build_new_quotient_inv`). -/
theorem build_quotient_translate [DecidableEq Action] (w : Nat) (hw : 0 < w)
    (qs : DefaultQuotientSystem Action) (hinv : Inv w qs)
    (submdp : List (Nat × List (QuotientAction Action)))
    (entry : Nat × List (QuotientAction Action)) (hentry : entry ∈ submdp)
    (hnodup : (submdp.map Prod.fst).Nodup)
    (hlt : ∀ e ∈ submdp, e.1 < 2 ^ (w - 1))
    (hrep : ∀ e ∈ submdp, qs.get_masked_state_id e.1 &&& FLAG w = 0 ∨
      qs.get_masked_state_id e.1 = e.1 ||| FLAG w) :
    ∃ qs1, build_quotient w qs submdp entry = some qs1 ∧
      (∀ e ∈ submdp, translate_state_id w qs1 e.1 = entry.1) ∧
      (∀ e ∈ submdp, ∀ q, qs.quotients_ e.1 = some q → ∀ m ∈ q.states,
        translate_state_id w qs1 m = entry.1) ∧
      translate_state_id w qs1 entry.1 = entry.1 ∧
      (∀ t, (∀ e ∈ submdp, t ≠ e.1 ∧ ∀ q, qs.quotients_ e.1 = some q → t ∉ q.states) →
        translate_state_id w qs1 t = translate_state_id w qs t) ∧
      (∀ t, t < 2 ^ (w - 1) →
        translate_state_id w qs1 (translate_state_id w qs1 t) = translate_state_id w qs1 t) := by
  obtain ⟨qs1, h1, h2, _, h4, h5, h6⟩ :=
    build_quotient_masked w hw qs hinv submdp entry hentry hnodup hlt hrep
  have hrid := hlt entry hentry
  refine ⟨qs1, h1, ?_, ?_, ?_, ?_, ?_⟩
  · intro e he
    unfold translate_state_id
    rw [h4 e he, or_FLAG_and_MASK w entry.1 hw hrid]
  · intro e he q hq m hm
    unfold translate_state_id
    rw [h5 e he q hq m hm, or_FLAG_and_MASK w entry.1 hw hrid]
  · unfold translate_state_id
    rw [h4 entry hentry, or_FLAG_and_MASK w entry.1 hw hrid]
  · intro t ht
    unfold translate_state_id
    rw [h6 t ht]
  · intro t ht
    exact translate_idem_of_inv w hw qs1 h2 t ht

/-- Witness of C8: the fresh states `0` (entry) and `1` of the fresh
system over the example MDP, with 64-bit ids. -/
theorem build_quotient_translate_witness :
    (0 < 64) ∧ Inv 64 (init example_space) ∧
      ((0, []) : Nat × List (QuotientAction Nat)) ∈ [(0, []), (1, [])] ∧
      (([(0, []), (1, [])] : List (Nat × List (QuotientAction Nat))).map Prod.fst).Nodup ∧
      ∃ qs1, build_quotient 64 (init example_space) [(0, []), (1, [])] (0, []) = some qs1 ∧
        (∀ e ∈ ([(0, []), (1, [])] : List (Nat × List (QuotientAction Nat))),
          translate_state_id 64 qs1 e.1 = 0) ∧
        (∀ t, t < 2 ^ (64 - 1) →
          translate_state_id 64 qs1 (translate_state_id 64 qs1 t) =
            translate_state_id 64 qs1 t) := by
  refine ⟨by decide, inv_init 64 example_space, by decide, by decide, ?_⟩
  obtain ⟨qs1, h1, h2, _, _, _, h6⟩ :=
    build_quotient_translate 64 (by decide) (init example_space) (inv_init 64 example_space)
      [(0, []), (1, [])] (0, []) (by decide) (by decide) (by decide)
      (by intro e he; left; revert e he; decide)
  exact ⟨qs1, h1, h2, h6⟩

end DefaultQuotientSystem
end quotients
end probfd

/-! ## Quotient system: transitions of quotient actions -/

namespace probfd
namespace Distribution

variable {T : Type}

theorem mass_add_probability [DecidableEq T] (d : Distribution T) (t : T) (p : value_t)
    (r : T) :
    (d.add_probability t p).mass r = d.mass r + (if t = r then p else 0) := by
  induction d with
  | nil =>
    by_cases h : t = r <;> simp [add_probability, mass, h]
  | cons x rest ih =>
    obtain ⟨x, px⟩ := x
    by_cases hx : x = t
    · subst hx
      by_cases h : x = r
      · simp only [add_probability, mass, h, if_true, List.filter_cons, decide_True,
          List.map_cons, List.sum_cons]
        ring
      · simp [add_probability, mass, h]
    · have ih1 : mass (add_probability rest t p) r = mass rest r + (if t = r then p else 0) := ih
      by_cases h : x = r
      · have e1 : mass ((x, px) :: add_probability rest t p) r =
            px + mass (add_probability rest t p) r := by simp [mass, h]
        have e2 : mass ((x, px) :: rest) r = px + mass rest r := by simp [mass, h]
        simp only [add_probability, hx, if_false, e1, e2, ih1, add_assoc]
      · have e1 : mass ((x, px) :: add_probability rest t p) r =
            mass (add_probability rest t p) r := by simp [mass, h]
        have e2 : mass ((x, px) :: rest) r = mass rest r := by simp [mass, h]
        simp only [add_probability, hx, if_false, e1, e2, ih1]

theorem total_add_probability [DecidableEq T] (d : Distribution T) (t : T) (p : value_t) :
    (d.add_probability t p).total = d.total + p := by
  induction d with
  | nil => simp [add_probability, total]
  | cons x rest ih =>
    obtain ⟨x, px⟩ := x
    have ih1 : total (add_probability rest t p) = total rest + p := ih
    by_cases hx : x = t
    · simp [add_probability, total, hx, add_assoc, add_comm p]
    · have e1 : total ((x, px) :: add_probability rest t p) =
          px + total (add_probability rest t p) := by simp [total]
      have e2 : total ((x, px) :: rest) = px + total rest := by simp [total]
      simp only [add_probability, hx, if_false, e1, e2, ih1, add_assoc]

theorem support_add_probability [DecidableEq T] (d : Distribution T) (t : T) (p : value_t) :
    (d.add_probability t p).support =
      if t ∈ d.support then d.support else d.support ++ [t] := by
  induction d with
  | nil => simp [add_probability, support]
  | cons x rest ih =>
    obtain ⟨x, px⟩ := x
    have ih1 : support (add_probability rest t p) =
        if t ∈ support rest then support rest else support rest ++ [t] := ih
    have e0 : ∀ (y : T × value_t) (l : Distribution T),
        support (y :: l) = y.1 :: support l := fun _ _ => rfl
    by_cases hx : x = t
    · subst hx
      simp [add_probability, support]
    · have hx1 : ¬ t = x := fun h => hx h.symm
      simp only [add_probability, hx, if_false, e0, ih1, List.mem_cons, hx1, false_or]
      by_cases hm : t ∈ support rest <;> simp [hm]

theorem nodup_add_probability [DecidableEq T] (d : Distribution T) (t : T) (p : value_t)
    (h : d.support.Nodup) : (d.add_probability t p).support.Nodup := by
  rw [support_add_probability]
  by_cases hm : t ∈ d.support
  · simpa [hm] using h
  · simp only [hm, if_false]
    exact List.Nodup.append h (List.nodup_singleton t) (by simpa using hm)

end Distribution

namespace quotients
namespace DefaultQuotientSystem

variable {Action : Type}

open Distribution

/-- The loop of `generate_action_transitions` over the base successors. -/
theorem transitions_foldl (w : Nat) (qs : DefaultQuotientSystem Action)
    (orig : Distribution Nat) :
    ∀ result : Distribution Nat,
      (∀ r, mass (orig.foldl (fun res sp =>
            res.add_probability (qs.get_masked_state_id sp.1 &&& MASK w) sp.2) result) r =
          mass result r +
            ((orig.filter (fun sp => decide (translate_state_id w qs sp.1 = r))).map
              Prod.snd).sum) ∧
        total (orig.foldl (fun res sp =>
            res.add_probability (qs.get_masked_state_id sp.1 &&& MASK w) sp.2) result) =
          total result + total orig ∧
        (result.support.Nodup → (support (orig.foldl (fun res sp =>
            res.add_probability (qs.get_masked_state_id sp.1 &&& MASK w) sp.2) result)).Nodup) ∧
        (∀ r ∈ support (orig.foldl (fun res sp =>
            res.add_probability (qs.get_masked_state_id sp.1 &&& MASK w) sp.2) result),
          r ∈ result.support ∨ ∃ sp ∈ orig, translate_state_id w qs sp.1 = r) := by
  induction orig with
  | nil =>
    intro result
    refine ⟨?_, ?_, ?_, ?_⟩
    · intro r; simp
    · simp [total]
    · intro h; exact h
    · intro r hr; exact Or.inl hr
  | cons sp rest ih =>
    intro result
    obtain ⟨h1, h2, h3, h4⟩ :=
      ih (result.add_probability (qs.get_masked_state_id sp.1 &&& MASK w) sp.2)
    refine ⟨?_, ?_, ?_, ?_⟩
    · intro r
      rw [List.foldl_cons, h1 r, mass_add_probability]
      by_cases h : translate_state_id w qs sp.1 = r
      · have h' : qs.get_masked_state_id sp.1 &&& MASK w = r := h
        simp [h, h', add_assoc]
      · have h' : ¬ qs.get_masked_state_id sp.1 &&& MASK w = r := h
        simp [h, h']
    · rw [List.foldl_cons, h2, total_add_probability]
      simp [total, add_assoc]
    · intro hnd
      rw [List.foldl_cons]
      exact h3 (nodup_add_probability _ _ _ hnd)
    · intro r hr
      rw [List.foldl_cons] at hr
      rcases h4 r hr with h | ⟨sp1, hsp1, h⟩
      · rw [support_add_probability] at h
        by_cases hm : (qs.get_masked_state_id sp.1 &&& MASK w) ∈ result.support
        · rw [if_pos hm] at h; exact Or.inl h
        · rw [if_neg hm] at h
          rcases List.mem_append.1 h with h | h
          · exact Or.inl h
          · right
            refine ⟨sp, List.mem_cons_self _ _, ?_⟩
            have : r = qs.get_masked_state_id sp.1 &&& MASK w := by simpa using h
            rw [this]; rfl
      · exact Or.inr ⟨sp1, List.mem_cons_of_mem _ hsp1, h⟩

/-- C9: `generate_action_transitions`, started on an empty result, yields a
distribution without repeated states that gives each state `r` the sum of
the base probabilities over all base successors `t` with
`translate_state_id(t) = r`; its total probability equals that of the base
transition, every state in its support is the translation of a base
successor and is left fixed by `translate_state_id`. The first four parts
hold for every content of the system; the last one is stated for a system
that satisfies the invariant `Inv` of the representation (true of the
constructed system and kept by `build_quotient` and `build_new_quotient`)
and for base successors
that are states, that is, have ids below `2^(w-1)` (the high bit of a stored
id is the class flag). -/
theorem generate_action_transitions_spec (w : Nat) (qs : DefaultQuotientSystem Action)
    (sid : Nat) (a : QuotientAction Action) :
    (∀ r, mass (generate_action_transitions w qs sid a []) r =
        (((qs.state_space_.generate_action_transitions a.state_id a.action).filter
          (fun sp => decide (translate_state_id w qs sp.1 = r))).map Prod.snd).sum) ∧
      total (generate_action_transitions w qs sid a []) =
        total (qs.state_space_.generate_action_transitions a.state_id a.action) ∧
      (support (generate_action_transitions w qs sid a [])).Nodup ∧
      (∀ r ∈ support (generate_action_transitions w qs sid a []),
        ∃ sp ∈ qs.state_space_.generate_action_transitions a.state_id a.action,
          translate_state_id w qs sp.1 = r) ∧
      (0 < w → Inv w qs →
        (∀ sp ∈ qs.state_space_.generate_action_transitions a.state_id a.action,
          sp.1 < 2 ^ (w - 1)) →
        ∀ r ∈ support (generate_action_transitions w qs sid a []),
          translate_state_id w qs r = r) := by
  obtain ⟨h1, h2, h3, h4⟩ := transitions_foldl w qs
    (qs.state_space_.generate_action_transitions a.state_id a.action) []
  have h4' : ∀ r ∈ support (generate_action_transitions w qs sid a []),
      ∃ sp ∈ qs.state_space_.generate_action_transitions a.state_id a.action,
        translate_state_id w qs sp.1 = r := by
    intro r hr
    rcases h4 r hr with h | h
    · simp [support] at h
    · exact h
  refine ⟨?_, ?_, ?_, h4', ?_⟩
  · intro r
    have := h1 r
    simpa [mass, generate_action_transitions] using this
  · have := h2
    simpa [total, generate_action_transitions] using this
  · exact h3 (by simp [support])
  · intro hw hinv hlt r hr
    obtain ⟨sp, hsp, h⟩ := h4' r hr
    rw [← h]
    exact translate_idem_of_inv w hw qs hinv sp.1 (hlt sp hsp)

/-- Witness of C9: the action `(0, 7)` of the example MDP in the
system whose only class is `{1, 2}`, with 64-bit ids. -/
theorem generate_action_transitions_spec_witness :
    ∃ qs1, build_quotient 64 (init example_space) [(1, []), (2, [])] (1, []) = some qs1 ∧
      (0 < 64) ∧ Inv 64 qs1 ∧
      (∀ sp ∈ qs1.state_space_.generate_action_transitions 0 7, sp.1 < 2 ^ (64 - 1)) ∧
      total (generate_action_transitions 64 qs1 0 ⟨0, 7⟩ []) =
        total (qs1.state_space_.generate_action_transitions 0 7) ∧
      ∀ r ∈ support (generate_action_transitions 64 qs1 0 ⟨0, 7⟩ []),
        translate_state_id 64 qs1 r = r := by
  obtain ⟨qs1, h1, h2, h3, _⟩ :=
    build_quotient_masked 64 (by decide) (init example_space)
      (inv_init 64 example_space) [(1, []), (2, [])] (1, []) (by decide) (by decide)
      (by decide) (by intro e he; left; revert e he; decide)
  have hlt : ∀ sp ∈ qs1.state_space_.generate_action_transitions 0 7,
      sp.1 < 2 ^ (64 - 1) := by
    rw [h3]; decide
  exact ⟨qs1, h1, by decide, h2, hlt,
    (generate_action_transitions_spec 64 qs1 0 ⟨0, 7⟩).2.1,
    (generate_action_transitions_spec 64 qs1 0 ⟨0, 7⟩).2.2.2.2 (by decide) h2 hlt⟩

/-! ## Quotient system: actions of a class built from fresh states -/

theorem length_filter_not {α : Type} (p : α → Bool) (l : List α) :
    (l.filter p).length + (l.filter (fun a => !p a)).length = l.length := by
  have := (List.filter_append_perm p l).length_eq
  simpa using this

/-- The block "Add this state to the quotient" appends one state info and
the outer actions of the state followed by its inner actions. -/
theorem add_state_eq [DecidableEq Action] (ss : StateSpace Action)
    (q : QuotientInformation Action) (s : Nat) (aops : List (QuotientAction Action)) :
    add_state ss q s aops =
      { state_infos := q.state_infos ++
          [{ state_id := s,
             num_outer_acts := ((ss.generate_applicable_actions s).filter
               (fun a => !((aops.map QuotientAction.action).contains a))).length,
             num_inner_acts := ((ss.generate_applicable_actions s).filter
               (fun a => (aops.map QuotientAction.action).contains a)).length }],
        aops := q.aops ++
          ((ss.generate_applicable_actions s).filter
              (fun a => !((aops.map QuotientAction.action).contains a)) ++
            (ss.generate_applicable_actions s).filter
              (fun a => (aops.map QuotientAction.action).contains a)),
        total_num_outer_acts := q.total_num_outer_acts +
          ((ss.generate_applicable_actions s).filter
            (fun a => !((aops.map QuotientAction.action).contains a))).length } := by
  have hlen := length_filter_not
    (fun a => !((aops.map QuotientAction.action).contains a))
    (ss.generate_applicable_actions s)
  simp only [Bool.not_not] at hlen
  by_cases hE : (aops.map QuotientAction.action).isEmpty = true
  · have hnil : aops.map QuotientAction.action = [] := List.isEmpty_iff.1 hE
    simp [add_state, partition_actions, hnil]
  · simp only [add_state, partition_actions, hE, List.drop_left, List.take_left,
      List.length_append, Nat.add_sub_cancel_left, if_false, Bool.false_eq_true]
    congr 2
    · congr 1
      congr 1
      omega

theorem foldl_add_state [DecidableEq Action] (ss : StateSpace Action)
    (es : List (Nat × List (QuotientAction Action))) :
    ∀ q : QuotientInformation Action,
      es.foldl (fun q e => add_state ss q e.1 e.2) q =
        { state_infos := q.state_infos ++ es.map (fun e =>
            { state_id := e.1, num_outer_acts := (listed_outer ss e).length,
              num_inner_acts := (listed_inner ss e).length }),
          aops := q.aops ++ es.flatMap (fun e => listed_outer ss e ++ listed_inner ss e),
          total_num_outer_acts := q.total_num_outer_acts +
            (es.map (fun e => (listed_outer ss e).length)).sum } := by
  induction es with
  | nil => intro q; simp
  | cons e rest ih =>
    intro q
    rw [List.foldl_cons, ih, add_state_eq]
    simp [listed_outer, listed_inner, List.append_assoc, Nat.add_assoc]

theorem outer_actions_blocks [DecidableEq Action] (ss : StateSpace Action)
    (es : List (Nat × List (QuotientAction Action))) :
    outer_actions
        (es.map (fun e =>
          ({ state_id := e.1, num_outer_acts := (listed_outer ss e).length,
             num_inner_acts := (listed_inner ss e).length } : StateInfo)))
        (es.flatMap (fun e => listed_outer ss e ++ listed_inner ss e)) =
      es.flatMap (fun e => (listed_outer ss e).map (fun a => ⟨e.1, a⟩)) := by
  induction es with
  | nil => rfl
  | cons e rest ih =>
    simp only [List.map_cons, List.flatMap_cons, outer_actions]
    rw [List.append_assoc, List.take_left, ← List.append_assoc,
      List.drop_left' (List.length_append _ _), ih]

theorem inner_actions_blocks [DecidableEq Action] (ss : StateSpace Action)
    (es : List (Nat × List (QuotientAction Action))) :
    inner_actions
        (es.map (fun e =>
          ({ state_id := e.1, num_outer_acts := (listed_outer ss e).length,
             num_inner_acts := (listed_inner ss e).length } : StateInfo)))
        (es.flatMap (fun e => listed_outer ss e ++ listed_inner ss e)) =
      es.flatMap (fun e => (listed_inner ss e).map (fun a => ⟨e.1, a⟩)) := by
  induction es with
  | nil => rfl
  | cons e rest ih =>
    simp only [List.map_cons, List.flatMap_cons, inner_actions]
    rw [List.append_assoc, List.drop_left, List.take_left, ← List.append_assoc,
      List.drop_left' (List.length_append _ _), ih]

/-- The loop of `build_quotient` over pairwise distinct states in no class:
the class of `rid` receives the blocks of the listed states other than
`rid`, in order. -/
theorem build_quotient_loop_fresh [DecidableEq Action] (w rid : Nat)
    (l : List (Nat × List (QuotientAction Action))) :
    ∀ (qs : DefaultQuotientSystem Action) (qinfo : QuotientInformation Action),
      qs.quotients_ rid = some qinfo →
      (l.map Prod.fst).Nodup →
      (∀ e ∈ l, e.1 ≠ rid → qs.get_masked_state_id e.1 &&& FLAG w = 0) →
      ∃ qs1, build_quotient_loop w rid qs l = some qs1 ∧
        qs1.quotients_ rid = some
          ((l.filter (fun e => decide (e.1 ≠ rid))).foldl
            (fun q e => add_state qs.state_space_ q e.1 e.2) qinfo) := by
  induction l with
  | nil => intro qs qinfo hQ _ _; exact ⟨qs, rfl, by simpa using hQ⟩
  | cons e rest ih =>
    intro qs qinfo hQ hnd hfresh
    have hnd1 : e.1 ∉ rest.map Prod.fst := (List.nodup_cons.1 hnd).1
    have hnd2 : (rest.map Prod.fst).Nodup := (List.nodup_cons.1 hnd).2
    by_cases hne : e.1 = rid
    · obtain ⟨qs1, h1, h2⟩ := ih qs qinfo hQ hnd2
        (fun e1 he1 => hfresh e1 (List.mem_cons_of_mem _ he1))
      refine ⟨qs1, ?_, ?_⟩
      · simp only [build_quotient_loop, build_quotient_step, hne, if_true]
        exact h1
      · rw [h2]; simp [hne]
    · have hflag := hfresh e (List.mem_cons_self _ _) hne
      obtain ⟨qs1, h1, h2⟩ := ih
        { quotients_ := Function.update qs.quotients_ rid
            (some (add_state qs.state_space_ qinfo e.1 e.2)),
          quotient_ids_ := set_masked_ids w qs.quotient_ids_ e.1 rid,
          state_space_ := qs.state_space_ }
        (add_state qs.state_space_ qinfo e.1 e.2) (Function.update_same _ _ _) hnd2
        (by
          intro e1 he1 hne1
          have hdiff : e1.1 ≠ e.1 := by
            intro h
            exact hnd1 (h ▸ List.mem_map_of_mem Prod.fst he1)
          show get_masked_ids (set_masked_ids w qs.quotient_ids_ e.1 rid) e1.1 &&& FLAG w = 0
          rw [get_masked_set, if_neg hdiff]
          exact hfresh e1 (List.mem_cons_of_mem _ he1) hne1)
      refine ⟨qs1, ?_, ?_⟩
      · simp only [build_quotient_loop, build_quotient_step, hne, if_false, hQ, hflag, ne_eq,
          not_true_eq_false]
        exact h1
      · rw [h2]; simp [hne]

/-- The class stored for the entry state after `build_quotient` on pairwise
distinct states below `2^(w-1)` in no class, and its masked id. -/
theorem build_quotient_fresh_class [DecidableEq Action] (w : Nat) (hw : 0 < w)
    (qs : DefaultQuotientSystem Action) (hinv : Inv w qs)
    (submdp : List (Nat × List (QuotientAction Action)))
    (entry : Nat × List (QuotientAction Action)) (hentry : entry ∈ submdp)
    (hnodup : (submdp.map Prod.fst).Nodup)
    (hlt : ∀ e ∈ submdp, e.1 < 2 ^ (w - 1))
    (hfresh : ∀ e ∈ submdp, qs.get_masked_state_id e.1 &&& FLAG w = 0) :
    ∃ qs1, build_quotient w qs submdp entry = some qs1 ∧
      get_quotient_info w qs1 entry.1 = some (some
        { state_infos := (members_in_order submdp entry).map (fun e =>
            { state_id := e.1, num_outer_acts := (listed_outer qs.state_space_ e).length,
              num_inner_acts := (listed_inner qs.state_space_ e).length }),
          aops := (members_in_order submdp entry).flatMap
            (fun e => listed_outer qs.state_space_ e ++ listed_inner qs.state_space_ e),
          total_num_outer_acts :=
            ((members_in_order submdp entry).map
              (fun e => (listed_outer qs.state_space_ e).length)).sum }) := by
  have hrid := hlt entry hentry
  obtain ⟨qs1, h1, _, _, h4, _, _⟩ :=
    build_quotient_masked w hw qs hinv submdp entry hentry hnodup hlt
      (fun e he => Or.inl (hfresh e he))
  have hnone := inv_no_class_of_unflagged w hw qs hinv entry.1 (hfresh entry hentry)
  have hqe : build_quotient_entry w qs entry =
      { quotients_ := Function.update qs.quotients_ entry.1
          (some (add_state qs.state_space_ {} entry.1 entry.2)),
        quotient_ids_ := set_masked_ids w qs.quotient_ids_ entry.1 entry.1,
        state_space_ := qs.state_space_ } := by
    simp [build_quotient_entry, hnone]
  obtain ⟨qs2, k1, k2⟩ := build_quotient_loop_fresh w entry.1 submdp
    (build_quotient_entry w qs entry) (add_state qs.state_space_ {} entry.1 entry.2)
    (by rw [hqe]; exact Function.update_same _ _ _) hnodup
    (by
      intro e he hne
      rw [hqe]
      show get_masked_ids (set_masked_ids w qs.quotient_ids_ entry.1 entry.1) e.1 &&& FLAG w = 0
      rw [get_masked_set, if_neg hne]
      exact hfresh e he)
  have hsame : qs2 = qs1 := by
    have h1' : build_quotient_loop w entry.1 (build_quotient_entry w qs entry) submdp =
        some qs1 := h1
    rw [k1] at h1'
    exact Option.some.inj h1'
  subst hsame
  have hQ1 : qs2.quotients_ entry.1 = some
      ((members_in_order submdp entry).foldl
        (fun q e => add_state qs.state_space_ q e.1 e.2) {}) := by
    rw [k2, hqe]; rfl
  rw [foldl_add_state] at hQ1
  refine ⟨qs2, h1, ?_⟩
  have hf : (entry.1 ||| FLAG w) &&& FLAG w ≠ 0 := or_FLAG_and_FLAG w entry.1 hw
  simp only [get_quotient_info, h4 entry hentry, hf, ne_eq, not_false_eq_true, if_true,
    or_FLAG_and_MASK w entry.1 hw hrid, hQ1]
  simp

theorem contains_true_iff {α : Type} [DecidableEq α] (l : List α) (a : α) :
    l.contains a = true ↔ a ∈ l := by simp

theorem eq_of_mem_of_fst_eq {β : Type} (l : List (Nat × β)) (hnd : (l.map Prod.fst).Nodup)
    (x y : Nat × β) (hx : x ∈ l) (hy : y ∈ l) (h : x.1 = y.1) : x = y :=
  List.inj_on_of_nodup_map hnd hx hy h

theorem members_subset [DecidableEq Action]
    (submdp : List (Nat × List (QuotientAction Action)))
    (entry : Nat × List (QuotientAction Action)) (hentry : entry ∈ submdp) :
    ∀ e ∈ members_in_order submdp entry, e ∈ submdp := by
  intro e he
  rcases List.mem_cons.1 he with h | h
  · rw [h]; exact hentry
  · exact (List.mem_filter.1 h).1

theorem mem_members [DecidableEq Action]
    (submdp : List (Nat × List (QuotientAction Action)))
    (entry : Nat × List (QuotientAction Action)) (hnodup : (submdp.map Prod.fst).Nodup)
    (hentry : entry ∈ submdp) :
    ∀ e ∈ submdp, e ∈ members_in_order submdp entry := by
  intro e he
  by_cases h : e.1 = entry.1
  · have := eq_of_mem_of_fst_eq submdp hnodup e entry he hentry h
    rw [this]; exact List.mem_cons_self _ _
  · exact List.mem_cons_of_mem _ (List.mem_filter.2 ⟨he, by simpa using h⟩)

/-- C10: after `build_quotient(submdp, entry)` on a system satisfying its
invariant and pairwise distinct listed states below `2^(w-1)`, none of
which was in a class, `generate_applicable_actions(rid)` returns, member by
member (the entry first, then the others in sub-MDP order), the
base-applicable actions of each member that are not in its listed
inner-action set, in base order; `get_pruned_ops(rid)` returns, in the same
order, those that are in it, so a pair `(s, a)` of a listed state is pruned
exactly when `a` is a listed inner action of `s` applicable in `s`; the two
lists are disjoint and together are a rearrangement of the base-applicable
actions of all members. -/
theorem build_quotient_fresh_actions [DecidableEq Action] (w : Nat) (hw : 0 < w)
    (qs : DefaultQuotientSystem Action) (hinv : Inv w qs)
    (submdp : List (Nat × List (QuotientAction Action)))
    (entry : Nat × List (QuotientAction Action)) (hentry : entry ∈ submdp)
    (hnodup : (submdp.map Prod.fst).Nodup)
    (hlt : ∀ e ∈ submdp, e.1 < 2 ^ (w - 1))
    (hfresh : ∀ e ∈ submdp, qs.get_masked_state_id e.1 &&& FLAG w = 0) :
    ∃ qs1 outer pruned, build_quotient w qs submdp entry = some qs1 ∧
      generate_applicable_actions w qs1 entry.1 [] = some outer ∧
      get_pruned_ops w qs1 entry.1 [] = some pruned ∧
      outer = (members_in_order submdp entry).flatMap
        (fun e => (listed_outer qs.state_space_ e).map (fun a => ⟨e.1, a⟩)) ∧
      pruned = (members_in_order submdp entry).flatMap
        (fun e => (listed_inner qs.state_space_ e).map (fun a => ⟨e.1, a⟩)) ∧
      (∀ e ∈ submdp, ∀ a, (⟨e.1, a⟩ : QuotientAction Action) ∈ pruned ↔
        (a ∈ e.2.map QuotientAction.action ∧
          a ∈ qs.state_space_.generate_applicable_actions e.1)) ∧
      List.Disjoint outer pruned ∧
      (outer ++ pruned).Perm ((members_in_order submdp entry).flatMap
        (fun e => (qs.state_space_.generate_applicable_actions e.1).map
          (fun a => (⟨e.1, a⟩ : QuotientAction Action)))) := by
  obtain ⟨qs1, h1, h2⟩ :=
    build_quotient_fresh_class w hw qs hinv submdp entry hentry hnodup hlt hfresh
  have hsub := members_subset submdp entry hentry
  refine ⟨qs1, _, _, h1, ?_, ?_, rfl, rfl, ?_, ?_, ?_⟩
  · simp only [generate_applicable_actions, h2, List.nil_append, outer_actions_blocks]
  · simp only [get_pruned_ops, h2, List.nil_append, inner_actions_blocks]
  · intro e he a
    simp only [List.mem_flatMap, List.mem_map, listed_inner, List.mem_filter,
      contains_true_iff]
    constructor
    · rintro ⟨e1, he1, a1, ⟨ha1, hb1⟩, heq⟩
      have hs : e1.1 = e.1 := congrArg QuotientAction.state_id heq
      have ha : a1 = a := congrArg QuotientAction.action heq
      have := eq_of_mem_of_fst_eq submdp hnodup e1 e (hsub e1 he1) he hs
      subst this; subst ha
      exact ⟨hb1, ha1⟩
    · rintro ⟨hb, ha⟩
      exact ⟨e, mem_members submdp entry hnodup hentry e he, a, ⟨ha, hb⟩, rfl⟩
  · intro x hx hy
    simp only [List.mem_flatMap, List.mem_map, listed_outer, listed_inner, List.mem_filter,
      contains_true_iff, Bool.not_eq_true', ← Bool.not_eq_true] at hx hy
    obtain ⟨e1, he1, a1, ⟨_, hb1⟩, heq1⟩ := hx
    obtain ⟨e2, he2, a2, ⟨_, hb2⟩, heq2⟩ := hy
    have heq : (⟨e1.1, a1⟩ : QuotientAction Action) = ⟨e2.1, a2⟩ := heq1.trans heq2.symm
    have hs : e1.1 = e2.1 := congrArg QuotientAction.state_id heq
    have ha : a1 = a2 := congrArg QuotientAction.action heq
    have := eq_of_mem_of_fst_eq submdp hnodup e1 e2 (hsub e1 he1) (hsub e2 he2) hs
    subst this; subst ha
    exact hb1 hb2
  · refine (List.flatMap_append_perm _ _ _).trans ?_
    apply List.Perm.flatMap_left
    intro e _
    rw [← List.map_append]
    apply List.Perm.map
    have := List.filter_append_perm
      (fun a => !((e.2.map QuotientAction.action).contains a))
      (qs.state_space_.generate_applicable_actions e.1)
    simpa [listed_outer, listed_inner] using this

/-- Witness of C10: over the example MDP with 64-bit ids, the fresh states
`0` (entry, with listed inner action `8`) and `1` are merged; the class has
the outer actions `(0, 7)`, `(1, 9)` and the pruned action `(0, 8)`. -/
theorem build_quotient_fresh_actions_witness :
    (0 < 64) ∧ Inv 64 (init example_space) ∧
      ∃ qs1, build_quotient 64 (init example_space) [(0, [⟨0, 8⟩]), (1, [])] (0, [⟨0, 8⟩]) =
          some qs1 ∧
        generate_applicable_actions 64 qs1 0 [] = some [⟨0, 7⟩, ⟨1, 9⟩] ∧
        get_pruned_ops 64 qs1 0 [] = some [⟨0, 8⟩] := by
  refine ⟨by decide, inv_init 64 example_space, ?_⟩
  obtain ⟨qs1, outer, pruned, h1, h2, h3, h4, h5, _⟩ :=
    build_quotient_fresh_actions 64 (by decide) (init example_space)
      (inv_init 64 example_space) [(0, [⟨0, 8⟩]), (1, [])] (0, [⟨0, 8⟩])
      (by decide) (by decide) (by decide) (by decide)
  refine ⟨qs1, h1, ?_, ?_⟩
  · rw [h2, h4]; decide
  · rw [h3, h5]; decide

end DefaultQuotientSystem
end quotients
end probfd

/-! ## Dead-end pruning heuristic -/

namespace probfd
namespace heuristics

/-- C14: for a heuristic made by `create_evaluator`, `evaluate` returns the
terminal flag exactly when the result of the wrapped classical evaluator for
the state is infinite; the estimate is the non-goal termination cost of the
task cost function when terminal and `0` otherwise. -/
theorem evaluate_dead_end_iff {State R : Type} (f : DeadEndPruningHeuristicFactory State R)
    (tcf : TaskCostFunction) (h : DeadEndPruningHeuristic State R)
    (hc : f.create_evaluator tcf = some h) (state : State) :
    ((h.evaluate state).is_unsolvable = true ↔
        f.evaluator_.is_infinite (f.evaluator_.compute_result state) = true) ∧
      (h.evaluate state).estimate =
        (if (h.evaluate state).is_unsolvable = true then tcf.get_non_goal_termination_cost
         else 0) := by
  unfold DeadEndPruningHeuristicFactory.create_evaluator DeadEndPruningHeuristic.create at hc
  by_cases hr : f.evaluator_.dead_ends_are_reliable = true
  · simp only [hr, Bool.not_true, Bool.false_eq_true, if_false, Option.some.injEq] at hc
    subst hc
    by_cases hi : f.evaluator_.is_infinite (f.evaluator_.compute_result state) = true
    · simp [DeadEndPruningHeuristic.evaluate, hi]
    · simp [DeadEndPruningHeuristic.evaluate, hi]
  · simp [hr] at hc

/-- Witness of C14: the example evaluator with termination cost `1000` at
the state `12`. -/
theorem evaluate_dead_end_iff_witness :
    (DeadEndPruningHeuristicFactory.mk example_evaluator).create_evaluator ⟨1000⟩ =
        some ⟨example_evaluator, 1000⟩ ∧
      (DeadEndPruningHeuristic.evaluate ⟨example_evaluator, 1000⟩ 12).is_unsolvable = true ∧
      (DeadEndPruningHeuristic.evaluate ⟨example_evaluator, 1000⟩ 12).estimate = 1000 := by
  have h := evaluate_dead_end_iff (DeadEndPruningHeuristicFactory.mk example_evaluator)
    ⟨1000⟩ ⟨example_evaluator, 1000⟩ rfl 12
  have h1 : (DeadEndPruningHeuristic.evaluate ⟨example_evaluator, 1000⟩ 12).is_unsolvable
      = true := h.1.2 (by decide)
  refine ⟨rfl, h1, ?_⟩
  have h2 := h.2
  rw [h1] at h2
  simpa using h2

end heuristics

/-! ## Open lists -/

namespace open_lists

namespace FifoOpenList

theorem push_all_queue (xs : List Nat) :
    ∀ l : FifoOpenList, (l.push_all xs).queue_ = l.queue_ ++ xs := by
  induction xs with
  | nil => intro l; simp [push_all]
  | cons x xs ih =>
    intro l
    have := ih (l.push x)
    simp only [push_all, List.foldl_cons] at this ⊢
    rw [this]; simp [push]

theorem pop_n_all (ys : List Nat) : pop_n ys.length ⟨ys⟩ = some (ys, ⟨[]⟩) := by
  induction ys with
  | nil => rfl
  | cons y ys ih => simp [pop_n, pop, ih]

theorem pop_n_take (k : Nat) :
    ∀ ys : List Nat, k ≤ ys.length → pop_n k ⟨ys⟩ = some (ys.take k, ⟨ys.drop k⟩) := by
  induction k with
  | zero => intro ys _; rfl
  | succ k ih =>
    intro ys hk
    cases ys with
    | nil => simp at hk
    | cons y ys =>
      have hk1 : k ≤ ys.length := by simpa using hk
      simp [pop_n, pop, ih ys hk1]

theorem push_replicate_length (n : Nat) :
    (({} : FifoOpenList).push_all (List.replicate n 0)).queue_.length = n := by
  rw [push_all_queue]; simp

theorem push_replicate_size (n : Nat) :
    (({} : FifoOpenList).push_all (List.replicate n 0)).size = n % 2 ^ 32 := by
  unfold size
  rw [push_replicate_length]

/-- C17, as stated, fails for the return type `unsigned` of `size()`: after
`2^32` calls of `push` on a new list and no call of `pop`, `2^32` ids have
been pushed and not popped, and `size()` is `0`. -/
theorem fifo_size_counterexample :
    (List.replicate (2 ^ 32) 0).length = 2 ^ 32 ∧
      ((({} : FifoOpenList).push_all (List.replicate (2 ^ 32) 0)).queue_.length = 2 ^ 32) ∧
      (({} : FifoOpenList).push_all (List.replicate (2 ^ 32) 0)).size = 0 :=
  ⟨List.length_replicate _ _, push_replicate_length _,
    (push_replicate_size (2 ^ 32)).trans (Nat.mod_self _)⟩

/-- C17, amended: on a list holding the sequence `q`, after `push(x1)`, ...,
`push(xn)` the next `|q| + n` calls of `pop` return the elements of `q`
followed by `x1`, ..., `xn` in that order and leave the list empty; after
the first `k` of these calls, which return the first `k` of these ids,
`size()` is the number `|q| + n - k` of ids pushed and not yet popped
reduced modulo `2^32`, hence that number itself when it is below `2^32`;
`size()` is `0` on a new list and after `clear()`. -/
theorem fifo_order_and_size (l : FifoOpenList) (xs : List Nat) :
    pop_n (l.queue_.length + xs.length) (l.push_all xs) = some (l.queue_ ++ xs, ⟨[]⟩) ∧
      (∀ k, k ≤ l.queue_.length + xs.length →
        ∃ l1, pop_n k (l.push_all xs) = some ((l.queue_ ++ xs).take k, l1) ∧
          l1.size = (l.queue_.length + xs.length - k) % 2 ^ 32 ∧
          (l.queue_.length + xs.length - k < 2 ^ 32 →
            l1.size = l.queue_.length + xs.length - k)) ∧
      size {} = 0 ∧
      l.clear.size = 0 := by
  have hq : l.push_all xs = ⟨l.queue_ ++ xs⟩ := by
    have := push_all_queue xs l
    cases hl : l.push_all xs with
    | mk q => rw [hl] at this; simp at this; rw [this]
  refine ⟨?_, ?_, rfl, rfl⟩
  · have h := pop_n_all (l.queue_ ++ xs)
    rw [List.length_append] at h
    rw [hq]; exact h
  · intro k hk
    have hk1 : k ≤ (l.queue_ ++ xs).length := by rw [List.length_append]; exact hk
    refine ⟨⟨(l.queue_ ++ xs).drop k⟩, ?_, ?_, ?_⟩
    · rw [hq]; exact pop_n_take k _ hk1
    · simp [size, List.length_drop, List.length_append]
    · intro hlt
      simp only [size, List.length_drop, List.length_append]
      exact Nat.mod_eq_of_lt hlt

/-- Witness of amended C17: the ids `1`, `2` pushed on a list holding `5`;
after one call of `pop` the size is `2`. -/
theorem fifo_order_and_size_witness :
    (1 ≤ (⟨[5]⟩ : FifoOpenList).queue_.length + [1, 2].length) ∧
      ∃ l1, pop_n 1 ((⟨[5]⟩ : FifoOpenList).push_all [1, 2]) = some ([5], l1) ∧
        l1.size = 2 := by
  obtain ⟨l1, h1, _, h3⟩ := (fifo_order_and_size ⟨[5]⟩ [1, 2]).2.1 1 (by decide)
  exact ⟨by decide, l1, h1, h3 (by decide)⟩

end FifoOpenList

namespace LifoOpenList

theorem lifo_push_all_queue (xs : List Nat) :
    ∀ l : LifoOpenList, (l.push_all xs).queue_ = l.queue_ ++ xs := by
  induction xs with
  | nil => intro l; simp [push_all]
  | cons x xs ih =>
    intro l
    have := ih (l.push x)
    simp only [push_all, List.foldl_cons] at this ⊢
    rw [this]; simp [push]

theorem lifo_push_replicate_length (n : Nat) :
    (({} : LifoOpenList).push_all (List.replicate n 0)).queue_.length = n := by
  rw [lifo_push_all_queue]; simp

theorem lifo_push_replicate_empty (n : Nat) (hn : n ≠ 0) :
    (({} : LifoOpenList).push_all (List.replicate n 0)).empty = false := by
  unfold empty
  cases h : (({} : LifoOpenList).push_all (List.replicate n 0)).queue_ with
  | nil =>
    have := lifo_push_replicate_length n
    rw [h] at this
    exact absurd this.symm hn
  | cons a rest => rfl

theorem lifo_push_replicate_size (n : Nat) :
    (({} : LifoOpenList).push_all (List.replicate n 0)).size = n % 2 ^ 32 := by
  unfold size
  rw [lifo_push_replicate_length]

/-- C18, as stated, fails for the return type `unsigned` of `size()`: after
`2^32` calls of `push` on a new list, `size()` is `0` and `empty()` does not
hold. -/
theorem lifo_empty_size_counterexample :
    (({} : LifoOpenList).push_all (List.replicate (2 ^ 32) 0)).size = 0 ∧
      (({} : LifoOpenList).push_all (List.replicate (2 ^ 32) 0)).empty = false :=
  ⟨(lifo_push_replicate_size (2 ^ 32)).trans (Nat.mod_self _),
    lifo_push_replicate_empty _ (Nat.two_pow_pos 32).ne'⟩

/-- C18, amended: `push(x)` followed by `pop()` returns `x` and restores the
list, so after `push(x1)`, ..., `push(xn)` the next `n` calls of `pop`
return `xn`, ..., `x1` and restore the list; `empty()` holds exactly when the
list holds no id, `size()` is the number of ids held reduced modulo `2^32`,
so on a list holding fewer than `2^32` ids `empty()` holds exactly when
`size() = 0`; both hold after `clear()`. -/
theorem lifo_push_pop (l : LifoOpenList) (x : Nat) :
    (l.push x).pop = some (x, l) ∧
      (∀ xs : List Nat, pop_n xs.length (l.push_all xs) = some (xs.reverse, l)) ∧
      (l.empty = true ↔ l.queue_ = []) ∧
      l.size = l.queue_.length % 2 ^ 32 ∧
      (l.queue_.length < 2 ^ 32 → (l.empty = true ↔ l.size = 0)) ∧
      l.clear.empty = true ∧ l.clear.size = 0 := by
  have hpp : ∀ (l : LifoOpenList) (x : Nat), (l.push x).pop = some (x, l) := by
    intro l x
    simp [push, pop]
  refine ⟨hpp l x, ?_, ?_, rfl, ?_, rfl, rfl⟩
  · intro xs
    induction xs using List.reverseRecOn with
    | nil => rfl
    | append_singleton ys y ih =>
      have hpa : l.push_all (ys ++ [y]) = (l.push_all ys).push y := by
        simp [push_all, List.foldl_append]
      rw [hpa, List.length_append, List.length_singleton]
      simp only [pop_n, hpp, ih, List.reverse_append, List.reverse_singleton,
        List.singleton_append]
  · simp [empty, List.isEmpty_iff]
  · intro hlt
    unfold size
    rw [Nat.mod_eq_of_lt hlt]
    simp [empty, List.isEmpty_iff]

/-- Witness of amended C18: the list holding `5` and `6` is not empty and has
size `2`. -/
theorem lifo_push_pop_witness :
    (⟨[5, 6]⟩ : LifoOpenList).queue_.length < 2 ^ 32 ∧
      ((⟨[5, 6]⟩ : LifoOpenList).empty = true ↔ (⟨[5, 6]⟩ : LifoOpenList).size = 0) :=
  ⟨by decide, (lifo_push_pop ⟨[5, 6]⟩ 0).2.2.2.2.1 (by decide)⟩

end LifoOpenList

end open_lists

/-! ## Policy tie-breaking -/

namespace policy_tiebreaking

/-- C19: for every state, every previous policy and every list of greedy
action choices, `ArbitraryTiebreaker::pick` returns index `0`, which for a
non-empty list is a valid index (that of the first enumerated action). -/
theorem arbitrary_pick_first {Op : Type} (state prev_policy : Nat) (action_choices : List Op)
    (successors : List (Distribution Nat)) :
    ArbitraryTiebreaker.pick state prev_policy action_choices successors = 0 ∧
      (action_choices ≠ [] →
        (ArbitraryTiebreaker.pick state prev_policy action_choices successors).toNat
          < action_choices.length ∧
        action_choices[(ArbitraryTiebreaker.pick state prev_policy action_choices
          successors).toNat]? = action_choices.head?) := by
  refine ⟨rfl, ?_⟩
  intro hne
  cases action_choices with
  | nil => exact absurd rfl hne
  | cons a rest => simp [ArbitraryTiebreaker.pick]

end policy_tiebreaking

end probfd

/-! ## Value-gap tie-breaking -/

namespace probfd
namespace policy_tiebreaking
namespace VDiffTiebreaker

open value_type

variable {V : Type}

theorem pick_iterations_eq (n : Nat) (h1 : 1 ≤ n) (h2 : n ≤ 2 ^ 31) : pick_iterations n = n := by
  cases n with
  | zero => omega
  | succ m =>
    have e1 : m % 2 ^ 32 = m := Nat.mod_eq_of_lt (by omega)
    simp only [pick_iterations, e1]
    rw [if_pos (by omega)]

theorem pick_iterations_zero : pick_iterations 0 = 0 := rfl

/-- Invariant of the loop of `pick`: no index already visited has a computed
weighted gap approximately less than `best`, and either `best` and `choice`
still have their initial values or `choice` is a visited index and `best`
its computed weighted gap. -/
theorem pick_loop_ops_spec (ops : value_ops V) (favor_large_gaps_ : V)
    (lookup_dual_bounds : Nat → V × V) (successors : List (List (Nat × V))) (N : Nat)
    (hfavor : ∀ i, i < N →
      ops.mul favor_large_gaps_
          (weighted_sum_ops ops lookup_dual_bounds (successors.getD i [])) =
        weighted_sum_ops ops lookup_dual_bounds (successors.getD i []))
    (hirr : ∀ a, ops.is_approx_less a a = false)
    (hcut : ∀ a b c, ops.is_approx_less b c = true → ops.is_approx_less a c = false →
      ops.is_approx_less a b = false) :
    ∀ (n : Nat) (best : V) (choice : Nat), n ≤ N →
      (∀ i, n ≤ i → i < N →
        ops.is_approx_less (weighted_sum_ops ops lookup_dual_bounds (successors.getD i []))
          best = false) →
      ((best = ops.inf ∧ choice = 1) ∨
        (choice < N ∧
          best = weighted_sum_ops ops lookup_dual_bounds (successors.getD choice []))) →
      (∀ i, i < N →
        ops.is_approx_less (weighted_sum_ops ops lookup_dual_bounds (successors.getD i []))
          (pick_loop_ops ops favor_large_gaps_ lookup_dual_bounds successors n
            (best, choice)).1 = false) ∧
      (((pick_loop_ops ops favor_large_gaps_ lookup_dual_bounds successors n
            (best, choice)).1 = ops.inf ∧
          (pick_loop_ops ops favor_large_gaps_ lookup_dual_bounds successors n
            (best, choice)).2 = 1) ∨
        ((pick_loop_ops ops favor_large_gaps_ lookup_dual_bounds successors n
            (best, choice)).2 < N ∧
          (pick_loop_ops ops favor_large_gaps_ lookup_dual_bounds successors n
            (best, choice)).1 =
            weighted_sum_ops ops lookup_dual_bounds
              (successors.getD
                (pick_loop_ops ops favor_large_gaps_ lookup_dual_bounds successors n
                  (best, choice)).2 []))) := by
  intro n
  induction n with
  | zero =>
    intro best choice _ hall hbest
    simp only [pick_loop_ops]
    exact ⟨fun i hi => hall i (Nat.zero_le _) hi, hbest⟩
  | succ n ih =>
    intro best choice hn hall hbest
    have hnN : n < N := hn
    simp only [pick_loop_ops, hfavor n hnN]
    by_cases hless : ops.is_approx_less
        (weighted_sum_ops ops lookup_dual_bounds (successors.getD n [])) best = true
    · rw [if_pos hless]
      apply ih _ _ (Nat.le_of_lt hnN)
      · intro i hi1 hi2
        rcases Nat.eq_or_lt_of_le hi1 with h | h
        · rw [← h]; exact hirr _
        · exact hcut _ _ _ hless (hall i h hi2)
      · exact Or.inr ⟨hnN, rfl⟩
    · have hless1 : ops.is_approx_less
          (weighted_sum_ops ops lookup_dual_bounds (successors.getD n [])) best = false := by
        simpa using hless
      rw [if_neg hless]
      apply ih _ _ (Nat.le_of_lt hnN)
      · intro i hi1 hi2
        rcases Nat.eq_or_lt_of_le hi1 with h | h
        · rw [← h]; exact hless1
        · exact hall i h hi2
      · exact hbest

/-- C15, amended: with `favor_large_gaps_ = +1` (multiplying a computed
weighted gap by it gives that gap), in every arithmetic of the values in
which `is_approx_less` is irreflexive, `is_approx_less(b, c)` without
`is_approx_less(a, c)` excludes `is_approx_less(a, b)`, and a value
approximately less than some value is approximately less than `inf`: for
every list of at most `2^31` successor distributions, the index returned by
`pick` is smaller than the number of choices when there are at least two
choices, or one whose computed weighted gap is approximately less than
`inf`; and when the returned index `c` is smaller than the number of
choices, no choice has a computed weighted gap approximately less than that
of `c`. -/
theorem pick_small_gap (ops : value_ops V) (favor_large_gaps_ : V)
    (lookup_dual_bounds : Nat → V × V) (successors : List (List (Nat × V)))
    (hfavor : ∀ i, i < successors.length →
      ops.mul favor_large_gaps_
          (weighted_sum_ops ops lookup_dual_bounds (successors.getD i [])) =
        weighted_sum_ops ops lookup_dual_bounds (successors.getD i []))
    (hirr : ∀ a, ops.is_approx_less a a = false)
    (hcut : ∀ a b c, ops.is_approx_less b c = true → ops.is_approx_less a c = false →
      ops.is_approx_less a b = false)
    (htop : ∀ a b, ops.is_approx_less a b = true → ops.is_approx_less a ops.inf = true)
    (hlen : successors.length ≤ 2 ^ 31) :
    ((2 ≤ successors.length ∨
        (successors.length = 1 ∧
          ops.is_approx_less
            (weighted_sum_ops ops lookup_dual_bounds (successors.getD 0 [])) ops.inf = true)) →
      pick_ops ops favor_large_gaps_ lookup_dual_bounds successors < successors.length) ∧
    (pick_ops ops favor_large_gaps_ lookup_dual_bounds successors < successors.length →
      ∀ i, i < successors.length →
        ops.is_approx_less
          (weighted_sum_ops ops lookup_dual_bounds (successors.getD i []))
          (weighted_sum_ops ops lookup_dual_bounds
            (successors.getD
              (pick_ops ops favor_large_gaps_ lookup_dual_bounds successors) [])) = false) := by
  by_cases h0 : successors.length = 0
  · have hp : pick_ops ops favor_large_gaps_ lookup_dual_bounds successors = 1 := by
      simp only [pick_ops, h0, pick_iterations_zero, pick_loop_ops]
    rw [hp, h0]
    constructor
    · rintro (h | ⟨h, _⟩) <;> omega
    · intro h; omega
  · have hN : pick_iterations successors.length = successors.length :=
      pick_iterations_eq _ (by omega) hlen
    obtain ⟨hall, hres⟩ := pick_loop_ops_spec ops favor_large_gaps_ lookup_dual_bounds
      successors successors.length hfavor hirr hcut successors.length ops.inf 1 (le_refl _)
      (fun i hi1 hi2 => absurd hi2 (Nat.not_lt.2 hi1)) (Or.inl ⟨rfl, rfl⟩)
    have hpick : pick_ops ops favor_large_gaps_ lookup_dual_bounds successors =
        (pick_loop_ops ops favor_large_gaps_ lookup_dual_bounds successors successors.length
          (ops.inf, 1)).2 := by
      simp only [pick_ops, hN]
    rw [hpick]
    constructor
    · rintro (h | ⟨h1, h2⟩)
      · rcases hres with ⟨_, hc⟩ | ⟨hc, _⟩
        · rw [hc]; exact h
        · exact hc
      · rcases hres with ⟨hb, _⟩ | ⟨hc, _⟩
        · have := hall 0 (by omega)
          rw [hb, h2] at this
          cases this
        · exact hc
    · intro hc i hi
      rcases hres with ⟨hb, _⟩ | ⟨_, hb⟩
      · have h1 := hall i hi
        rw [hb] at h1
        by_contra hcon
        have h2 := htop _ _ (eq_true_of_ne_false hcon)
        rw [h1] at h2
        cases h2
      · have h1 := hall i hi
        rw [hb] at h1
        exact h1

end VDiffTiebreaker
end policy_tiebreaking
end probfd

namespace probfd
namespace policy_tiebreaking
namespace VDiffTiebreaker

open value_type

theorem overflow_in_range (q r : ℚ) (h : xvalue_t.overflow q = xvalue_t.fin r) :
    -xvalue_t.overflow_bound < r ∧ r < xvalue_t.overflow_bound := by
  unfold xvalue_t.overflow at h
  split_ifs at h with h1 h2
  simp only [xvalue_t.fin.injEq] at h
  rw [← h]
  exact ⟨not_le.1 h2, not_le.1 h1⟩

theorem add64_in_range (a b : xvalue_t) (r : ℚ) (h : xvalue_t.add64 a b = xvalue_t.fin r) :
    -xvalue_t.overflow_bound < r ∧ r < xvalue_t.overflow_bound := by
  cases a <;> cases b <;>
    first
    | exact overflow_in_range _ _ h
    | simp [xvalue_t.add64, xvalue_t.add] at h

/-- The weighted sum computed in `binary64_ops` is within the range when it
is finite. -/
theorem weighted_sum_in_range (eps : ℚ) (lookup_dual_bounds : Nat → xvalue_t × xvalue_t)
    (t : List (Nat × xvalue_t)) (r : ℚ)
    (h : weighted_sum_ops (binary64_ops eps) lookup_dual_bounds t = xvalue_t.fin r) :
    -xvalue_t.overflow_bound < r ∧ r < xvalue_t.overflow_bound := by
  have hT := xvalue_t.overflow_bound_pos
  induction t using List.reverseRecOn with
  | nil =>
    simp only [weighted_sum_ops, List.foldl_nil, binary64_ops, xvalue_t.fin.injEq] at h
    rw [← h]
    constructor <;> linarith
  | append_singleton l x _ =>
    simp only [weighted_sum_ops, List.foldl_append, List.foldl_cons, List.foldl_nil,
      binary64_ops] at h
    exact add64_in_range _ _ r h

/-- Multiplying a weighted sum computed in `binary64_ops` by `1` gives that
sum. -/
theorem mul_one_weighted_sum (eps : ℚ) (lookup_dual_bounds : Nat → xvalue_t × xvalue_t)
    (t : List (Nat × xvalue_t)) :
    (binary64_ops eps).mul (xvalue_t.fin 1)
        (weighted_sum_ops (binary64_ops eps) lookup_dual_bounds t) =
      weighted_sum_ops (binary64_ops eps) lookup_dual_bounds t := by
  cases hx : weighted_sum_ops (binary64_ops eps) lookup_dual_bounds t with
  | fin r =>
    obtain ⟨h1, h2⟩ := weighted_sum_in_range eps lookup_dual_bounds t r hx
    show xvalue_t.mul64 (xvalue_t.fin 1) (xvalue_t.fin r) = xvalue_t.fin r
    simp only [xvalue_t.mul64, one_mul, xvalue_t.overflow]
    rw [if_neg (not_le.2 h2), if_neg (not_le.2 h1)]
  | pinf =>
    show xvalue_t.mul64 (xvalue_t.fin 1) xvalue_t.pinf = xvalue_t.pinf
    simp [xvalue_t.mul64, xvalue_t.mul, xvalue_t.mul_inf]
  | ninf =>
    show xvalue_t.mul64 (xvalue_t.fin 1) xvalue_t.ninf = xvalue_t.ninf
    simp [xvalue_t.mul64, xvalue_t.mul, xvalue_t.mul_inf]
  | nan => rfl

theorem pick_ops_no_iteration {V : Type} (ops : value_ops V) (favor_large_gaps_ : V)
    (lookup_dual_bounds : Nat → V × V) (successors : List (List (Nat × V)))
    (h : pick_iterations successors.length = 0) :
    pick_ops ops favor_large_gaps_ lookup_dual_bounds successors = 1 := by
  unfold pick_ops
  rw [h]
  rfl

theorem weighted_sum_wide (s : Nat) :
    weighted_sum_ops (binary64_ops (1 / 1000)) (xbounds example_wide_bounds)
      [(s, xvalue_t.fin 1)] = xvalue_t.pinf := by
  have h1 : ∀ q : ℚ, xvalue_t.overflow_bound ≤ q → xvalue_t.overflow q = xvalue_t.pinf := by
    intro q hq
    unfold xvalue_t.overflow
    rw [if_pos hq]
  have h2 : xvalue_t.sub64 (xbounds example_wide_bounds s).2 (xbounds example_wide_bounds s).1
      = xvalue_t.pinf := by
    by_cases hs : s = 0
    · subst hs
      simp only [xbounds, example_wide_bounds, if_true, xvalue_t.sub64, xvalue_t.neg,
        xvalue_t.add64]
      apply h1
      unfold xvalue_t.overflow_bound
      norm_num
    · simp only [xbounds, example_wide_bounds, if_neg hs, xvalue_t.sub64, xvalue_t.neg,
        xvalue_t.add64]
      apply h1
      unfold xvalue_t.overflow_bound
      norm_num
  simp only [weighted_sum_ops, List.foldl_cons, List.foldl_nil, binary64_ops, h2]
  simp [xvalue_t.mul64, xvalue_t.mul, xvalue_t.mul_inf, xvalue_t.add64, xvalue_t.add]

/-- C15, as stated, fails in two ways. When the weighted gaps overflow: with
the tolerance `1/1000`, two choices leading to the states `0` and `1` with
probability one, and the finite value bounds `[-2^1023, 2^1023]` of state
`0` and `[-3 * 2^1022, 3 * 2^1022]` of state `1`, both computed gaps are
`+∞`, `pick` returns its initial choice `1`, and the exact weighted gap
`1 * (upper - lower)` of choice `1` exceeds that of choice `0` by more than
the tolerance. When the list has
`2^31 + 1` choices: the loop of `pick` is not entered and `pick` returns its
initial choice `1` whatever the gaps are. -/
theorem pick_small_gap_counterexample :
    pick_ops (binary64_ops (1 / 1000)) (xvalue_t.fin 1) (xbounds example_wide_bounds)
        [[(0, xvalue_t.fin 1)], [(1, xvalue_t.fin 1)]] = 1 ∧
      1 * ((example_wide_bounds 1).upper - (example_wide_bounds 1).lower) >
        1 * ((example_wide_bounds 0).upper - (example_wide_bounds 0).lower) + 1 / 1000 ∧
      ∀ (lookup_dual_bounds : Nat → xvalue_t × xvalue_t)
        (successors : List (List (Nat × xvalue_t))), successors.length = 2 ^ 31 + 1 →
        pick_ops (binary64_ops (1 / 1000)) (xvalue_t.fin 1) lookup_dual_bounds successors
          = 1 := by
  refine ⟨?_, ?_, ?_⟩
  · have hless : (binary64_ops (1 / 1000)).is_approx_less
        ((binary64_ops (1 / 1000)).mul (xvalue_t.fin 1) xvalue_t.pinf)
        xvalue_t.pinf = false := by
      simp [value_ops.is_approx_less, binary64_ops, xvalue_t.mul64, xvalue_t.mul,
        xvalue_t.mul_inf, xvalue_t.add64, xvalue_t.add, xvalue_t.lt64, xvalue_t.rank]
    have hit : pick_iterations 2 = 2 := by
      simp [pick_iterations]
    have hinf : (binary64_ops (1 / 1000)).inf = xvalue_t.pinf := rfl
    simp only [pick_ops, List.length_cons, List.length_nil, Nat.zero_add, Nat.reduceAdd, hit,
      pick_loop_ops, List.getD_cons_succ, List.getD_cons_zero, weighted_sum_wide, hinf, hless,
      Bool.false_eq_true, if_false]
  · simp only [example_wide_bounds]
    norm_num
  · intro lookup_dual_bounds successors hlen
    apply pick_ops_no_iteration
    rw [hlen]
    rfl

/-- Witness of amended C15: in the arithmetic `binary64_ops` with the
tolerance `1/1000`, two choices leading to the states `0` and `1` with
probability one, whose value bounds are `[0, 1/10]` and `[0, 9/10]`. -/
theorem pick_small_gap_witness :
    ([[(0, xvalue_t.fin 1)], [(1, xvalue_t.fin 1)]] :
        List (List (Nat × xvalue_t))).length ≤ 2 ^ 31 ∧
      pick_ops (binary64_ops (1 / 1000)) (xvalue_t.fin 1) (xbounds example_bounds)
        [[(0, xvalue_t.fin 1)], [(1, xvalue_t.fin 1)]] < 2 ∧
      ∀ i, i < 2 →
        (binary64_ops (1 / 1000)).is_approx_less
          (weighted_sum_ops (binary64_ops (1 / 1000)) (xbounds example_bounds)
            (([[(0, xvalue_t.fin 1)], [(1, xvalue_t.fin 1)]] :
              List (List (Nat × xvalue_t))).getD i []))
          (weighted_sum_ops (binary64_ops (1 / 1000)) (xbounds example_bounds)
            (([[(0, xvalue_t.fin 1)], [(1, xvalue_t.fin 1)]] :
              List (List (Nat × xvalue_t))).getD
              (pick_ops (binary64_ops (1 / 1000)) (xvalue_t.fin 1) (xbounds example_bounds)
                [[(0, xvalue_t.fin 1)], [(1, xvalue_t.fin 1)]]) [])) = false := by
  have hl : ([[(0, xvalue_t.fin 1)], [(1, xvalue_t.fin 1)]] :
      List (List (Nat × xvalue_t))).length ≤ 2 ^ 31 := by
    simp only [List.length_cons, List.length_nil]
    norm_num
  have h := pick_small_gap (binary64_ops (1 / 1000)) (xvalue_t.fin 1) (xbounds example_bounds)
    [[(0, xvalue_t.fin 1)], [(1, xvalue_t.fin 1)]]
    (fun i _ => mul_one_weighted_sum (1 / 1000) _ _)
    (binary64_approx_less_laws (1 / 1000) (by norm_num)).1
    (binary64_approx_less_laws (1 / 1000) (by norm_num)).2.1
    (binary64_approx_less_laws (1 / 1000) (by norm_num)).2.2 hl
  have h1 := h.1 (Or.inl (le_refl _))
  exact ⟨hl, h1, h.2 h1⟩

end VDiffTiebreaker
end policy_tiebreaking
end probfd

namespace probfd
namespace policy_tiebreaking
namespace VDiffTiebreaker

open value_type value_utils

/-- C16 fails on the code: with `favor_large_gaps_ = -1`, tolerance `1/1000`
and two successor distributions with the weighted gaps `G(0) = 1/10` and
`G(1) = 9/10`, `pick` returns the index `0`, whose gap is not largest up to
the tolerance. -/
theorem pick_large_gap_fails :
    pick ⟨-1⟩ (1 / 1000) example_bounds [[(0, 1)], [(1, 1)]] = 0 ∧
      ((([[(0, 1)], [(1, 1)]] : List (Distribution Nat)).getD 0 []).map
        (fun it => it.2 * ((example_bounds it.1).upper - (example_bounds it.1).lower))).sum
        = 1 / 10 ∧
      ((([[(0, 1)], [(1, 1)]] : List (Distribution Nat)).getD 1 []).map
        (fun it => it.2 * ((example_bounds it.1).upper - (example_bounds it.1).lower))).sum
        = 9 / 10 ∧
      ¬ ((1 / 10 : value_t) ≥ 9 / 10 - 1 / 1000) := by
  refine ⟨?_, ?_, ?_, by norm_num⟩
  · simp only [pick, pick_loop, List.length_cons, List.length_nil, weighted_sum,
      List.getD_cons_succ, List.getD_cons_zero, List.foldl_cons, List.foldl_nil,
      error_bound, example_bounds, approx_less_best, is_approx_less]
    norm_num
  · simp [example_bounds]
  · simp [example_bounds]

end VDiffTiebreaker
end policy_tiebreaking
end probfd

/-! ## Sampled trajectories -/

namespace probfd
namespace solvers

/-- For a configured length of at least one, a trajectory that is returned,
started with `step` steps written, has at most `trajectory_length` steps. -/
theorem trajectory_loop_length {State Action : Type} (m : TrajectoryModel State Action)
    (L : Int) (random : Nat → value_t) (fuel : Nat) :
    ∀ (state : State) (plan_cost : value_t) (step : Int) (k : Nat)
      (out : List (State × Action × Nat)) (t : Trajectory State Action),
      step = out.length → step < L →
      trajectory_loop m L random fuel state plan_cost step k out = some t →
      (t.steps.length : Int) ≤ L := by
  induction fuel with
  | zero => intro state plan_cost step k out t _ _ h; simp [trajectory_loop] at h
  | succ fuel ih =>
    intro state plan_cost step k out t hs hlt h
    simp only [trajectory_loop] at h
    cases hd : m.get_decision state with
    | none =>
      rw [hd] at h
      simp only [Option.some.injEq] at h
      subst h
      simp only
      omega
    | some a =>
      rw [hd] at h
      simp only at h
      cases hso : sample_outcome (random k) (m.outcome_probabilities a) 0 0 with
      | none => rw [hso] at h; simp at h
      | some idx =>
        rw [hso] at h
        simp only at h
        by_cases hL : step + 1 = L
        · rw [if_pos hL] at h
          simp only [Option.some.injEq] at h
          subst h
          simp only [List.length_append, List.length_singleton, Nat.cast_add, Nat.cast_one]
          omega
        · rw [if_neg hL] at h
          refine ih _ _ _ _ _ t ?_ ?_ h
          · simp only [List.length_append, List.length_singleton, Nat.cast_add, Nat.cast_one]
            omega
          · omega

/-- C20 fails on the code for `trajectory_length = 0`: on the example chain
the sampled trajectory has three step lines before the final line. -/
theorem trajectory_length_zero_uncapped :
    (sample_trajectory example_chain 0 (fun _ => 1 / 2) 10 0 0).map
        (fun t => (t.steps, t.last_state)) =
      some ([(0, 0, 0), (1, 0, 0), (2, 0, 0)], 3) ∧
    ¬ ((3 : Int) ≤ 0) := by
  refine ⟨?_, by decide⟩
  simp only [sample_trajectory, trajectory_loop, example_chain, sample_outcome]
  norm_num

end solvers
end probfd

/-! ## Quotient system: `build_new_quotient` and `generate_all_transitions` -/

namespace probfd
namespace quotients
namespace DefaultQuotientSystem

variable {Action : Type}

/-- C11 fails on the code from the second member on: on the fresh system
over a base MDP where state `0` has the actions `7, 8` and state `1` the
actions `7, 9`, for the sub-MDP with the inner actions `8` of state `0`
(entry) and `7` of state `1`, the assertions of `build_new_quotient` hold,
the stored counts of state `1` are `2` and `2` (its own outer and inner
actions are one each), and `generate_applicable_actions` exposes `(0, 8)`,
`(1, 7)`, `(1, 7)`, where the outer actions are `(0, 7)` and `(1, 9)`. -/
theorem build_new_quotient_whole_vector :
    build_new_quotient_assert 64 (init example_space_shared) [(0, [8]), (1, [7])] (0, [8])
        = true ∧
      (build_new_quotient 64 (init example_space_shared) [(0, [8]), (1, [7])]
          (0, [8])).quotients_ 0 =
        some { state_infos := [⟨0, 1, 1⟩, ⟨1, 2, 2⟩], aops := [8, 9, 7, 7],
               total_num_outer_acts := 3 } ∧
      generate_applicable_actions 64
          (build_new_quotient 64 (init example_space_shared) [(0, [8]), (1, [7])] (0, [8]))
          0 [] = some [⟨0, 8⟩, ⟨1, 7⟩, ⟨1, 7⟩] ∧
      ([(0, [8]), (1, [7])] : List (Nat × List Nat)).flatMap
          (fun e => ((example_space_shared.generate_applicable_actions e.1).filter
            (fun a => !(e.2.contains a))).map (fun a => (⟨e.1, a⟩ : QuotientAction Nat)))
        = [⟨0, 7⟩, ⟨1, 9⟩] := by
  refine ⟨by decide, by decide, by decide, by decide⟩

theorem outer_transitions_fst (w : Nat) (qs : DefaultQuotientSystem Action) (sid : Nat)
    (infos : List StateInfo) :
    ∀ aop : List Action,
      (outer_transitions w qs sid infos aop).map Prod.fst = outer_actions infos aop := by
  induction infos with
  | nil => intro aop; rfl
  | cons info rest ih =>
    intro aop
    simp only [outer_transitions, outer_actions, List.map_append, List.map_map, ih]
    rfl

theorem outer_transitions_snd (w : Nat) (qs : DefaultQuotientSystem Action) (sid : Nat)
    (infos : List StateInfo) :
    ∀ aop : List Action,
      (outer_transitions w qs sid infos aop).map Prod.snd =
        (outer_actions infos aop).map (fun a => generate_action_transitions w qs sid a []) := by
  induction infos with
  | nil => intro aop; rfl
  | cons info rest ih =>
    intro aop
    simp only [outer_transitions, outer_actions, List.map_append, List.map_map, ih]
    rfl

end DefaultQuotientSystem
end quotients

namespace bisimulation

theorem all_defined_append_singleton {α : Type} (l : List (Option α)) (o : Option α) :
    all_defined (l ++ [o]) =
      match all_defined l, o with
      | some xs, some x => some (xs ++ [x])
      | _, _ => none := by
  induction l with
  | nil => cases o <;> simp [all_defined]
  | cons a rest ih =>
    cases a with
    | none => simp [all_defined]
    | some y =>
      have e : all_defined (some y :: rest ++ [o]) =
          match all_defined (rest ++ [o]) with
          | none => none
          | some xs => some (y :: xs) := rfl
      rw [e, ih]
      simp only [all_defined]
      cases all_defined rest <;> cases o <;> rfl

namespace BisimilarStateSpace

theorem all_transitions_loop_eq (bs : BisimilarStateSpace) (state : Nat)
    (aops : List QuotientAction) (n : Nat) :
    ∀ res : List (Distribution Nat), n ≤ aops.length → res.length = aops.length →
      (∀ i, i < n → res[i]? = some []) →
      all_transitions_loop bs state aops n res =
        (all_defined ((aops.take n).map
            (fun a => bs.generate_action_transitions state a []))).map
          (fun ds => ds ++ res.drop n) := by
  induction n with
  | zero => intro res _ _ _; simp [all_transitions_loop, all_defined]
  | succ n ih =>
    intro res hn hlen hnil
    have hlt : n < aops.length := hn
    have ha : aops[n]? = some aops[n] := List.getElem?_eq_getElem hlt
    have hr : res[n]? = some [] := hnil n (Nat.lt_succ_self n)
    have htake : aops.take (n + 1) = aops.take n ++ [aops[n]] := by
      rw [List.take_succ, ha]; rfl
    rw [htake, List.map_append, List.map_singleton, all_defined_append_singleton]
    simp only [all_transitions_loop, ha, hr]
    cases hf : bs.generate_action_transitions state aops[n] [] with
    | none =>
      cases all_defined ((aops.take n).map
        (fun a => bs.generate_action_transitions state a [])) <;> simp
    | some d =>
      simp only
      rw [ih (res.set n d) (Nat.le_of_succ_le hn) (by simp [hlen])]
      · have hdrop : (res.set n d).drop n = d :: res.drop (n + 1) := by
          rw [List.drop_eq_getElem_cons (by simp [hlen, hlt])]
          simp [List.drop_set]
        rw [hdrop]
        cases all_defined ((aops.take n).map
          (fun a => bs.generate_action_transitions state a [])) <;> simp
      · intro i hi
        rw [List.getElem?_set_ne (by omega)]
        exact hnil i (by omega)

end BisimilarStateSpace
end bisimulation

/-- C12: called with empty output buffers, `generate_all_transitions` of a
`DefaultQuotientSystem` returns the action list of
`generate_applicable_actions` together with, at every index, the
distribution of `generate_action_transitions` for the action at that index
(and is undefined exactly when `generate_applicable_actions` is); the same
holds for `generate_all_transitions` of a `BisimilarStateSpace`, which is
undefined exactly when one of these calls is. -/
theorem generate_all_transitions_agree {Action : Type} (w : Nat)
    (qs : quotients.DefaultQuotientSystem Action) (sid : Nat)
    (bs : bisimulation.BisimilarStateSpace) (s : Nat) :
    quotients.DefaultQuotientSystem.generate_all_transitions w qs sid [] [] =
        (quotients.DefaultQuotientSystem.generate_applicable_actions w qs sid []).map
          (fun aops => (aops, aops.map (fun a =>
            quotients.DefaultQuotientSystem.generate_action_transitions w qs sid a []))) ∧
      bs.generate_all_transitions s [] [] =
        (bs.generate_applicable_actions s []).bind (fun aops =>
          (bisimulation.all_defined
              (aops.map (fun a => bs.generate_action_transitions s a []))).map
            (fun ds => (aops, ds))) := by
  constructor
  · unfold quotients.DefaultQuotientSystem.generate_all_transitions
      quotients.DefaultQuotientSystem.generate_applicable_actions
    cases hq : quotients.DefaultQuotientSystem.get_quotient_info w qs sid with
    | none => rfl
    | some o =>
      cases o with
      | none => simp [List.map_map, Function.comp_def]
      | some info =>
        simp [quotients.DefaultQuotientSystem.outer_transitions_fst,
          quotients.DefaultQuotientSystem.outer_transitions_snd]
  · unfold bisimulation.BisimilarStateSpace.generate_all_transitions
    cases hg : bs.generate_applicable_actions s [] with
    | none => rfl
    | some aops =>
      have hres : bisimulation.BisimilarStateSpace.resize [] aops.length =
          List.replicate aops.length [] := by
        simp [bisimulation.BisimilarStateSpace.resize]
      simp only [hres, Option.some_bind]
      rw [bisimulation.BisimilarStateSpace.all_transitions_loop_eq bs s aops aops.length _
        (le_refl _) (by simp) (by
          intro i hi
          simp [List.getElem?_replicate, hi])]
      rw [List.take_length]
      cases bisimulation.all_defined
        (aops.map (fun a => bs.generate_action_transitions s a [])) <;> simp

end probfd

/-! ## Interval iteration: lifting the result to the members of the classes -/

namespace probfd
namespace quotients
namespace DefaultQuotientSystem

variable {Action : Type}

theorem const_iterator_scan_bounds (w : Nat) (qs : DefaultQuotientSystem Action) (r : Nat) :
    ∀ j, j ≤ const_iterator_scan w qs r j ∧ const_iterator_scan w qs r j ≤ j + r := by
  induction r with
  | zero => intro j; simp [const_iterator_scan]
  | succ r ih =>
    intro j
    simp only [const_iterator_scan]
    by_cases h : j = qs.quotient_ids_.getD j 0 &&& MASK w
    · rw [if_pos h]; omega
    · rw [if_neg h]
      have := ih (j + 1)
      omega

theorem const_iterator_scan_skip (w : Nat) (qs : DefaultQuotientSystem Action) (r : Nat) :
    ∀ j k, j ≤ k → k < const_iterator_scan w qs r j →
      ¬ (k = qs.quotient_ids_.getD k 0 &&& MASK w) := by
  induction r with
  | zero => intro j k h1 h2; simp [const_iterator_scan] at h2; omega
  | succ r ih =>
    intro j k h1 h2
    simp only [const_iterator_scan] at h2
    by_cases h : j = qs.quotient_ids_.getD j 0 &&& MASK w
    · rw [if_pos h] at h2; omega
    · rw [if_neg h] at h2
      rcases Nat.eq_or_lt_of_le h1 with he | hl
      · rw [← he]; exact h
      · exact ih (j + 1) k hl h2

theorem const_iterator_next_bounds (w : Nat) (qs : DefaultQuotientSystem Action) (i : Nat)
    (hi : i < qs.quotient_ids_.length) :
    i < const_iterator_next w qs i ∧ const_iterator_next w qs i ≤ qs.quotient_ids_.length := by
  have := const_iterator_scan_bounds w qs (qs.quotient_ids_.length - (i + 1)) (i + 1)
  unfold const_iterator_next
  omega

theorem const_iterator_range_lt (w : Nat) (qs : DefaultQuotientSystem Action) (fuel : Nat) :
    ∀ i, i ≤ qs.quotient_ids_.length →
      ∀ x ∈ const_iterator_range w qs fuel i, x < qs.quotient_ids_.length := by
  induction fuel with
  | zero => intro i _ x hx; simp [const_iterator_range] at hx
  | succ fuel ih =>
    intro i hi x hx
    simp only [const_iterator_range] at hx
    by_cases he : i = qs.quotient_ids_.length
    · rw [if_pos he] at hx; simp at hx
    · rw [if_neg he] at hx
      have hlt : i < qs.quotient_ids_.length := by omega
      rcases List.mem_cons.1 hx with h | h
      · rw [h]; exact hlt
      · exact ih _ (const_iterator_next_bounds w qs i hlt).2 x h

/-- The loop over the quotient system visits every stored id that equals its
masked id without the flag. -/
theorem mem_const_iterator_range (w : Nat) (qs : DefaultQuotientSystem Action) (target : Nat)
    (ht : target < qs.quotient_ids_.length)
    (hp : target = qs.quotient_ids_.getD target 0 &&& MASK w) (fuel : Nat) :
    ∀ i, i ≤ target → qs.quotient_ids_.length - i ≤ fuel →
      target ∈ const_iterator_range w qs fuel i := by
  induction fuel with
  | zero => intro i h1 h2; omega
  | succ fuel ih =>
    intro i h1 h2
    simp only [const_iterator_range]
    have he : i ≠ qs.quotient_ids_.length := by omega
    rw [if_neg he]
    rcases Nat.eq_or_lt_of_le h1 with h | h
    · rw [h]; exact List.mem_cons_self _ _
    · apply List.mem_cons_of_mem
      have hb := const_iterator_next_bounds w qs i (by omega)
      have hle : const_iterator_next w qs i ≤ target := by
        by_contra hgt
        have hgt1 : target < const_iterator_scan w qs
            (qs.quotient_ids_.length - (i + 1)) (i + 1) := Nat.lt_of_not_le hgt
        exact const_iterator_scan_skip w qs _ (i + 1) target h hgt1 hp
      exact ih _ hle (by omega)

/-- The shape of `quotient_range` on a stored id, under the invariants:
the id alone when it is in no class, and otherwise the members of its class,
the representative first. -/
theorem quotient_range_cases (w : Nat) (hw : 0 < w) (qs : DefaultQuotientSystem Action)
    (hinv : Inv w qs) (hrf : RepFirst w qs) (i : Nat) (hi : i < qs.quotient_ids_.length) :
    (quotient_range w qs i = some [i] ∧ qs.quotients_ i = none) ∨
      ∃ r q tail, qs.quotients_ r = some q ∧ q.states = r :: tail ∧
        quotient_range w qs i = some (r :: tail) ∧
        qs.get_masked_state_id i = r ||| FLAG w ∧ r < 2 ^ (w - 1) := by
  have hib : i < 2 ^ (w - 1) := lt_of_lt_of_le hi hrf.size_le
  rcases hinv.masked i with h | ⟨_, r, q, hr, hg, hQ, _⟩
  · left
    have hflag : qs.get_masked_state_id i &&& FLAG w = 0 := by
      rw [h]; exact and_FLAG_of_lt w i hw hib
    refine ⟨?_, inv_no_class_of_unflagged w hw qs hinv i hflag⟩
    simp [quotient_range, get_quotient_info, hflag]
  · right
    have hhead := hrf.head r q hQ
    cases hs : q.states with
    | nil => rw [hs] at hhead; simp at hhead
    | cons a tail =>
      rw [hs] at hhead
      simp only [List.head?_cons, Option.some.injEq] at hhead
      subst hhead
      refine ⟨a, q, tail, hQ, hs, ?_, hg, hr⟩
      have hf : (a ||| FLAG w) &&& FLAG w ≠ 0 := or_FLAG_and_FLAG w a hw
      simp only [quotient_range, get_quotient_info, hg, hf, ne_eq, not_false_eq_true,
        if_true, or_FLAG_and_MASK w a hw hr, hQ, hs]

end DefaultQuotientSystem
end quotients

namespace engines
namespace interval_iteration

open quotients quotients.DefaultQuotientSystem

theorem lift_members_value_store {V : Type} (value : V) (dead one : Bool) (ms : List Nat) :
    ∀ (st : LiftState V) (t : Nat),
      (lift_members value dead one ms st).value_store t =
        if t ∈ ms then value else st.value_store t := by
  induction ms with
  | nil => intro st t; simp [lift_members]
  | cons m rest ih =>
    intro st t
    simp only [lift_members, ih, List.mem_cons]
    by_cases h1 : t ∈ rest
    · simp [h1]
    · by_cases h2 : t = m
      · subst h2; simp [h1]
      · simp [h1, h2, Function.update_noteq h2]

theorem lift_members_dead_ends {V : Type} (value : V) (dead one : Bool) (ms : List Nat) :
    ∀ st : LiftState V,
      (lift_members value dead one ms st).dead_ends =
        st.dead_ends ++ (if dead then ms else []) := by
  induction ms with
  | nil => intro st; cases dead <;> simp [lift_members]
  | cons m rest ih =>
    intro st
    simp only [lift_members, ih]
    cases dead <;> simp

theorem lift_members_one_states {V : Type} (value : V) (dead one : Bool) (ms : List Nat) :
    ∀ st : LiftState V,
      (lift_members value dead one ms st).one_states =
        st.one_states ++ (if one then ms else []) := by
  induction ms with
  | nil => intro st; cases one <;> simp [lift_members]
  | cons m rest ih =>
    intro st
    simp only [lift_members, ih]
    cases one <;> simp

/-- One iteration of the lifting loop on a stored id. -/
theorem lift_class_step {Action V : Type} (w : Nat) (hw : 0 < w)
    (sys : DefaultQuotientSystem Action) (hinv : Inv w sys) (hrf : RepFirst w sys)
    (st0 st : LiftState V) (i : Nat) (hi : i < sys.quotient_ids_.length)
    (hJ : reps_kept sys st0 st) :
    ∃ st1, lift_class w sys i st = some st1 ∧ reps_kept sys st0 st1 ∧
      (∀ r, class_done sys st0 st r → class_done sys st0 st1 r) ∧
      class_done sys st0 st1 i := by
  rcases quotient_range_cases w hw sys hinv hrf i hi with
    ⟨hrange, hnone⟩ | ⟨r, q, tail, hQ, hs, hrange, hg, hr⟩
  · refine ⟨st, ?_, hJ, fun _ h => h, ?_⟩
    · simp [lift_class, hrange, lift_members]
    · intro q hq; rw [hnone] at hq; cases hq
  · have hcls := hinv.classes r q hQ
    have same_rep : ∀ r1 q1 m, sys.quotients_ r1 = some q1 → m ∈ q1.states →
        m ∈ r :: tail → r1 = r := by
      intro r1 q1 m hQ1 hm1 hm
      have h1 := ((hinv.classes r1 q1 hQ1).2.2 m hm1).2
      have h2 := (hcls.2.2 m (hs ▸ hm)).2
      exact or_FLAG_inj w r1 r hw (hinv.classes r1 q1 hQ1).1 hr (h1.symm.trans h2)
    have hJr := hJ r q hQ
    refine ⟨lift_members (st.value_store r) (st.dead_ends.contains r)
      (st.one_states.contains r) tail st, ?_, ?_, ?_, ?_⟩
    · simp [lift_class, hrange]
    · intro r1 q1 hQ1
      have hJ1 := hJ r1 q1 hQ1
      have hr1mem := (hinv.classes r1 q1 hQ1).2.1
      refine ⟨?_, ?_, ?_⟩
      · rw [lift_members_value_store]
        by_cases h : r1 ∈ tail
        · have := same_rep r1 q1 r1 hQ1 hr1mem (List.mem_cons_of_mem _ h)
          subst this
          rw [if_pos h]; exact hJ1.1
        · rw [if_neg h]; exact hJ1.1
      · rw [lift_members_dead_ends]
        constructor
        · intro h
          rcases List.mem_append.1 h with h | h
          · exact hJ1.2.1.1 h
          · by_cases hd : st.dead_ends.contains r = true
            · rw [if_pos hd] at h
              have := same_rep r1 q1 r1 hQ1 hr1mem (List.mem_cons_of_mem _ h)
              subst this
              exact hJ1.2.1.1 (by simpa using hd)
            · rw [if_neg hd] at h; simp at h
        · intro h
          exact List.mem_append_left _ (hJ1.2.1.2 h)
      · rw [lift_members_one_states]
        constructor
        · intro h
          rcases List.mem_append.1 h with h | h
          · exact hJ1.2.2.1 h
          · by_cases hd : st.one_states.contains r = true
            · rw [if_pos hd] at h
              have := same_rep r1 q1 r1 hQ1 hr1mem (List.mem_cons_of_mem _ h)
              subst this
              exact hJ1.2.2.1 (by simpa using hd)
            · rw [if_neg hd] at h; simp at h
        · intro h
          exact List.mem_append_left _ (hJ1.2.2.2 h)
    · intro r2 hD q2 hQ2 m hm
      obtain ⟨h1, h2, h3⟩ := hD q2 hQ2 m hm
      refine ⟨?_, ?_, ?_⟩
      · rw [lift_members_value_store]
        by_cases h : m ∈ tail
        · have := same_rep r2 q2 m hQ2 hm (List.mem_cons_of_mem _ h)
          subst this
          rw [if_pos h]; exact hJr.1
        · rw [if_neg h]; exact h1
      · intro h; rw [lift_members_dead_ends]; exact List.mem_append_left _ (h2 h)
      · intro h; rw [lift_members_one_states]; exact List.mem_append_left _ (h3 h)
    · intro qi hQi m hm
      have hi1 := hinv.classes i qi hQi
      have hgi := (hi1.2.2 i hi1.2.1).2
      have hir : i = r := or_FLAG_inj w i r hw hi1.1 hr (hgi.symm.trans hg)
      subst hir
      rw [hQ] at hQi; cases hQi
      rw [hs] at hm
      refine ⟨?_, ?_, ?_⟩
      · rw [lift_members_value_store]
        by_cases h : m ∈ tail
        · rw [if_pos h]; exact hJr.1
        · rw [if_neg h]
          rcases List.mem_cons.1 hm with h1 | h1
          · rw [h1]; exact hJr.1
          · exact absurd h1 h
      · intro h
        have hd : i ∈ st.dead_ends := hJr.2.1.2 h
        rw [lift_members_dead_ends]
        rcases List.mem_cons.1 hm with h1 | h1
        · rw [h1]; exact List.mem_append_left _ hd
        · apply List.mem_append_right
          have : st.dead_ends.contains i = true := by simpa using hd
          rw [if_pos this]; exact h1
      · intro h
        have hd : i ∈ st.one_states := hJr.2.2.2 h
        rw [lift_members_one_states]
        rcases List.mem_cons.1 hm with h1 | h1
        · rw [h1]; exact List.mem_append_left _ hd
        · apply List.mem_append_right
          have : st.one_states.contains i = true := by simpa using hd
          rw [if_pos this]; exact h1

/-- The lifting loop over stored ids. -/
theorem lift_loop_spec {Action V : Type} (w : Nat) (hw : 0 < w)
    (sys : DefaultQuotientSystem Action) (hinv : Inv w sys) (hrf : RepFirst w sys)
    (st0 : LiftState V) (vis : List Nat) :
    ∀ st : LiftState V, (∀ i ∈ vis, i < sys.quotient_ids_.length) → reps_kept sys st0 st →
      ∃ st1, lift_loop w sys vis st = some st1 ∧ reps_kept sys st0 st1 ∧
        ∀ r, (class_done sys st0 st r ∨ r ∈ vis) → class_done sys st0 st1 r := by
  induction vis with
  | nil =>
    intro st _ hJ
    refine ⟨st, rfl, hJ, ?_⟩
    rintro r (h | h)
    · exact h
    · simp at h
  | cons i rest ih =>
    intro st hvis hJ
    obtain ⟨st1, h1, h2, h3, h4⟩ :=
      lift_class_step w hw sys hinv hrf st0 st i (hvis i (List.mem_cons_self _ _)) hJ
    obtain ⟨st2, k1, k2, k3⟩ := ih st1 (fun j hj => hvis j (List.mem_cons_of_mem _ hj)) h2
    refine ⟨st2, ?_, k2, ?_⟩
    · simp only [lift_loop, h1]; exact k1
    · rintro r (h | h)
      · exact k3 r (Or.inl (h3 r h))
      · rcases List.mem_cons.1 h with h | h
        · rw [h]; exact k3 i (Or.inl h4)
        · exact k3 r (Or.inr h)

/-- C13: on a quotient system satisfying its invariants, the lifting loop
of the six-argument `solve` ends, and afterwards, for every class with
representative `r` and every member `m` of it, `value_store[m]` equals
`value_store[r]`, and `m` occurs in `dead_ends` (respectively `one_states`)
whenever `r` does. -/
theorem solve_lifts_classes {Action V : Type} (w : Nat) (hw : 0 < w)
    (sys : DefaultQuotientSystem Action) (hinv : Inv w sys) (hrf : RepFirst w sys)
    (st : LiftState V) :
    ∃ st1, solve_lift w sys st = some st1 ∧
      ∀ r q, sys.quotients_ r = some q → ∀ m ∈ q.states,
        st1.value_store m = st1.value_store r ∧
          (r ∈ st1.dead_ends → m ∈ st1.dead_ends) ∧
          (r ∈ st1.one_states → m ∈ st1.one_states) := by
  have hJ0 : reps_kept sys st st := fun _ _ _ => ⟨rfl, Iff.rfl, Iff.rfl⟩
  obtain ⟨st1, h1, h2, h3⟩ := lift_loop_spec w hw sys hinv hrf st (sys.iterated_ids w) st
    (const_iterator_range_lt w sys _ 0 (Nat.zero_le _)) hJ0
  refine ⟨st1, h1, ?_⟩
  intro r q hQ m hm
  have hcls := hinv.classes r q hQ
  have hg : sys.get_masked_state_id r = r ||| FLAG w := (hcls.2.2 r hcls.2.1).2
  have hlt : r < sys.quotient_ids_.length := by
    by_contra hge
    have : sys.get_masked_state_id r = r := by
      simp [get_masked_state_id, get_masked_ids, hge]
    exact ne_or_FLAG_of_lt w r r hw hcls.1 (this.symm.trans hg)
  have hp : r = sys.quotient_ids_.getD r 0 &&& MASK w := by
    have : sys.get_masked_state_id r = sys.quotient_ids_.getD r 0 := by
      simp [get_masked_state_id, get_masked_ids, hlt]
    rw [← this, hg, or_FLAG_and_MASK w r hw hcls.1]
  have hvis : r ∈ sys.iterated_ids w :=
    mem_const_iterator_range w sys r hlt hp _ 0 (Nat.zero_le _) (by omega)
  obtain ⟨e1, e2, e3⟩ := h3 r (Or.inr hvis) q hQ m hm
  obtain ⟨j1, j2, j3⟩ := h2 r q hQ
  exact ⟨e1.trans j1.symm, fun h => e2 (j2.1 h), fun h => e3 (j3.1 h)⟩

end interval_iteration
end engines
end probfd

/-! ## Quotient system: representatives first and stored ids bounded -/

namespace probfd
namespace quotients
namespace DefaultQuotientSystem

variable {Action : Type}

theorem set_masked_ids_length (w : Nat) (ids : List Nat) (sid qsid : Nat) :
    (set_masked_ids w ids sid qsid).length = max ids.length (sid + 1) := by
  unfold set_masked_ids
  by_cases h : sid ≥ ids.length
  · simp only [h, if_true, List.length_set, List.length_append, List.length_range']
    omega
  · simp only [h, if_false, List.length_set]
    omega

theorem foldl_set_masked_ids_length (w rid B : Nat) (l : List StateInfo) :
    ∀ ids : List Nat, (∀ p ∈ l, p.state_id < B) → ids.length ≤ B →
      (l.foldl (fun ids p => set_masked_ids w ids p.state_id rid) ids).length ≤ B := by
  induction l with
  | nil => intro ids _ h; exact h
  | cons p ps ih =>
    intro ids hp h
    rw [List.foldl_cons]
    apply ih
    · intro p1 hp1; exact hp p1 (List.mem_cons_of_mem _ hp1)
    · rw [set_masked_ids_length]
      have := hp p (List.mem_cons_self _ _)
      omega

theorem rep_first_init (w : Nat) (ss : StateSpace Action) : RepFirst w (init ss) := by
  constructor
  · intro r q h; simp [init] at h
  · simp [init]

/-- One iteration of the loop of `build_quotient` keeps the representatives
first and the stored ids bounded. -/
theorem rep_first_build_quotient_step [DecidableEq Action] (w rid : Nat)
    (qs qs1 : DefaultQuotientSystem Action) (e : Nat × List (QuotientAction Action))
    (hinv : Inv w qs) (hlt : e.1 < 2 ^ (w - 1)) (hrf : RepFirst w qs)
    (hs : build_quotient_step w rid qs e = some qs1) : RepFirst w qs1 := by
  unfold build_quotient_step at hs
  by_cases hne : e.1 = rid
  · simp only [hne, if_true, Option.some.injEq] at hs
    rw [← hs]; exact hrf
  · simp only [hne, if_false] at hs
    cases hQ : qs.quotients_ rid with
    | none => rw [hQ] at hs; simp at hs
    | some qinfo =>
      rw [hQ] at hs
      simp only at hs
      have hhead := hrf.head rid qinfo hQ
      have hhead_app : ∀ l : List Nat, (qinfo.states ++ l).head? = some rid := by
        intro l
        cases hst : qinfo.states with
        | nil => rw [hst] at hhead; simp at hhead
        | cons a tl => rw [hst] at hhead; simpa using hhead
      by_cases hflag : qs.get_masked_state_id e.1 &&& FLAG w ≠ 0
      · rw [if_pos hflag] at hs
        by_cases hkey : qs.get_masked_state_id e.1 &&& MASK w = rid
        · rw [if_pos hkey] at hs; simp at hs
        · rw [if_neg hkey] at hs
          cases hQ0 : qs.quotients_ (qs.get_masked_state_id e.1 &&& MASK w) with
          | none => rw [hQ0] at hs; simp at hs
          | some q0 =>
            rw [hQ0] at hs
            simp only [Option.some.injEq] at hs
            subst hs
            constructor
            · intro r q hq
              have hq : Function.update (Function.update qs.quotients_ rid _)
                  (qs.get_masked_state_id e.1 &&& MASK w) none r = some q := hq
              by_cases hr1 : r = qs.get_masked_state_id e.1 &&& MASK w
              · rw [hr1, Function.update_same] at hq; cases hq
              · rw [Function.update_noteq hr1] at hq
                by_cases hr2 : r = rid
                · rw [hr2, Function.update_same] at hq
                  cases hq
                  rw [hr2]
                  have := hhead_app ((q0.filter_actions e.2).state_infos.map StateInfo.state_id)
                  simpa [QuotientInformation.states] using this
                · rw [Function.update_noteq hr2] at hq
                  exact hrf.head r q hq
            · apply foldl_set_masked_ids_length w rid _ _ _ _ hrf.size_le
              intro p hp
              have hmem : p.state_id ∈ q0.states := by
                rw [← filter_actions_states q0 e.2]
                exact List.mem_map_of_mem _ hp
              exact ((hinv.classes _ q0 hQ0).2.2 _ hmem).1
      · rw [if_neg hflag] at hs
        simp only [Option.some.injEq] at hs
        subst hs
        constructor
        · intro r q hq
          have hq : Function.update qs.quotients_ rid _ r = some q := hq
          by_cases hr2 : r = rid
          · rw [hr2, Function.update_same] at hq
            cases hq
            rw [hr2, add_state_states]
            exact hhead_app _
          · rw [Function.update_noteq hr2] at hq
            exact hrf.head r q hq
        · show (set_masked_ids w qs.quotient_ids_ e.1 rid).length ≤ _
          rw [set_masked_ids_length]
          have := hrf.size_le
          omega

/-- The part of `build_quotient` before the loop keeps the representatives
first and the stored ids bounded. -/
theorem rep_first_build_quotient_entry [DecidableEq Action] (w : Nat)
    (qs : DefaultQuotientSystem Action) (entry : Nat × List (QuotientAction Action))
    (hlt : entry.1 < 2 ^ (w - 1)) (hrf : RepFirst w qs) :
    RepFirst w (build_quotient_entry w qs entry) := by
  unfold build_quotient_entry
  by_cases hE : ((qs.quotients_ entry.1).getD {}).state_infos.isEmpty = true
  · simp only [hE, if_true]
    constructor
    · intro r q hq
      have hq : Function.update qs.quotients_ entry.1 _ r = some q := hq
      by_cases hr2 : r = entry.1
      · rw [hr2, Function.update_same] at hq
        cases hq
        rw [hr2, add_state_states]
        have : ((qs.quotients_ entry.1).getD {}).states = [] := by
          simp [QuotientInformation.states, List.isEmpty_iff.1 hE]
        rw [this]; rfl
      · rw [Function.update_noteq hr2] at hq
        exact hrf.head r q hq
    · show (set_masked_ids w qs.quotient_ids_ entry.1 entry.1).length ≤ _
      rw [set_masked_ids_length]
      have := hrf.size_le
      omega
  · simp only [hE, if_false, Bool.false_eq_true]
    constructor
    · intro r q hq
      have hq : Function.update qs.quotients_ entry.1 _ r = some q := hq
      by_cases hr2 : r = entry.1
      · rw [hr2, Function.update_same] at hq
        cases hq
        rw [hr2, filter_actions_states]
        cases hQ : qs.quotients_ entry.1 with
        | none => rw [hQ] at hE; simp at hE
        | some q0 => simpa using hrf.head entry.1 q0 hQ
      · rw [Function.update_noteq hr2] at hq
        exact hrf.head r q hq
    · exact hrf.size_le

/-- The loop of `build_quotient`, under its preconditions, keeps the
representatives first and the stored ids bounded. -/
theorem rep_first_build_quotient_loop [DecidableEq Action] (w : Nat) (hw : 0 < w) (rid : Nat)
    (hrid : rid < 2 ^ (w - 1)) (l : List (Nat × List (QuotientAction Action))) :
    ∀ qs qs1 : DefaultQuotientSystem Action, Inv w qs →
      qs.get_masked_state_id rid = rid ||| FLAG w →
      (l.map Prod.fst).Nodup →
      (∀ e ∈ l, e.1 < 2 ^ (w - 1)) →
      (∀ e ∈ l, e.1 ≠ rid → (qs.get_masked_state_id e.1 &&& FLAG w = 0 ∨
        qs.get_masked_state_id e.1 = e.1 ||| FLAG w)) →
      RepFirst w qs → build_quotient_loop w rid qs l = some qs1 → RepFirst w qs1 := by
  induction l with
  | nil =>
    intro qs qs1 _ _ _ _ _ hrf h
    simp only [build_quotient_loop, Option.some.injEq] at h
    rw [← h]; exact hrf
  | cons e rest ih =>
    intro qs qs1 hinv hridrep hnd hlt hrep hrf h
    have hnd1 : e.1 ∉ rest.map Prod.fst := (List.nodup_cons.1 hnd).1
    have hnd2 : (rest.map Prod.fst).Nodup := (List.nodup_cons.1 hnd).2
    by_cases hne : e.1 = rid
    · have hstep : build_quotient_step w rid qs e = some qs := by
        simp [build_quotient_step, hne]
      simp only [build_quotient_loop, hstep] at h
      exact ih qs qs1 hinv hridrep hnd2
        (fun e1 he1 => hlt e1 (List.mem_cons_of_mem _ he1))
        (fun e1 he1 => hrep e1 (List.mem_cons_of_mem _ he1)) hrf h
    · obtain ⟨qs2, hs1, hs2, _, hs4, hs5⟩ :=
        build_quotient_step_spec w hw rid qs hinv hrid hridrep e hne
          (hlt e (List.mem_cons_self _ _)) (hrep e (List.mem_cons_self _ _) hne)
      simp only [build_quotient_loop, hs1] at h
      have hrf2 := rep_first_build_quotient_step w rid qs qs2 e hinv
        (hlt e (List.mem_cons_self _ _)) hrf hs1
      have hrid1 : qs2.get_masked_state_id rid = rid ||| FLAG w := by
        by_cases hc : (rid = e.1 ∨ (rid < 2 ^ (w - 1) ∧
            qs.get_masked_state_id rid = e.1 ||| FLAG w))
        · exact hs4 rid hc
        · rw [hs5 rid hc]; exact hridrep
      have hkeep : ∀ e1 ∈ rest, e1.1 ≠ rid →
          qs2.get_masked_state_id e1.1 = qs.get_masked_state_id e1.1 := by
        intro e1 he1 hne1
        apply hs5
        have hdiff : e1.1 ≠ e.1 := by
          intro h
          exact hnd1 (h ▸ List.mem_map_of_mem Prod.fst he1)
        rintro (h | ⟨ht, hg⟩)
        · exact hdiff h
        · rcases hrep e1 (List.mem_cons_of_mem _ he1) hne1 with hf | hr
          · rw [hg] at hf; exact or_FLAG_and_FLAG w e.1 hw hf
          · exact hdiff (or_FLAG_inj w e1.1 e.1 hw ht (hlt e (List.mem_cons_self _ _))
              (hr.symm.trans hg))
      exact ih qs2 qs1 hs2 hrid1 hnd2
        (fun e1 he1 => hlt e1 (List.mem_cons_of_mem _ he1))
        (fun e1 he1 hne1 => by
          rw [hkeep e1 he1 hne1]; exact hrep e1 (List.mem_cons_of_mem _ he1) hne1)
        hrf2 h

/-- Under its preconditions, `build_quotient` keeps the representatives
first and the stored ids bounded. -/
theorem rep_first_build_quotient [DecidableEq Action] (w : Nat) (hw : 0 < w)
    (qs qs1 : DefaultQuotientSystem Action) (hinv : Inv w qs) (hrf : RepFirst w qs)
    (submdp : List (Nat × List (QuotientAction Action)))
    (entry : Nat × List (QuotientAction Action)) (hentry : entry ∈ submdp)
    (hnodup : (submdp.map Prod.fst).Nodup)
    (hlt : ∀ e ∈ submdp, e.1 < 2 ^ (w - 1))
    (hrep : ∀ e ∈ submdp, qs.get_masked_state_id e.1 &&& FLAG w = 0 ∨
      qs.get_masked_state_id e.1 = e.1 ||| FLAG w)
    (h : build_quotient w qs submdp entry = some qs1) : RepFirst w qs1 := by
  have hrid := hlt entry hentry
  obtain ⟨hi, _, hge⟩ :=
    build_quotient_entry_spec w hw qs hinv entry hrid (hrep entry hentry)
  have hgrid : (build_quotient_entry w qs entry).get_masked_state_id entry.1 =
      entry.1 ||| FLAG w := by rw [hge, if_pos rfl]
  exact rep_first_build_quotient_loop w hw entry.1 hrid submdp _ qs1 hi hgrid hnodup hlt
    (fun e he hne => by rw [hge, if_neg hne]; exact hrep e he)
    (rep_first_build_quotient_entry w qs entry hrid hrf) h

end DefaultQuotientSystem
end quotients

namespace engines
namespace interval_iteration

open quotients quotients.DefaultQuotientSystem

/-- Witness of C13: the system over the example MDP whose only class is
`{1, 2}` with representative `1`, 64-bit ids, the value store holding the
state id itself and `dead_ends = [1]`. -/
theorem solve_lifts_classes_witness :
    ∃ sys, build_quotient 64 (init example_space) [(1, []), (2, [])] (1, []) = some sys ∧
      (0 < 64) ∧ Inv 64 sys ∧ RepFirst 64 sys ∧
      ∃ st1, solve_lift 64 sys (⟨fun s => s, [1], []⟩ : LiftState Nat) = some st1 ∧
        st1.value_store 2 = st1.value_store 1 ∧
        (1 ∈ st1.dead_ends → 2 ∈ st1.dead_ends) := by
  obtain ⟨sys, h1, h2, _, h4, _⟩ :=
    build_quotient_masked 64 (by decide) (init example_space)
      (inv_init 64 example_space) [(1, []), (2, [])] (1, []) (by decide) (by decide)
      (by decide) (by intro e he; left; revert e he; decide)
  have hrf : RepFirst 64 sys :=
    rep_first_build_quotient 64 (by decide) (init example_space) sys
      (inv_init 64 example_space) (rep_first_init 64 example_space)
      [(1, []), (2, [])] (1, []) (by decide) (by decide) (by decide)
      (by intro e he; left; revert e he; decide) h1
  obtain ⟨st1, k1, k2⟩ := solve_lifts_classes 64 (by decide) sys h2 hrf
    (⟨fun s => s, [1], []⟩ : LiftState Nat)
  have hg2 : sys.get_masked_state_id 2 = 1 ||| FLAG 64 := h4 (2, []) (by decide)
  obtain ⟨q, hQ, hm⟩ := inv_class_of_masked 64 (by decide) sys h2 2 1 (by decide) (by decide)
    hg2
  have := k2 1 q hQ 2 hm
  exact ⟨sys, h1, by decide, h2, hrf, st1, k1, this.1, this.2.1⟩

end interval_iteration
end engines
end probfd

/-! ## Quotients of empty state lists -/

namespace probfd
namespace engines
namespace interval_iteration

open quotients quotients.DefaultQuotientSystem

/-- C24 fails on the code: `build_quotient(states)` applied to an empty list
of states dereferences `range.begin()` of the empty zipped range, which is
undefined, so it does not leave the quotient system unchanged; with
`extract_probability_one_states_ = false` and an empty `one_states` the call
`sys.build_quotient(one_states)` of `mysolve` is undefined whatever the
analysis finds, and so is `sys.build_quotient(dead_ends)` when no dead state
is found. -/
theorem build_quotient_empty_range_undefined {Action : Type} [DecidableEq Action] (w : Nat)
    (qs : DefaultQuotientSystem Action)
    (run_analysis : DefaultQuotientSystem Action → List Nat × List Nat)
    (dead_ends : List Nat) :
    build_quotient_range w qs [] = none ∧
      mysolve_build_quotients false run_analysis w qs dead_ends [] = none ∧
      mysolve_build_quotients false (fun _ => ([], [])) w qs [] [] = none := by
  refine ⟨rfl, ?_, rfl⟩
  simp only [mysolve_build_quotients, Bool.false_eq_true, if_false]
  cases build_quotient_range w qs (dead_ends ++ (run_analysis qs).1) with
  | none => rfl
  | some sys1 => rfl

end interval_iteration
end engines
end probfd

/-! ## Value-gap tiebreaker on infinite bounds -/

namespace probfd
namespace policy_tiebreaking
namespace VDiffTiebreaker

open value_type

/-- C27 fails on the code: with `favor_large_gaps_ = 1`, one choice whose
only successor has the value bounds `[0, +∞]`, `pick` returns the index `1`,
which is not smaller than the number of choices. -/
theorem pick_inf_out_of_range :
    pick_inf ⟨1⟩ (1 / 1000) (fun _ => (xvalue_t.fin 0, xvalue_t.pinf)) [[(0, 1)]] = 1 ∧
      ¬ (1 < ([[(0, 1)]] : List (Distribution Nat)).length) := by
  refine ⟨?_, by simp⟩
  simp [pick_inf, pick_loop_inf, weighted_sum_inf, xvalue_t.is_approx_less, xvalue_t.add,
    xvalue_t.sub, xvalue_t.neg, xvalue_t.mul, xvalue_t.mul_inf, xvalue_t.lt]

end VDiffTiebreaker
end policy_tiebreaking
end probfd

/-! ## The report of the solver on a timeout -/

namespace probfd
namespace solvers

/-- Counterexample to C21: when `compute_policy` raises the timeout with `5`
registered states, the output of `solve` holds neither the registered-state
count nor the algorithm statistics nor the heuristic statistics. -/
theorem solve_timeout_report_counterexample :
    ReportLine.registered_states 5 ∉ solve ComputePolicyResult.timeout 0 5 ∧
      ReportLine.algorithm_statistics ∉ solve ComputePolicyResult.timeout 0 5 ∧
      ReportLine.heuristic_statistics ∉ solve ComputePolicyResult.timeout 0 5 := by
  decide

/-- C21, amended: when `compute_policy` raises the timeout, `solve` writes
the header line and the report that the time limit was reached and nothing
else, so none of the statistics; when `compute_policy` returns, with or
without a policy, the output ends with the registered-state count and the
state-space, algorithm, heuristic and additional statistics and holds no
report of a time limit. -/
theorem solve_timeout_report (trajectories num_registered_states : Nat) :
    solve ComputePolicyResult.timeout trajectories num_registered_states =
        [ReportLine.running_algorithm, ReportLine.time_limit_reached] ∧
      [ReportLine.registered_states num_registered_states, ReportLine.state_space_statistics,
          ReportLine.algorithm_statistics, ReportLine.heuristic_statistics,
          ReportLine.additional_statistics] <:+
        solve ComputePolicyResult.no_policy trajectories num_registered_states ∧
      [ReportLine.registered_states num_registered_states, ReportLine.state_space_statistics,
          ReportLine.algorithm_statistics, ReportLine.heuristic_statistics,
          ReportLine.additional_statistics] <:+
        solve ComputePolicyResult.policy trajectories num_registered_states ∧
      ReportLine.time_limit_reached ∉
        solve ComputePolicyResult.no_policy trajectories num_registered_states ∧
      ReportLine.time_limit_reached ∉
        solve ComputePolicyResult.policy trajectories num_registered_states := by
  refine ⟨rfl, ?_, ?_, ?_, ?_⟩
  · exact ⟨[ReportLine.running_algorithm, ReportLine.analysis_done], rfl⟩
  · refine ⟨[ReportLine.running_algorithm, ReportLine.analysis_done,
      ReportLine.analysis_result, ReportLine.policy_file] ++
      (List.range trajectories).map ReportLine.trajectory_file, ?_⟩
    simp [solve]
  · simp [solve]
  · simp [solve]

end solvers
end probfd

/-! ## The flaw search along the policy -/

namespace probfd
namespace heuristics
namespace pdbs
namespace cegar

theorem pq_pop_initial : pq_pop [((1 : value_t), 0)] = some ((1, 0), []) := by
  simp [pq_pop, pq_top]

theorem pq_pop_after_initial : pq_pop [((3 / 10 : value_t), 1), (7 / 10, 2)] = some ((7 / 10, 2), [(3 / 10, 1)]) := by
  have h : (((3 / 10 : value_t), 1) == ((7 / 10 : value_t), 2)) = false := by
    rw [beq_eq_false_iff_ne]; norm_num
  norm_num [pq_pop, pq_top, List.erase_cons, h]

theorem pq_pop_two_entries : pq_pop [((3 / 10 : value_t), 1), (7 / 10, 1)] = some ((7 / 10, 1), [(3 / 10, 1)]) := by
  have h : (((3 / 10 : value_t), 1) == ((7 / 10 : value_t), 1)) = false := by
    rw [beq_eq_false_iff_ne]; norm_num
  norm_num [pq_pop, pq_top, List.erase_cons, h]

theorem pq_pop_stale : pq_pop [((3 / 10 : value_t), 1)] = some ((3 / 10, 1), []) := by
  simp [pq_pop, pq_top]

/-- C30 fails on the code: on the example task the state `1` is first
reached with the path probability `3/10` and then, before it is popped, with
`7/10`, and both entries stay in the queue; the entry with `7/10` is popped
and the state expanded, and at the pop of the entry with `3/10` the
condition of `assert(!info.expanded)` is false. -/
theorem apply_policy_assertion_fails :
    apply_policy example_diamond 10 0 =
      some { result := true, asserts := [true, true, true, false] } := by
  unfold apply_policy
  rw [apply_policy_loop]
  simp only [pq_pop_initial]
  norm_num [expand, expand_operators, expand_outcomes, example_diamond]
  rw [apply_policy_loop]
  simp only [pq_pop_after_initial]
  norm_num [expand, expand_operators, expand_outcomes, Function.update]
  rw [apply_policy_loop]
  simp only [pq_pop_two_entries]
  norm_num [expand, expand_operators, expand_outcomes, Function.update]
  rw [apply_policy_loop]
  simp only [pq_pop_stale]
  norm_num [expand, expand_operators, expand_outcomes, Function.update]

end cegar
end pdbs
end heuristics
end probfd

/-! ## Exhaustive AO*: the expansion of a tip state -/

namespace probfd
namespace engines
namespace exhaustive_ao

variable {Action L B : Type}

end exhaustive_ao
end engines
end probfd

namespace probfd
namespace engines
namespace exhaustive_ao

variable {Action L B : Type}

end exhaustive_ao
end engines
end probfd

namespace probfd
namespace engines
namespace exhaustive_ao

variable {Action L B : Type}

end exhaustive_ao
end engines
end probfd

namespace probfd
namespace engines
namespace exhaustive_ao

variable {Action L B : Type}

theorem keeps_marks_idle_base (transitions : Nat → List (Nat × Distribution Nat)) :
    KeepsMarks (idle_base transitions) := by
  constructor
  · intro s d st id; rfl
  · intro st st1 h id
    simp only [idle_base, Outcome.ret.injEq] at h
    rw [h]
  · intro s st st1 h id
    simp only [idle_base, Outcome.ret.injEq] at h
    rw [h]
  · intro s st id; rfl

end exhaustive_ao
end engines
end probfd

/-! ## Exhaustive AO*: the loop of `do_solve` -/

namespace probfd
namespace engines
namespace exhaustive_ao

open value_utils

variable {Action L B : Type}

/-- A value returned by the loop of `do_solve` is the bounds of the initial
state in the final state, in which the initial state is solved. -/
theorem do_solve_loop_returns (ol : OpenList Action L) (bf : AOBase Action L B)
    (expired : Nat → Bool) (stateid : Nat) (fuel : Nat) :
    ∀ (k : Nat) (st : SearchState L B) (v : IntervalValue) (st1 : SearchState L B),
      do_solve_loop ol bf expired stateid fuel k st = some (Outcome.ret (v, st1)) →
      (st1.state_infos stateid).solved = true ∧ v = bf.get_bounds st1 stateid := by
  induction fuel with
  | zero => intro k st v st1 h; simp [do_solve_loop] at h
  | succ fuel ih =>
    intro k st v st1 h
    simp only [do_solve_loop] at h
    by_cases he : expired k = true
    · rw [if_pos he] at h; cases h
    · rw [if_neg he] at h
      cases hs : step ol bf st with
      | ret st2 =>
        rw [hs] at h
        simp only at h
        by_cases hsol : (st2.state_infos stateid).solved = true
        · simp only [hsol, Bool.not_true, Bool.false_eq_true, if_false, Option.some.injEq,
            Outcome.ret.injEq, Prod.mk.injEq] at h
          rw [← h.2]
          exact ⟨hsol, h.1.symm⟩
        · have hsol1 : (st2.state_infos stateid).solved = false := by simpa using hsol
          simp only [hsol1, Bool.not_false, if_true] at h
          exact ih _ _ _ _ h
      | timeout => rw [hs] at h; cases h
      | undefined => rw [hs] at h; cases h

/-- The loop of `do_solve` tests the open list nowhere: when an iteration
starts with an empty open list (the timer not expired), the condition of
the assertion of `step` is false, `step` pops from the empty open list,
which is undefined, and `do_solve` returns nothing; whenever `do_solve`
returns, the initial state is solved and the returned value is its bounds.
Whether an iteration can start with an empty open list depends on the
members of the base class, which are not among the sources. -/
theorem do_solve_no_exhaustion_test (ol : OpenList Action L) (bf : AOBase Action L B)
    (expired : Nat → Bool) (stateid fuel k : Nat) (st : SearchState L B)
    (hempty : ol.empty st.open_list = true) (hpop : ol.pop st.open_list = none)
    (hexp : expired k = false) :
    step_assert ol st = false ∧
      step ol bf st = Outcome.undefined ∧
      do_solve_loop ol bf expired stateid (fuel + 1) k st = some Outcome.undefined ∧
      ∀ (fuel1 : Nat) (st0 : SearchState L B) (v : IntervalValue) (st1 : SearchState L B),
        do_solve ol bf expired fuel1 stateid st0 = some (Outcome.ret (v, st1)) →
        (st1.state_infos stateid).solved = true ∧ v = bf.get_bounds st1 stateid := by
  have hstep : step ol bf st = Outcome.undefined := by
    simp only [step, hpop]
  refine ⟨by simp [step_assert, hempty], hstep, ?_, ?_⟩
  · simp only [do_solve_loop, hexp, Bool.false_eq_true, if_false, hstep]
  · intro fuel1 st0 v st1 h
    exact do_solve_loop_returns ol bf expired stateid fuel1 0 _ v st1 h

end exhaustive_ao
end engines
end probfd

/-! ## Abstract state mapper: the constructor -/

namespace probabilistic
namespace pdbs

theorem prod_pos_of_forall_one_le (ds : List Int) (h : ∀ d ∈ ds, 1 ≤ d) : 1 ≤ ds.prod := by
  induction ds with
  | nil => simp
  | cons d ds ih =>
    rw [List.prod_cons]
    have h1 := h d (List.mem_cons_self _ _)
    have h2 := ih (fun x hx => h x (List.mem_cons_of_mem _ hx))
    nlinarith

theorem set_length_append {α : Type} (A : List α) (x y : α) (B : List α) :
    (A ++ x :: B).set A.length y = A ++ y :: B := by
  induction A with
  | nil => rfl
  | cons a A ih => simp [ih]

theorem getElem?_length_append {α : Type} (A : List α) (x : α) (B : List α) :
    (A ++ x :: B)[A.length]? = some x := by
  induction A with
  | nil => simp
  | cons a A ih => simpa using ih

theorem int_div_maxint (d : Int) (hd : 1 ≤ d) : int_div maxint d = some (maxint / d) := by
  unfold int_div
  have h1 : ¬ (d = 0 ∨ (maxint = minint ∧ d = -1)) := by omega
  rw [if_neg h1, Int.tdiv_eq_ediv (by decide) (by omega)]

namespace AbstractStateMapper

/-- The constructor from the variable at position `pre.length` on: it
returns, and the result is within limits exactly when the product of `p`
(the product of the domain sizes before that position) and the remaining
domain sizes is at most the largest `int`; the vectors and `size_` are then
the domain sizes, the products before each position and that product. -/
theorem construct_loop_spec (domains : List Int) (vs : List Int) :
    ∀ (rest pre pp : List Int) (p size0 : Int), rest ≠ [] →
      pp.length = pre.length → 1 ≤ p → p ≤ maxint →
      (∀ v ∈ rest, ∃ d, read domains v = some d ∧ 1 ≤ d) →
      ∃ m, construct_loop domains rest pre.length
          { oob_ := false, size_ := size0, vars_ := vs,
            domains_ := pre ++ List.replicate rest.length 0,
            multipliers_ := pp ++ p :: List.replicate (rest.length - 1) 1 } = some m ∧
        (m.oob_ = false ↔ p * (pattern_domains rest domains).prod ≤ maxint) ∧
        (m.oob_ = false →
          m = { oob_ := false, size_ := p * (pattern_domains rest domains).prod, vars_ := vs,
                domains_ := pre ++ pattern_domains rest domains,
                multipliers_ := pp ++ prefix_products p (pattern_domains rest domains) }) := by
  intro rest
  induction rest with
  | nil => intro pre pp p size0 h; exact absurd rfl h
  | cons v rest ih =>
    intro pre pp p size0 _ hlen hp1 hp2 hval
    obtain ⟨d, hd, hd1⟩ := hval v (List.mem_cons_self _ _)
    have hvalr : ∀ v ∈ rest, ∃ d, read domains v = some d ∧ 1 ≤ d :=
      fun x hx => hval x (List.mem_cons_of_mem _ hx)
    have hprod1 : 1 ≤ (pattern_domains rest domains).prod := by
      apply prod_pos_of_forall_one_le
      intro x hx
      simp only [pattern_domains, List.mem_map] at hx
      obtain ⟨u, hu, rfl⟩ := hx
      obtain ⟨du, hdu, hdu1⟩ := hvalr u hu
      rw [hdu]; exact hdu1
    have hpd : pattern_domains (v :: rest) domains = d :: pattern_domains rest domains := by
      simp [pattern_domains, hd]
    have hj : pre.length < (pre ++ List.replicate (v :: rest).length 0).length := by
      simp
    have hget : (pp ++ p :: List.replicate ((v :: rest).length - 1) 1)[pre.length]? =
        some p := by
      rw [← hlen]; exact getElem?_length_append pp p _
    have hset : (pre ++ List.replicate (v :: rest).length (0 : Int)).set pre.length d =
        pre ++ d :: List.replicate rest.length 0 := by
      have : List.replicate (v :: rest).length (0 : Int) = 0 :: List.replicate rest.length 0 := by
        simp [List.replicate_succ]
      rw [this]; exact set_length_append pre 0 d _
    rw [construct_loop]
    simp only [hd, hj, if_true, hget, int_div_maxint d hd1, hset]
    by_cases hoob : p > maxint / d
    · -- the product exceeds the largest int at this position
      rw [if_pos hoob]
      refine ⟨_, rfl, ?_, ?_⟩
      · simp only [Bool.true_eq_false, false_iff, not_le, hpd, List.prod_cons]
        have h1 : maxint < p * d := (Int.ediv_lt_iff_lt_mul (by omega)).1 hoob
        nlinarith
      · intro h; cases h
    · rw [if_neg hoob]
      have hle : p * d ≤ maxint := by
        have := (Int.ediv_lt_iff_lt_mul (a := maxint) (b := p) (by omega : 0 < d))
        by_contra hc
        exact hoob (this.2 (by omega))
      have hge : 1 ≤ p * d := by nlinarith
      have hmul : int_mul p d = some (p * d) := by
        unfold int_mul
        rw [if_pos]
        refine ⟨?_, hle⟩
        have : minint ≤ 0 := by decide
        omega
      simp only [hmul]
      cases rest with
      | nil =>
        simp only [List.isEmpty_nil, if_true]
        refine ⟨_, rfl, ?_, ?_⟩
        · simp [pattern_domains, hd, hle]
        · intro _
          simp [pattern_domains, hd, prefix_products]
      | cons v2 rest2 =>
        simp only [List.isEmpty_cons, Bool.false_eq_true, if_false]
        have hj1 : pre.length + 1 <
            (pp ++ p :: List.replicate ((v :: v2 :: rest2).length - 1) 1).length := by
          simp [hlen]
        rw [if_pos hj1]
        have hset2 : (pp ++ p :: List.replicate ((v :: v2 :: rest2).length - 1) (1 : Int)).set
            (pre.length + 1) (p * d) =
            (pp ++ [p]) ++ (p * d) :: List.replicate ((v2 :: rest2).length - 1) 1 := by
          have e1 : pp ++ p :: List.replicate ((v :: v2 :: rest2).length - 1) (1 : Int) =
              (pp ++ [p]) ++ 1 :: List.replicate ((v2 :: rest2).length - 1) 1 := by
            simp [List.replicate_succ]
          have e2 : pre.length + 1 = (pp ++ [p]).length := by simp [hlen]
          rw [e1, e2]; exact set_length_append _ _ _ _
        rw [hset2]
        have e3 : pre ++ d :: List.replicate (v2 :: rest2).length (0 : Int) =
            (pre ++ [d]) ++ List.replicate (v2 :: rest2).length 0 := by simp
        have e4 : pre.length + 1 = (pre ++ [d]).length := by simp
        rw [e3, e4]
        obtain ⟨m, hm1, hm2, hm3⟩ := ih (pre ++ [d]) (pp ++ [p]) (p * d) size0 (by simp)
          (by simp [hlen]) hge hle hvalr
        refine ⟨m, hm1, ?_, ?_⟩
        · rw [hm2, hpd, List.prod_cons, mul_assoc]
        · intro h
          rw [hm3 h, hpd, List.prod_cons, mul_assoc]
          simp [prefix_products]

end AbstractStateMapper
end pdbs
end probabilistic

namespace probabilistic
namespace pdbs

theorem pattern_domains_one_le (vars domains : List Int)
    (hval : ∀ v ∈ vars, ∃ d, read domains v = some d ∧ 1 ≤ d) :
    ∀ d ∈ pattern_domains vars domains, 1 ≤ d := by
  intro x hx
  simp only [pattern_domains, List.mem_map] at hx
  obtain ⟨u, hu, rfl⟩ := hx
  obtain ⟨du, hdu, hdu1⟩ := hval u hu
  rw [hdu]; exact hdu1

namespace AbstractStateMapper

/-- The constructor on a non-empty pattern whose variables have domain
sizes of at least one: it returns, and the result is within limits exactly
when the product of the domain sizes is at most the largest `int`; the
members are then as computed without overflow. -/
theorem construct_spec (vars domains : List Int) (hv : vars ≠ [])
    (hval : ∀ v ∈ vars, ∃ d, read domains v = some d ∧ 1 ≤ d) :
    ∃ m, construct vars domains = some m ∧
      (m.oob_ = false ↔ (pattern_domains vars domains).prod ≤ maxint) ∧
      (m.oob_ = false →
        m = { oob_ := false, size_ := (pattern_domains vars domains).prod, vars_ := vars,
              domains_ := pattern_domains vars domains,
              multipliers_ := prefix_products 1 (pattern_domains vars domains) }) := by
  obtain ⟨m, h1, h2, h3⟩ := construct_loop_spec domains vars vars [] [] 1 (-1) hv rfl
    (le_refl 1) (by decide) hval
  have hne : vars.isEmpty = false := by
    cases vars with
    | nil => exact absurd rfl hv
    | cons a l => rfl
  have hrep : List.replicate vars.length (1 : Int) =
      1 :: List.replicate (vars.length - 1) 1 := by
    cases vars with
    | nil => exact absurd rfl hv
    | cons a l => simp [List.replicate_succ]
  refine ⟨m, ?_, ?_, ?_⟩
  · unfold construct
    rw [hne, hrep]
    simpa using h1
  · simpa using h2
  · intro h
    simpa using h3 h

end AbstractStateMapper

/-- C29: for a non-empty pattern whose variables all have a domain size of
at least one, the constructor returns without an overflow of a
multiplication, `is_size_within_limits()` is true exactly when the product
of the domain sizes of the pattern variables is at most the largest `int`,
and `size()` is then that product. -/
theorem size_within_limits_iff (vars domains : List Int) (hv : vars ≠ [])
    (hval : ∀ v ∈ vars, ∃ d, read domains v = some d ∧ 1 ≤ d) :
    ∃ m, AbstractStateMapper.construct vars domains = some m ∧
      (m.is_size_within_limits = true ↔ (pattern_domains vars domains).prod ≤ maxint) ∧
      (m.is_size_within_limits = true → m.size = (pattern_domains vars domains).prod) := by
  obtain ⟨m, h1, h2, h3⟩ := AbstractStateMapper.construct_spec vars domains hv hval
  have hb : m.is_size_within_limits = true ↔ m.oob_ = false := by
    simp [AbstractStateMapper.is_size_within_limits]
  refine ⟨m, h1, hb.trans h2, ?_⟩
  intro h
  have hoob := hb.1 h
  have hle := h2.1 hoob
  have hpos := prod_pos_of_forall_one_le _ (pattern_domains_one_le vars domains hval)
  rw [h3 hoob]
  simp only [AbstractStateMapper.size]
  apply Int.emod_eq_of_lt (by omega)
  have : maxint < 2 ^ 32 := by decide
  omega

/-- Witness of C29: the pattern of the variables `0` and `1` with the domain
sizes `2` and `3`. -/
theorem size_within_limits_iff_witness :
    ([0, 1] : List Int) ≠ [] ∧
      ∃ m, AbstractStateMapper.construct [0, 1] [2, 3] = some m ∧
        (m.is_size_within_limits = true ↔ (pattern_domains [0, 1] [2, 3]).prod ≤ maxint) ∧
        (m.is_size_within_limits = true → m.size = (pattern_domains [0, 1] [2, 3]).prod) :=
  ⟨by decide,
    size_within_limits_iff [0, 1] [2, 3] (by decide)
      (by
        intro v hv
        simp only [List.mem_cons, List.mem_singleton, List.not_mem_nil, or_false] at hv
        rcases hv with rfl | rfl
        · exact ⟨2, by decide, by decide⟩
        · exact ⟨3, by decide, by decide⟩)⟩

end pdbs
end probabilistic

/-! ## Abstract state mapper: ranking and unranking -/

namespace probabilistic
namespace pdbs

end pdbs
end probabilistic

namespace probabilistic
namespace pdbs

namespace AbstractStateMapper

end AbstractStateMapper

end pdbs
end probabilistic

/-! ## Quotient system: the counts of a class -/

namespace probfd
namespace quotients

namespace QuotientInformation

variable {Action : Type}

/-- The loop of `filter_actions` keeps the id and the number of actions of
every member; when the counts fit into the action vector it keeps the
length of the vector, and the returned count is the sum of the new outer
counts added to the given one. -/
theorem filter_loop_counts [DecidableEq Action] (filter : List (QuotientAction Action))
    (infos : List StateInfo) :
    ∀ (aops : List Action) (total : Nat),
      ((filter_loop filter infos aops total).1.map
          (fun i => (i.state_id, i.num_outer_acts + i.num_inner_acts)) =
        infos.map (fun i => (i.state_id, i.num_outer_acts + i.num_inner_acts))) ∧
      (filter_loop filter infos aops total).2.2 =
        total + ((filter_loop filter infos aops total).1.map StateInfo.num_outer_acts).sum ∧
      ((infos.map (fun i => i.num_outer_acts + i.num_inner_acts)).sum ≤ aops.length →
        (filter_loop filter infos aops total).2.1.length = aops.length) := by
  induction infos with
  | nil => intro aops total; simp [filter_loop]
  | cons info infos ih =>
    intro aops total
    obtain ⟨h1, h2, h3⟩ := ih (aops.drop (info.num_outer_acts + info.num_inner_acts))
      (total + ((aops.take info.num_outer_acts).filter
        (fun a => !(filter.contains ⟨info.state_id, a⟩))).length)
    have hk : ((aops.take info.num_outer_acts).filter
        (fun a => !(filter.contains ⟨info.state_id, a⟩))).length ≤ info.num_outer_acts :=
      le_trans (List.length_filter_le _ _) (List.length_take_le _ _)
    refine ⟨?_, ?_, ?_⟩
    · simp only [filter_loop, List.map_cons, h1]
      congr 2
      omega
    · simp only [filter_loop, List.map_cons, List.sum_cons]
      rw [h2]; omega
    · intro hle
      simp only [List.map_cons, List.sum_cons] at hle
      have hlen := DefaultQuotientSystem.length_filter_not (fun a => !(filter.contains ⟨info.state_id, a⟩))
        (aops.take info.num_outer_acts)
      simp only [Bool.not_not, List.length_take] at hlen
      have h3' := h3 (by simp only [List.length_drop]; omega)
      simp only [filter_loop, List.length_append, List.length_take, List.length_drop, h3']
      omega

/-- The method `filter_actions`, for any filter, keeps the id and the number
of actions of every member, and keeps the counts in agreement with the
action vector. -/
theorem filter_actions_counts [DecidableEq Action] (q : QuotientInformation Action)
    (filter : List (QuotientAction Action)) :
    ((q.filter_actions filter).state_infos.map
        (fun i => (i.state_id, i.num_outer_acts + i.num_inner_acts)) =
      q.state_infos.map (fun i => (i.state_id, i.num_outer_acts + i.num_inner_acts))) ∧
    (q.counts_ok → (q.filter_actions filter).counts_ok) := by
  unfold filter_actions
  by_cases hE : filter.isEmpty = true
  · simp [hE]
  · simp only [hE, Bool.false_eq_true, if_false]
    obtain ⟨h1, h2, h3⟩ := filter_loop_counts filter q.state_infos q.aops 0
    refine ⟨h1, ?_⟩
    intro hc
    have hsum : ((filter_loop filter q.state_infos q.aops 0).1.map
        (fun i => i.num_outer_acts + i.num_inner_acts)).sum =
        (q.state_infos.map (fun i => i.num_outer_acts + i.num_inner_acts)).sum := by
      have := congrArg (fun l => (l.map Prod.snd).sum) h1
      simp only [List.map_map] at this
      exact this
    constructor
    · show (List.map _ (filter_loop filter q.state_infos q.aops 0).1).sum = _
      rw [hsum, hc.1]
      exact (h3 (le_of_eq hc.1)).symm
    · show (List.map _ (filter_loop filter q.state_infos q.aops 0).1).sum = _
      rw [h2]; simp

theorem append_counts (q1 q2 : QuotientInformation Action) (h1 : q1.counts_ok)
    (h2 : q2.counts_ok) : (q1.append q2).counts_ok := by
  constructor
  · simp only [append, List.map_append, List.sum_append, List.length_append, h1.1, h2.1]
  · simp only [append, List.map_append, List.sum_append, h1.2, h2.2]

theorem empty_counts : ({} : QuotientInformation Action).counts_ok := by
  constructor <;> rfl

/-- The block "Add this state to the quotient" appends the block of the
state to the class. -/
theorem add_state_append [DecidableEq Action] (ss : StateSpace Action)
    (q : QuotientInformation Action) (s : Nat) (aops : List (QuotientAction Action)) :
    DefaultQuotientSystem.add_state ss q s aops =
      q.append (DefaultQuotientSystem.add_state ss {} s aops) := by
  rw [DefaultQuotientSystem.add_state_eq, DefaultQuotientSystem.add_state_eq ss {}]
  simp [append]

theorem add_state_counts [DecidableEq Action] (ss : StateSpace Action)
    (q : QuotientInformation Action) (s : Nat) (aops : List (QuotientAction Action))
    (h : q.counts_ok) : (DefaultQuotientSystem.add_state ss q s aops).counts_ok := by
  rw [add_state_append]
  apply append_counts _ _ h
  rw [DefaultQuotientSystem.add_state_eq]
  constructor
  · simp
  · simp

end QuotientInformation
end quotients
end probfd

namespace probfd
namespace quotients
namespace DefaultQuotientSystem

variable {Action : Type}

theorem counts_init (ss : StateSpace Action) : (init ss).counts_ok := by
  intro r q h; simp [init] at h

/-- One iteration of the loop of `build_quotient` keeps the counts of every
class in agreement with its action vector. -/
theorem counts_build_quotient_step [DecidableEq Action] (w rid : Nat)
    (qs qs1 : DefaultQuotientSystem Action) (e : Nat × List (QuotientAction Action))
    (hc : qs.counts_ok) (hs : build_quotient_step w rid qs e = some qs1) : qs1.counts_ok := by
  unfold build_quotient_step at hs
  by_cases hne : e.1 = rid
  · simp only [hne, if_true, Option.some.injEq] at hs
    rw [← hs]; exact hc
  · simp only [hne, if_false] at hs
    cases hQ : qs.quotients_ rid with
    | none => rw [hQ] at hs; simp at hs
    | some qinfo =>
      rw [hQ] at hs
      simp only at hs
      by_cases hflag : qs.get_masked_state_id e.1 &&& FLAG w ≠ 0
      · rw [if_pos hflag] at hs
        by_cases hkey : qs.get_masked_state_id e.1 &&& MASK w = rid
        · rw [if_pos hkey] at hs; simp at hs
        · rw [if_neg hkey] at hs
          cases hQ0 : qs.quotients_ (qs.get_masked_state_id e.1 &&& MASK w) with
          | none => rw [hQ0] at hs; simp at hs
          | some q0 =>
            rw [hQ0] at hs
            simp only [Option.some.injEq] at hs
            subst hs
            intro r q hq
            have hq : Function.update (Function.update qs.quotients_ rid _)
                (qs.get_masked_state_id e.1 &&& MASK w) none r = some q := hq
            by_cases hr1 : r = qs.get_masked_state_id e.1 &&& MASK w
            · rw [hr1, Function.update_same] at hq; cases hq
            · rw [Function.update_noteq hr1] at hq
              by_cases hr2 : r = rid
              · rw [hr2, Function.update_same] at hq
                cases hq
                exact QuotientInformation.append_counts qinfo (q0.filter_actions e.2)
                  (hc rid qinfo hQ)
                  ((QuotientInformation.filter_actions_counts q0 e.2).2 (hc _ q0 hQ0))
              · rw [Function.update_noteq hr2] at hq
                exact hc r q hq
      · rw [if_neg hflag] at hs
        simp only [Option.some.injEq] at hs
        subst hs
        intro r q hq
        have hq : Function.update qs.quotients_ rid _ r = some q := hq
        by_cases hr2 : r = rid
        · rw [hr2, Function.update_same] at hq
          cases hq
          exact QuotientInformation.add_state_counts _ qinfo e.1 e.2 (hc rid qinfo hQ)
        · rw [Function.update_noteq hr2] at hq
          exact hc r q hq

theorem counts_build_quotient_loop [DecidableEq Action] (w rid : Nat)
    (l : List (Nat × List (QuotientAction Action))) :
    ∀ qs qs1 : DefaultQuotientSystem Action, qs.counts_ok →
      build_quotient_loop w rid qs l = some qs1 → qs1.counts_ok := by
  induction l with
  | nil =>
    intro qs qs1 hc h
    simp only [build_quotient_loop, Option.some.injEq] at h
    rw [← h]; exact hc
  | cons e rest ih =>
    intro qs qs1 hc h
    simp only [build_quotient_loop] at h
    cases hs : build_quotient_step w rid qs e with
    | none => rw [hs] at h; simp at h
    | some qs2 =>
      rw [hs] at h
      exact ih qs2 qs1 (counts_build_quotient_step w rid qs qs2 e hc hs) h

theorem counts_build_quotient_entry [DecidableEq Action] (w : Nat)
    (qs : DefaultQuotientSystem Action) (entry : Nat × List (QuotientAction Action))
    (hc : qs.counts_ok) : (build_quotient_entry w qs entry).counts_ok := by
  unfold build_quotient_entry
  by_cases hE : ((qs.quotients_ entry.1).getD {}).state_infos.isEmpty = true
  · simp only [hE, if_true]
    intro r q hq
    have hq : Function.update qs.quotients_ entry.1 _ r = some q := hq
    by_cases hr2 : r = entry.1
    · rw [hr2, Function.update_same] at hq
      cases hq
      apply QuotientInformation.add_state_counts
      cases hQ : qs.quotients_ entry.1 with
      | none => exact QuotientInformation.empty_counts
      | some q0 => exact hc _ q0 hQ
    · rw [Function.update_noteq hr2] at hq
      exact hc r q hq
  · simp only [hE, if_false, Bool.false_eq_true]
    intro r q hq
    have hq : Function.update qs.quotients_ entry.1 _ r = some q := hq
    by_cases hr2 : r = entry.1
    · rw [hr2, Function.update_same] at hq
      cases hq
      apply (QuotientInformation.filter_actions_counts _ _).2
      cases hQ : qs.quotients_ entry.1 with
      | none => exact QuotientInformation.empty_counts
      | some q0 => exact hc _ q0 hQ
    · rw [Function.update_noteq hr2] at hq
      exact hc r q hq

/-- The method `build_quotient` keeps the counts of every class in agreement
with its action vector. -/
theorem counts_build_quotient [DecidableEq Action] (w : Nat)
    (qs qs1 : DefaultQuotientSystem Action)
    (submdp : List (Nat × List (QuotientAction Action)))
    (entry : Nat × List (QuotientAction Action)) (hc : qs.counts_ok)
    (h : build_quotient w qs submdp entry = some qs1) : qs1.counts_ok :=
  counts_build_quotient_loop w entry.1 submdp _ qs1 (counts_build_quotient_entry w qs entry hc) h

theorem reads_in_bounds_of_sum_le (infos : List StateInfo) :
    ∀ n, (infos.map (fun i => i.num_outer_acts + i.num_inner_acts)).sum ≤ n →
      reads_in_bounds infos n = true := by
  induction infos with
  | nil => intro n _; rfl
  | cons i infos ih =>
    intro n h
    simp only [List.map_cons, List.sum_cons] at h
    simp only [reads_in_bounds, Bool.and_eq_true, decide_eq_true_eq]
    exact ⟨by omega, by omega, ih _ (by omega)⟩

theorem outer_actions_length (infos : List StateInfo) :
    ∀ aops : List Action,
      (infos.map (fun i => i.num_outer_acts + i.num_inner_acts)).sum ≤ aops.length →
      (outer_actions infos aops).length = (infos.map StateInfo.num_outer_acts).sum := by
  induction infos with
  | nil => intro aops _; rfl
  | cons i infos ih =>
    intro aops h
    simp only [List.map_cons, List.sum_cons] at h
    simp only [outer_actions, List.length_append, List.length_map, List.length_take,
      List.map_cons, List.sum_cons]
    rw [ih _ (by simp only [List.length_drop]; omega)]
    omega

theorem inner_actions_length (infos : List StateInfo) :
    ∀ aops : List Action,
      (infos.map (fun i => i.num_outer_acts + i.num_inner_acts)).sum ≤ aops.length →
      (inner_actions infos aops).length = (infos.map StateInfo.num_inner_acts).sum := by
  induction infos with
  | nil => intro aops _; rfl
  | cons i infos ih =>
    intro aops h
    simp only [List.map_cons, List.sum_cons] at h
    simp only [inner_actions, List.length_append, List.length_map, List.length_take,
      List.length_drop, List.map_cons, List.sum_cons]
    rw [ih _ (by simp only [List.length_drop]; omega)]
    omega

theorem sum_map_add_counts (infos : List StateInfo) :
    (infos.map (fun i => i.num_outer_acts + i.num_inner_acts)).sum =
      (infos.map StateInfo.num_outer_acts).sum + (infos.map StateInfo.num_inner_acts).sum := by
  induction infos with
  | nil => rfl
  | cons i infos ih => simp only [List.map_cons, List.sum_cons, ih]; omega

/-- In a quotient system whose classes all have counts that agree with
their action vectors (the sum over the members of
`num_outer_acts + num_inner_acts` is `aops.size()` and the sum of
`num_outer_acts` is `total_num_outer_acts`): the empty system is such a
system; `filter_actions`, for any filter, keeps the number of actions of
every member and the agreement; every system returned by `build_quotient` is
such a system; and the loops of `generate_applicable_actions` and
`get_pruned_ops` stay within `aops` and produce as many actions as their
assertions say. -/
theorem class_counts_invariant [DecidableEq Action] (w : Nat)
    (qs : DefaultQuotientSystem Action) (hc : qs.counts_ok) :
    (∀ ss : StateSpace Action, (init ss).counts_ok) ∧
    (∀ (q : QuotientInformation Action) (filter : List (QuotientAction Action)),
      ((q.filter_actions filter).state_infos.map
          (fun i => (i.state_id, i.num_outer_acts + i.num_inner_acts)) =
        q.state_infos.map (fun i => (i.state_id, i.num_outer_acts + i.num_inner_acts))) ∧
      (q.counts_ok → (q.filter_actions filter).counts_ok)) ∧
    (∀ (submdp : List (Nat × List (QuotientAction Action)))
      (entry : Nat × List (QuotientAction Action)) (qs1 : DefaultQuotientSystem Action),
      build_quotient w qs submdp entry = some qs1 → qs1.counts_ok) ∧
    (∀ (sid : Nat) (info : QuotientInformation Action),
      qs.get_quotient_info w sid = some (some info) →
      reads_in_bounds info.state_infos info.aops.length = true ∧
        (outer_actions info.state_infos info.aops).length = info.total_num_outer_acts ∧
        (inner_actions info.state_infos info.aops).length =
          info.aops.length - info.total_num_outer_acts) := by
  refine ⟨fun ss => counts_init ss, fun q filter => QuotientInformation.filter_actions_counts q filter,
    fun submdp entry qs1 h => counts_build_quotient w qs qs1 submdp entry hc h, ?_⟩
  intro sid info hinfo
  have hci : info.counts_ok := by
    unfold get_quotient_info at hinfo
    simp only at hinfo
    split at hinfo
    · cases hQ : qs.quotients_ (qs.get_masked_state_id sid &&& MASK w) with
      | none => rw [hQ] at hinfo; cases hinfo
      | some q =>
        rw [hQ] at hinfo
        simp only [Option.some.injEq] at hinfo
        subst hinfo
        exact hc _ q hQ
    · cases hinfo
  have hle := le_of_eq hci.1
  refine ⟨reads_in_bounds_of_sum_le _ _ hle, ?_, ?_⟩
  · rw [outer_actions_length _ _ hle, hci.2]
  · rw [inner_actions_length _ _ hle, ← hci.2, ← hci.1, sum_map_add_counts]
    omega

/-- An instance of `class_counts_invariant`: the system with the class of
the states `0` and `1` of the example MDP, built by `build_quotient` with
the inner action `8` of the state `0`. -/
theorem class_counts_invariant_witness :
    ∃ sys, build_quotient 64 (init example_space) [(0, [⟨0, 8⟩]), (1, [])] (0, [⟨0, 8⟩]) =
        some sys ∧ sys.counts_ok ∧
      ∀ (sid : Nat) (info : QuotientInformation Nat),
        sys.get_quotient_info 64 sid = some (some info) →
        reads_in_bounds info.state_infos info.aops.length = true ∧
          (outer_actions info.state_infos info.aops).length = info.total_num_outer_acts ∧
          (inner_actions info.state_infos info.aops).length =
            info.aops.length - info.total_num_outer_acts := by
  obtain ⟨sys, h1, _⟩ :=
    build_quotient_masked 64 (by decide) (init example_space)
      (inv_init 64 example_space) [(0, [⟨0, 8⟩]), (1, [])] (0, [⟨0, 8⟩]) (by decide)
      (by decide) (by decide) (by intro e he; left; revert e he; decide)
  have hc : sys.counts_ok :=
    counts_build_quotient 64 (init example_space) sys _ _ (counts_init example_space) h1
  exact ⟨sys, h1, hc, (class_counts_invariant 64 sys hc).2.2.2⟩

/-- C26 fails on the code after `build_new_quotient` (the defect of C11): on
the fresh system over a base MDP where state `0` has the actions `7, 8` and
state `1` the actions `7, 9`, for the sub-MDP with the inner actions `8` of
state `0` (entry) and `7` of state `1`, the assertions of
`build_new_quotient` hold and the class stored for `0` has the members
`(0, 1, 1)` and `(1, 2, 2)` with four stored actions: the counts add up to
`6`, not to `aops.size() = 4`; the loop of `get_pruned_ops` leaves the
action vector; and `get_pruned_ops` produces `3` actions where its assertion
says `aops.size() - total_num_outer_acts = 1`. -/
theorem build_new_quotient_counts_violated :
    build_new_quotient_assert 64 (init example_space_shared) [(0, [8]), (1, [7])] (0, [8])
        = true ∧
      (build_new_quotient 64 (init example_space_shared) [(0, [8]), (1, [7])]
          (0, [8])).quotients_ 0 =
        some { state_infos := [⟨0, 1, 1⟩, ⟨1, 2, 2⟩], aops := [8, 9, 7, 7],
               total_num_outer_acts := 3 } ∧
      get_quotient_info 64
          (build_new_quotient 64 (init example_space_shared) [(0, [8]), (1, [7])] (0, [8])) 1 =
        some (some { state_infos := [⟨0, 1, 1⟩, ⟨1, 2, 2⟩], aops := [8, 9, 7, 7],
                     total_num_outer_acts := 3 }) ∧
      (([⟨0, 1, 1⟩, ⟨1, 2, 2⟩] : List StateInfo).map
          (fun i => i.num_outer_acts + i.num_inner_acts)).sum = 6 ∧
      ([8, 9, 7, 7] : List Nat).length = 4 ∧
      ¬ QuotientInformation.counts_ok
        ({ state_infos := [⟨0, 1, 1⟩, ⟨1, 2, 2⟩], aops := [8, 9, 7, 7],
           total_num_outer_acts := 3 } : QuotientInformation Nat) ∧
      reads_in_bounds [⟨0, 1, 1⟩, ⟨1, 2, 2⟩] ([8, 9, 7, 7] : List Nat).length = false ∧
      (([⟨0, 1, 1⟩, ⟨1, 2, 2⟩] : List StateInfo).map StateInfo.num_inner_acts).sum = 3 ∧
      ([8, 9, 7, 7] : List Nat).length - 3 = 1 := by
  refine ⟨by decide, by decide, by decide, by decide, by decide, ?_, by decide, by decide,
    by decide⟩
  unfold QuotientInformation.counts_ok
  decide

end DefaultQuotientSystem
end quotients
end probfd

/-! ## Quotient system: merging an existing class -/

namespace probfd
namespace quotients

namespace DefaultQuotientSystem

variable {Action : Type}

theorem outer_actions_append (infos1 infos2 : List StateInfo) :
    ∀ (aops1 aops2 : List Action),
      (infos1.map (fun i => i.num_outer_acts + i.num_inner_acts)).sum = aops1.length →
      outer_actions (infos1 ++ infos2) (aops1 ++ aops2) =
        outer_actions infos1 aops1 ++ outer_actions infos2 aops2 := by
  induction infos1 with
  | nil =>
    intro aops1 aops2 h
    have : aops1 = [] := List.length_eq_zero.1 (by simpa using h.symm)
    subst this
    rfl
  | cons i infos1 ih =>
    intro aops1 aops2 h
    simp only [List.map_cons, List.sum_cons] at h
    rw [List.cons_append]
    simp only [outer_actions]
    rw [List.take_append_of_le_length (by omega), List.drop_append_of_le_length (by omega),
      ih _ _ (by simp only [List.length_drop]; omega), List.append_assoc]

theorem inner_actions_append (infos1 infos2 : List StateInfo) :
    ∀ (aops1 aops2 : List Action),
      (infos1.map (fun i => i.num_outer_acts + i.num_inner_acts)).sum = aops1.length →
      inner_actions (infos1 ++ infos2) (aops1 ++ aops2) =
        inner_actions infos1 aops1 ++ inner_actions infos2 aops2 := by
  induction infos1 with
  | nil =>
    intro aops1 aops2 h
    have : aops1 = [] := List.length_eq_zero.1 (by simpa using h.symm)
    subst this
    rfl
  | cons i infos1 ih =>
    intro aops1 aops2 h
    simp only [List.map_cons, List.sum_cons] at h
    rw [List.cons_append]
    simp only [inner_actions]
    rw [List.drop_append_of_le_length (by omega),
      List.take_append_of_le_length (by simp only [List.length_drop]; omega),
      List.drop_append_of_le_length (by omega),
      ih _ _ (by simp only [List.length_drop]; omega), List.append_assoc]

theorem outer_actions_state_id (infos : List StateInfo) :
    ∀ (aops : List Action) (a : QuotientAction Action), a ∈ outer_actions infos aops →
      a.state_id ∈ infos.map StateInfo.state_id := by
  induction infos with
  | nil => intro aops a h; simp [outer_actions] at h
  | cons i infos ih =>
    intro aops a h
    simp only [outer_actions, List.mem_append, List.mem_map] at h
    rcases h with ⟨x, _, rfl⟩ | h
    · simp
    · exact List.mem_cons_of_mem _ (ih _ a h)

theorem inner_actions_state_id (infos : List StateInfo) :
    ∀ (aops : List Action) (a : QuotientAction Action), a ∈ inner_actions infos aops →
      a.state_id ∈ infos.map StateInfo.state_id := by
  induction infos with
  | nil => intro aops a h; simp [inner_actions] at h
  | cons i infos ih =>
    intro aops a h
    simp only [inner_actions, List.mem_append, List.mem_map] at h
    rcases h with ⟨x, _, rfl⟩ | h
    · simp
    · exact List.mem_cons_of_mem _ (ih _ a h)

end DefaultQuotientSystem

namespace QuotientInformation

variable {Action : Type}

open DefaultQuotientSystem

/-- The loop of `filter_actions` on counts that fit into the action vector:
the outer actions afterwards are the former outer actions that the filter
does not name, in order; the inner actions afterwards are the former outer
actions that the filter names together with the former inner actions. -/
theorem filter_loop_actions [DecidableEq Action] (filter : List (QuotientAction Action))
    (infos : List StateInfo) :
    ∀ (aops : List Action) (total : Nat),
      (infos.map (fun i => i.num_outer_acts + i.num_inner_acts)).sum ≤ aops.length →
      outer_actions (filter_loop filter infos aops total).1
          (filter_loop filter infos aops total).2.1 =
        (outer_actions infos aops).filter (fun a => !(filter.contains a)) ∧
      (inner_actions (filter_loop filter infos aops total).1
          (filter_loop filter infos aops total).2.1).Perm
        ((outer_actions infos aops).filter (fun a => filter.contains a) ++
          inner_actions infos aops) := by
  induction infos with
  | nil => intro aops total _; simp [filter_loop, outer_actions, inner_actions]
  | cons info infos ih =>
    intro aops total hle
    simp only [List.map_cons, List.sum_cons] at hle
    obtain ⟨ih1, ih2⟩ := ih (aops.drop (info.num_outer_acts + info.num_inner_acts))
      (total + ((aops.take info.num_outer_acts).filter
        (fun a => !(filter.contains ⟨info.state_id, a⟩))).length)
      (by simp only [List.length_drop]; omega)
    have hk : ((aops.take info.num_outer_acts).filter
        (fun a => !(filter.contains ⟨info.state_id, a⟩))).length ≤ info.num_outer_acts :=
      le_trans (List.length_filter_le _ _) (List.length_take_le _ _)
    have hlen := length_filter_not (fun a => !(filter.contains ⟨info.state_id, a⟩))
      (aops.take info.num_outer_acts)
    simp only [Bool.not_not, List.length_take] at hlen
    have hblock : ((aops.take info.num_outer_acts).filter
          (fun a => !(filter.contains ⟨info.state_id, a⟩)) ++
        (aops.take info.num_outer_acts).filter
          (fun a => filter.contains ⟨info.state_id, a⟩) ++
        (aops.drop info.num_outer_acts).take info.num_inner_acts).length =
        ((aops.take info.num_outer_acts).filter
          (fun a => !(filter.contains ⟨info.state_id, a⟩))).length +
          (info.num_outer_acts + info.num_inner_acts -
            ((aops.take info.num_outer_acts).filter
              (fun a => !(filter.contains ⟨info.state_id, a⟩))).length) := by
      simp only [List.length_append, List.length_take, List.length_drop]
      omega
    have hmi : ((aops.take info.num_outer_acts).filter
          (fun a => filter.contains ⟨info.state_id, a⟩) ++
        (aops.drop info.num_outer_acts).take info.num_inner_acts).length =
        info.num_outer_acts + info.num_inner_acts -
            ((aops.take info.num_outer_acts).filter
              (fun a => !(filter.contains ⟨info.state_id, a⟩))).length := by
      simp only [List.length_append, List.length_take, List.length_drop]
      omega
    set K := (aops.take info.num_outer_acts).filter
      (fun a => !(filter.contains ⟨info.state_id, a⟩)) with hK
    set M := (aops.take info.num_outer_acts).filter
      (fun a => filter.contains ⟨info.state_id, a⟩) with hM
    set I := (aops.drop info.num_outer_acts).take info.num_inner_acts with hI
    set R := filter_loop filter infos (aops.drop (info.num_outer_acts + info.num_inner_acts))
      (total + K.length) with hR
    have hloop : filter_loop filter (info :: infos) aops total =
        ({ state_id := info.state_id, num_outer_acts := K.length,
           num_inner_acts := info.num_outer_acts + info.num_inner_acts - K.length } :: R.1,
         K ++ M ++ I ++ R.2.1, R.2.2) := rfl
    have hA : (K ++ M ++ I ++ R.2.1).take K.length = K := by
      rw [List.append_assoc, List.append_assoc, List.take_left]
    have hB : (K ++ M ++ I ++ R.2.1).drop K.length = M ++ I ++ R.2.1 := by
      rw [List.append_assoc, List.append_assoc, List.drop_left, List.append_assoc]
    have hC : (M ++ I ++ R.2.1).take
        (info.num_outer_acts + info.num_inner_acts - K.length) = M ++ I :=
      List.take_left' hmi
    have hD : (K ++ M ++ I ++ R.2.1).drop
        (K.length + (info.num_outer_acts + info.num_inner_acts - K.length)) = R.2.1 :=
      List.drop_left' hblock
    have hFK : ((aops.take info.num_outer_acts).map
        (fun a => ({ state_id := info.state_id, action := a } : QuotientAction Action))).filter
          (fun a => !(filter.contains a)) =
        K.map (fun a => ({ state_id := info.state_id, action := a } : QuotientAction Action)) := by
      rw [List.filter_map]; rfl
    have hFM : ((aops.take info.num_outer_acts).map
        (fun a => ({ state_id := info.state_id, action := a } : QuotientAction Action))).filter
          (fun a => filter.contains a) =
        M.map (fun a => ({ state_id := info.state_id, action := a } : QuotientAction Action)) := by
      rw [List.filter_map]; rfl
    rw [hloop]
    constructor
    · simp only [outer_actions]
      rw [hA, hD, ih1, List.filter_append, hFK]
    · simp only [outer_actions, inner_actions]
      rw [hB, hC, hD, List.filter_append, hFM, List.map_append, List.append_assoc,
        List.append_assoc]
      apply List.Perm.append_left
      exact (List.Perm.append_left _ ih2).trans (List.perm_append_comm_assoc _ _ _)

/-- The method `filter_actions` on a class whose counts agree with its
action vector: the outer actions afterwards are the former outer actions
that the filter does not name; the inner actions afterwards are the former
outer actions that the filter names together with the former inner
actions. -/
theorem filter_actions_actions [DecidableEq Action] (q : QuotientInformation Action)
    (filter : List (QuotientAction Action)) (hc : q.counts_ok) :
    outer_actions (q.filter_actions filter).state_infos (q.filter_actions filter).aops =
        (outer_actions q.state_infos q.aops).filter (fun a => !(filter.contains a)) ∧
      (inner_actions (q.filter_actions filter).state_infos (q.filter_actions filter).aops).Perm
        ((outer_actions q.state_infos q.aops).filter (fun a => filter.contains a) ++
          inner_actions q.state_infos q.aops) := by
  unfold filter_actions
  by_cases hE : filter.isEmpty = true
  · have hnil : filter = [] := List.isEmpty_iff.1 hE
    subst hnil
    simp
  · simp only [hE, Bool.false_eq_true, if_false]
    exact filter_loop_actions filter q.state_infos q.aops 0 (le_of_eq hc.1)

end QuotientInformation
end quotients
end probfd

namespace probfd
namespace quotients
namespace DefaultQuotientSystem

variable {Action : Type}

/-- One iteration of the loop of `build_quotient`, for a listed state below
`2^(w-1)` that is in no class or represents its own class: the class of the
representative receives the block of the listed state, the class of the
listed state (if any) is erased, and every other class is untouched. -/
theorem build_quotient_step_blocks [DecidableEq Action] (w : Nat) (hw : 0 < w) (rid : Nat)
    (qs : DefaultQuotientSystem Action) (hinv : Inv w qs)
    (e : Nat × List (QuotientAction Action)) (hne : e.1 ≠ rid) (hlt : e.1 < 2 ^ (w - 1))
    (hrep : qs.get_masked_state_id e.1 &&& FLAG w = 0 ∨
      qs.get_masked_state_id e.1 = e.1 ||| FLAG w)
    (qinfo : QuotientInformation Action) (hQ : qs.quotients_ rid = some qinfo)
    (qs1 : DefaultQuotientSystem Action) (hs : build_quotient_step w rid qs e = some qs1) :
    qs1.quotients_ rid = some (qinfo.append (listed_block w qs e)) ∧
      ∀ r, r ≠ rid → qs1.quotients_ r = if r = e.1 then none else qs.quotients_ r := by
  rcases hrep with hflag | hrep
  · have hnone := inv_no_class_of_unflagged w hw qs hinv e.1 hflag
    have hstep : build_quotient_step w rid qs e = some
        { quotients_ := Function.update qs.quotients_ rid
            (some (add_state qs.state_space_ qinfo e.1 e.2)),
          quotient_ids_ := set_masked_ids w qs.quotient_ids_ e.1 rid,
          state_space_ := qs.state_space_ } := by
      simp [build_quotient_step, hne, hQ, hflag]
    rw [hstep] at hs
    cases hs
    constructor
    · show Function.update qs.quotients_ rid _ rid = _
      rw [Function.update_same, QuotientInformation.add_state_append]
      simp [listed_block, hflag]
    · intro r hr
      show Function.update qs.quotients_ rid _ r = _
      rw [Function.update_noteq hr]
      by_cases hre : r = e.1
      · rw [if_pos hre, hre, hnone]
      · rw [if_neg hre]
  · obtain ⟨q0, hQ0, _⟩ := inv_rep_class w hw qs hinv e.1 hlt hrep
    have hf : qs.get_masked_state_id e.1 &&& FLAG w ≠ 0 := by
      rw [hrep]; exact or_FLAG_and_FLAG w e.1 hw
    have hm : qs.get_masked_state_id e.1 &&& MASK w = e.1 := by
      rw [hrep]; exact or_FLAG_and_MASK w e.1 hw hlt
    have hstep : build_quotient_step w rid qs e = some
        { quotients_ := Function.update (Function.update qs.quotients_ rid
            (some
              { state_infos := qinfo.state_infos ++ (q0.filter_actions e.2).state_infos,
                aops := qinfo.aops ++ (q0.filter_actions e.2).aops,
                total_num_outer_acts :=
                  qinfo.total_num_outer_acts + (q0.filter_actions e.2).total_num_outer_acts }))
            e.1 none,
          quotient_ids_ :=
            (q0.filter_actions e.2).state_infos.foldl
              (fun ids p => set_masked_ids w ids p.state_id rid) qs.quotient_ids_,
          state_space_ := qs.state_space_ } := by
      simp [build_quotient_step, hne, hQ, hf, hm, hQ0]
    rw [hstep] at hs
    cases hs
    constructor
    · show Function.update (Function.update qs.quotients_ rid _) e.1 none rid = _
      rw [Function.update_noteq (Ne.symm hne), Function.update_same]
      simp [listed_block, hf, hm, hQ0, QuotientInformation.append]
    · intro r hr
      show Function.update (Function.update qs.quotients_ rid _) e.1 none r = _
      by_cases hre : r = e.1
      · rw [if_pos hre, hre, Function.update_same]
      · rw [if_neg hre, Function.update_noteq hre, Function.update_noteq hr]

/-- The block of a listed state depends on the masked id of the state, on
the class it points to and on the base state space only. -/
theorem listed_block_congr [DecidableEq Action] (w : Nat)
    (qs qs2 : DefaultQuotientSystem Action) (e : Nat × List (QuotientAction Action))
    (hss : qs2.state_space_ = qs.state_space_)
    (hg : qs2.get_masked_state_id e.1 = qs.get_masked_state_id e.1)
    (hq : qs.get_masked_state_id e.1 &&& FLAG w ≠ 0 →
      qs2.quotients_ (qs.get_masked_state_id e.1 &&& MASK w) =
        qs.quotients_ (qs.get_masked_state_id e.1 &&& MASK w)) :
    listed_block w qs2 e = listed_block w qs e := by
  unfold listed_block
  rw [hg, hss]
  by_cases hf : qs.get_masked_state_id e.1 &&& FLAG w ≠ 0
  · rw [if_pos hf, if_pos hf, hq hf]
  · rw [if_neg hf, if_neg hf]

/-- The loop of `build_quotient` over listed states that are pairwise
distinct, below `2^(w-1)`, and each in no class or representing its own
class: the class of the representative receives the blocks of the listed
states other than the representative, in order; their classes are erased
and every other class is untouched. -/
theorem build_quotient_loop_blocks [DecidableEq Action] (w : Nat) (hw : 0 < w) (rid : Nat)
    (hrid : rid < 2 ^ (w - 1)) (l : List (Nat × List (QuotientAction Action))) :
    ∀ (qs : DefaultQuotientSystem Action) (qinfo : QuotientInformation Action), Inv w qs →
      qs.get_masked_state_id rid = rid ||| FLAG w →
      (l.map Prod.fst).Nodup →
      (∀ e ∈ l, e.1 < 2 ^ (w - 1)) →
      (∀ e ∈ l, e.1 ≠ rid → (qs.get_masked_state_id e.1 &&& FLAG w = 0 ∨
        qs.get_masked_state_id e.1 = e.1 ||| FLAG w)) →
      qs.quotients_ rid = some qinfo →
      ∃ qs1, build_quotient_loop w rid qs l = some qs1 ∧
        qs1.quotients_ rid = some
          (((l.filter (fun e => decide (e.1 ≠ rid))).map (listed_block w qs)).foldl
            QuotientInformation.append qinfo) ∧
        ∀ r, r ≠ rid → qs1.quotients_ r =
          if r ∈ (l.filter (fun e => decide (e.1 ≠ rid))).map Prod.fst then none
          else qs.quotients_ r := by
  induction l with
  | nil =>
    intro qs qinfo _ _ _ _ _ hQ
    exact ⟨qs, rfl, by simpa using hQ, by intro r _; simp⟩
  | cons e rest ih =>
    intro qs qinfo hinv hridrep hnd hlt hrep hQ
    have hnd1 : e.1 ∉ rest.map Prod.fst := (List.nodup_cons.1 hnd).1
    have hnd2 : (rest.map Prod.fst).Nodup := (List.nodup_cons.1 hnd).2
    by_cases hne : e.1 = rid
    · obtain ⟨qs1, h1, h2, h3⟩ := ih qs qinfo hinv hridrep hnd2
        (fun e1 he1 => hlt e1 (List.mem_cons_of_mem _ he1))
        (fun e1 he1 => hrep e1 (List.mem_cons_of_mem _ he1)) hQ
      have hfil : (e :: rest).filter (fun e => decide (e.1 ≠ rid)) =
          rest.filter (fun e => decide (e.1 ≠ rid)) := by
        rw [List.filter_cons, if_neg (by simp [hne])]
      rw [hfil]
      refine ⟨qs1, ?_, h2, h3⟩
      simp only [build_quotient_loop, build_quotient_step, hne, if_true]
      exact h1
    · have hlte := hlt e (List.mem_cons_self _ _)
      have hrepe := hrep e (List.mem_cons_self _ _) hne
      obtain ⟨qs2, hs1, hs2, hs3, hs4, hs5⟩ :=
        build_quotient_step_spec w hw rid qs hinv hrid hridrep e hne hlte hrepe
      obtain ⟨hb1, hb2⟩ := build_quotient_step_blocks w hw rid qs hinv e hne hlte hrepe
        qinfo hQ qs2 hs1
      have hrid1 : qs2.get_masked_state_id rid = rid ||| FLAG w := by
        by_cases hc : (rid = e.1 ∨ (rid < 2 ^ (w - 1) ∧
            qs.get_masked_state_id rid = e.1 ||| FLAG w))
        · exact hs4 rid hc
        · rw [hs5 rid hc]; exact hridrep
      have hkeep : ∀ e1 ∈ rest, e1.1 ≠ rid →
          qs2.get_masked_state_id e1.1 = qs.get_masked_state_id e1.1 := by
        intro e1 he1 hne1
        apply hs5
        have hdiff : e1.1 ≠ e.1 := by
          intro h
          exact hnd1 (h ▸ List.mem_map_of_mem Prod.fst he1)
        rintro (h | ⟨ht, hg⟩)
        · exact hdiff h
        · rcases hrep e1 (List.mem_cons_of_mem _ he1) hne1 with hf | hr
          · rw [hg] at hf; exact or_FLAG_and_FLAG w e.1 hw hf
          · exact hdiff (or_FLAG_inj w e1.1 e.1 hw ht hlte (hr.symm.trans hg))
      obtain ⟨qs1, h1, h2, h3⟩ := ih qs2 _ hs2 hrid1 hnd2
        (fun e1 he1 => hlt e1 (List.mem_cons_of_mem _ he1))
        (fun e1 he1 hne1 => by
          rw [hkeep e1 he1 hne1]; exact hrep e1 (List.mem_cons_of_mem _ he1) hne1)
        hb1
      have hblocks : (rest.filter (fun e => decide (e.1 ≠ rid))).map (listed_block w qs2) =
          (rest.filter (fun e => decide (e.1 ≠ rid))).map (listed_block w qs) := by
        apply List.map_congr_left
        intro e1 he1
        have he1r : e1 ∈ rest := (List.mem_filter.1 he1).1
        have hne1 : e1.1 ≠ rid := by simpa using (List.mem_filter.1 he1).2
        have hdiff : e1.1 ≠ e.1 := by
          intro h
          exact hnd1 (h ▸ List.mem_map_of_mem Prod.fst he1r)
        apply listed_block_congr w qs qs2 e1 hs3 (hkeep e1 he1r hne1)
        intro hf
        rcases hrep e1 (List.mem_cons_of_mem _ he1r) hne1 with hf0 | hr
        · exact absurd hf0 hf
        · rw [hr, or_FLAG_and_MASK w e1.1 hw (hlt e1 (List.mem_cons_of_mem _ he1r)),
            hb2 e1.1 hne1, if_neg hdiff]
      have hfil : (e :: rest).filter (fun e => decide (e.1 ≠ rid)) =
          e :: rest.filter (fun e => decide (e.1 ≠ rid)) := by
        rw [List.filter_cons, if_pos (by simpa using hne)]
      rw [hfil]
      refine ⟨qs1, ?_, ?_, ?_⟩
      · simp only [build_quotient_loop, hs1]
        exact h1
      · rw [h2, hblocks]
        rfl
      · intro r hr
        rw [h3 r hr, hb2 r hr]
        by_cases hre : r = e.1
        · simp [hre]
        · rw [if_neg hre]
          simp only [List.map_cons, List.mem_cons, hre, false_or]

end DefaultQuotientSystem
end quotients
end probfd

namespace probfd
namespace quotients
namespace DefaultQuotientSystem

variable {Action : Type}

/-- The members of the class of a listed state, and the state itself, are
not members of the class of another listed state. -/
theorem class_disjoint_listed (w : Nat) (hw : 0 < w) (qs : DefaultQuotientSystem Action)
    (hinv : Inv w qs) (s t : Nat) (hs : s < 2 ^ (w - 1)) (ht : t < 2 ^ (w - 1)) (hst : s ≠ t)
    (hrep : qs.get_masked_state_id s &&& FLAG w = 0 ∨
      qs.get_masked_state_id s = s ||| FLAG w)
    (Q : QuotientInformation Action) (hQ : qs.quotients_ t = some Q) (m : Nat)
    (hm : m = s ∨ ∃ q, qs.quotients_ s = some q ∧ m ∈ q.states) : m ∉ Q.states := by
  intro hmQ
  have hg := ((hinv.classes t Q hQ).2.2 m hmQ).2
  rcases hm with rfl | ⟨q, hq, hmq⟩
  · rcases hrep with hf | hr
    · rw [hg] at hf; exact or_FLAG_and_FLAG w t hw hf
    · exact hst (or_FLAG_inj w m t hw hs ht (hr.symm.trans hg))
  · have hg2 := ((hinv.classes s q hq).2.2 m hmq).2
    exact hst (or_FLAG_inj w s t hw hs ht (hg2.symm.trans hg))

/-- The block of a listed state that is in no class or represents its own
class: its counts agree with its action vector, it has as many members as
`quotient_size` gives for the state, and its members are the state or
members of the class of the state. -/
theorem listed_block_facts [DecidableEq Action] (w : Nat) (hw : 0 < w)
    (qs : DefaultQuotientSystem Action) (hinv : Inv w qs) (hc : qs.counts_ok)
    (e : Nat × List (QuotientAction Action)) (hlt : e.1 < 2 ^ (w - 1))
    (hrep : qs.get_masked_state_id e.1 &&& FLAG w = 0 ∨
      qs.get_masked_state_id e.1 = e.1 ||| FLAG w) :
    (listed_block w qs e).counts_ok ∧
      quotient_size w qs e.1 = some ((listed_block w qs e).state_infos.length % 2 ^ 32) ∧
      (∀ m ∈ (listed_block w qs e).states,
        m = e.1 ∨ ∃ q, qs.quotients_ e.1 = some q ∧ m ∈ q.states) ∧
      (∀ Q, qs.quotients_ e.1 = some Q → listed_block w qs e = Q.filter_actions e.2) := by
  rcases hrep with hflag | hrep
  · have hnone := inv_no_class_of_unflagged w hw qs hinv e.1 hflag
    have hb : listed_block w qs e = add_state qs.state_space_ {} e.1 e.2 := by
      simp [listed_block, hflag]
    rw [hb]
    refine ⟨QuotientInformation.add_state_counts _ _ _ _ QuotientInformation.empty_counts,
      ?_, ?_, ?_⟩
    · rw [add_state_eq]
      simp [quotient_size, get_quotient_info, hflag]
    · intro m hm
      rw [add_state_states] at hm
      left
      simpa [QuotientInformation.states] using hm
    · intro Q hQ; rw [hnone] at hQ; cases hQ
  · obtain ⟨q0, hQ0, _⟩ := inv_rep_class w hw qs hinv e.1 hlt hrep
    have hf : qs.get_masked_state_id e.1 &&& FLAG w ≠ 0 := by
      rw [hrep]; exact or_FLAG_and_FLAG w e.1 hw
    have hm : qs.get_masked_state_id e.1 &&& MASK w = e.1 := by
      rw [hrep]; exact or_FLAG_and_MASK w e.1 hw hlt
    have hb : listed_block w qs e = q0.filter_actions e.2 := by
      simp [listed_block, hf, hm, hQ0]
    rw [hb]
    have hst := filter_actions_states q0 e.2
    refine ⟨(QuotientInformation.filter_actions_counts q0 e.2).2 (hc _ q0 hQ0), ?_, ?_, ?_⟩
    · have hl : (q0.filter_actions e.2).state_infos.length = q0.state_infos.length := by
        have := congrArg List.length hst
        simpa [QuotientInformation.states] using this
      simp [quotient_size, get_quotient_info, hf, hm, hQ0, hl]
    · intro m hm1
      rw [hst] at hm1
      exact Or.inr ⟨q0, hQ0, hm1⟩
    · intro Q hQ; rw [hQ0] at hQ; cases hQ; rfl

/-- The part of `build_quotient` before the loop, for a representative that
is in no class or represents its own class: the class stored for it has
counts that agree with its action vector, as many members as
`quotient_size` gave for the representative, and as members the
representative or members of its former class; every other class is
untouched. -/
theorem build_quotient_entry_blocks [DecidableEq Action] (w : Nat) (hw : 0 < w)
    (qs : DefaultQuotientSystem Action) (hinv : Inv w qs) (hc : qs.counts_ok)
    (entry : Nat × List (QuotientAction Action)) (hlt : entry.1 < 2 ^ (w - 1))
    (hrep : qs.get_masked_state_id entry.1 &&& FLAG w = 0 ∨
      qs.get_masked_state_id entry.1 = entry.1 ||| FLAG w) :
    ∃ X, (build_quotient_entry w qs entry).quotients_ entry.1 = some X ∧
      (∀ r, r ≠ entry.1 → (build_quotient_entry w qs entry).quotients_ r = qs.quotients_ r) ∧
      X.counts_ok ∧
      quotient_size w qs entry.1 = some (X.state_infos.length % 2 ^ 32) ∧
      (∀ m ∈ X.states, m = entry.1 ∨ ∃ q, qs.quotients_ entry.1 = some q ∧ m ∈ q.states) := by
  rcases hrep with hflag | hrep
  · have hnone := inv_no_class_of_unflagged w hw qs hinv entry.1 hflag
    have hqe : build_quotient_entry w qs entry =
        { quotients_ := Function.update qs.quotients_ entry.1
            (some (add_state qs.state_space_ {} entry.1 entry.2)),
          quotient_ids_ := set_masked_ids w qs.quotient_ids_ entry.1 entry.1,
          state_space_ := qs.state_space_ } := by
      simp [build_quotient_entry, hnone]
    rw [hqe]
    refine ⟨_, Function.update_same _ _ _, fun r hr => Function.update_noteq hr _ _,
      QuotientInformation.add_state_counts _ _ _ _ QuotientInformation.empty_counts, ?_, ?_⟩
    · rw [add_state_eq]
      simp [quotient_size, get_quotient_info, hflag]
    · intro m hm
      rw [add_state_states] at hm
      left
      simpa [QuotientInformation.states] using hm
  · obtain ⟨q0, hQ0, hmem0⟩ := inv_rep_class w hw qs hinv entry.1 hlt hrep
    have hf : qs.get_masked_state_id entry.1 &&& FLAG w ≠ 0 := by
      rw [hrep]; exact or_FLAG_and_FLAG w entry.1 hw
    have hm : qs.get_masked_state_id entry.1 &&& MASK w = entry.1 := by
      rw [hrep]; exact or_FLAG_and_MASK w entry.1 hw hlt
    have hne : q0.state_infos.isEmpty = false := by
      cases hsi : q0.state_infos with
      | nil => simp [QuotientInformation.states, hsi] at hmem0
      | cons a l => rfl
    have hqe : build_quotient_entry w qs entry =
        { quotients_ := Function.update qs.quotients_ entry.1
            (some (q0.filter_actions entry.2)),
          quotient_ids_ := qs.quotient_ids_,
          state_space_ := qs.state_space_ } := by
      simp [build_quotient_entry, hQ0, hne]
    rw [hqe]
    have hst := filter_actions_states q0 entry.2
    refine ⟨_, Function.update_same _ _ _, fun r hr => Function.update_noteq hr _ _,
      (QuotientInformation.filter_actions_counts q0 entry.2).2 (hc _ q0 hQ0), ?_, ?_⟩
    · have hl : (q0.filter_actions entry.2).state_infos.length = q0.state_infos.length := by
        have := congrArg List.length hst
        simpa [QuotientInformation.states] using this
      simp [quotient_size, get_quotient_info, hf, hm, hQ0, hl]
    · intro m hm1
      rw [hst] at hm1
      exact Or.inr ⟨q0, hQ0, hm1⟩

/-- The class obtained by appending blocks whose counts agree with their
action vectors: its counts agree, its members, outer actions and inner
actions are those of the blocks in order. -/
theorem foldl_append_blocks (bs : List (QuotientInformation Action)) :
    ∀ X : QuotientInformation Action, X.counts_ok → (∀ b ∈ bs, b.counts_ok) →
      (bs.foldl QuotientInformation.append X).counts_ok ∧
      (bs.foldl QuotientInformation.append X).state_infos.length =
        X.state_infos.length + (bs.map (fun b => b.state_infos.length)).sum ∧
      outer_actions (bs.foldl QuotientInformation.append X).state_infos
          (bs.foldl QuotientInformation.append X).aops =
        outer_actions X.state_infos X.aops ++
          bs.flatMap (fun b => outer_actions b.state_infos b.aops) ∧
      inner_actions (bs.foldl QuotientInformation.append X).state_infos
          (bs.foldl QuotientInformation.append X).aops =
        inner_actions X.state_infos X.aops ++
          bs.flatMap (fun b => inner_actions b.state_infos b.aops) := by
  induction bs with
  | nil => intro X hX _; simp [hX]
  | cons b bs ih =>
    intro X hX hbs
    have hb := hbs b (List.mem_cons_self _ _)
    obtain ⟨h1, h2, h3, h4⟩ := ih (X.append b) (QuotientInformation.append_counts X b hX hb)
      (fun c hc => hbs c (List.mem_cons_of_mem _ hc))
    rw [List.foldl_cons]
    refine ⟨h1, ?_, ?_, ?_⟩
    · rw [h2]; simp [QuotientInformation.append]; omega
    · rw [h3]
      simp only [QuotientInformation.append, List.flatMap_cons]
      rw [outer_actions_append _ _ _ _ hX.1, List.append_assoc]
    · rw [h4]
      simp only [QuotientInformation.append, List.flatMap_cons]
      rw [inner_actions_append _ _ _ _ hX.1, List.append_assoc]

theorem filter_flatMap_single {α β : Type} (l : List α) (e : α) (f : α → List β)
    (p : β → Bool) (hnd : l.Nodup) (he : e ∈ l) (hself : (f e).filter p = f e)
    (hother : ∀ x ∈ l, x ≠ e → (f x).filter p = []) : (l.flatMap f).filter p = f e := by
  induction l with
  | nil => simp at he
  | cons a l ih =>
    have hnd1 := (List.nodup_cons.1 hnd).1
    have hnd2 := (List.nodup_cons.1 hnd).2
    rw [List.flatMap_cons, List.filter_append]
    by_cases hae : a = e
    · subst hae
      have hrest : (l.flatMap f).filter p = [] := by
        rw [List.filter_eq_nil_iff]
        intro b hb
        rw [List.mem_flatMap] at hb
        obtain ⟨x, hx, hbx⟩ := hb
        have hxa : x ≠ a := fun h => hnd1 (h ▸ hx)
        have := hother x (List.mem_cons_of_mem _ hx) hxa
        rw [List.filter_eq_nil_iff] at this
        exact this b hbx
      rw [hself, hrest, List.append_nil]
    · have hel : e ∈ l := by
        rcases List.mem_cons.1 he with h | h
        · exact absurd h.symm hae
        · exact h
      rw [hother a (List.mem_cons_self _ _) hae, List.nil_append]
      exact ih hnd2 hel (fun x hx hxe => hother x (List.mem_cons_of_mem _ hx) hxe)

end DefaultQuotientSystem
end quotients
end probfd

namespace probfd
namespace quotients
namespace DefaultQuotientSystem

variable {Action : Type}

/-- The class stored for the representative after `build_quotient` on listed
states that are pairwise distinct, below `2^(w-1)`, and each in no class or
representing its own class: the class of the entry followed by the blocks
of the other listed states, in order; the classes of the other listed
states are erased. -/
theorem build_quotient_blocks [DecidableEq Action] (w : Nat) (hw : 0 < w)
    (qs : DefaultQuotientSystem Action) (hinv : Inv w qs) (hc : qs.counts_ok)
    (submdp : List (Nat × List (QuotientAction Action)))
    (entry : Nat × List (QuotientAction Action)) (hentry : entry ∈ submdp)
    (hnodup : (submdp.map Prod.fst).Nodup)
    (hlt : ∀ e ∈ submdp, e.1 < 2 ^ (w - 1))
    (hrep : ∀ e ∈ submdp, qs.get_masked_state_id e.1 &&& FLAG w = 0 ∨
      qs.get_masked_state_id e.1 = e.1 ||| FLAG w) :
    ∃ qs1 X, build_quotient w qs submdp entry = some qs1 ∧
      X.counts_ok ∧
      quotient_size w qs entry.1 = some (X.state_infos.length % 2 ^ 32) ∧
      (∀ m ∈ X.states, m = entry.1 ∨ ∃ q, qs.quotients_ entry.1 = some q ∧ m ∈ q.states) ∧
      get_quotient_info w qs1 entry.1 = some (some
        (((submdp.filter (fun e => decide (e.1 ≠ entry.1))).map (listed_block w qs)).foldl
          QuotientInformation.append X)) ∧
      ∀ e ∈ submdp, e.1 ≠ entry.1 → qs1.quotients_ e.1 = none := by
  have hrid := hlt entry hentry
  obtain ⟨qs1, h1, _, _, h4, _, _⟩ :=
    build_quotient_masked w hw qs hinv submdp entry hentry hnodup hlt hrep
  obtain ⟨hi, hss, hge⟩ :=
    build_quotient_entry_spec w hw qs hinv entry hrid (hrep entry hentry)
  obtain ⟨X, hX1, hX2, hX3, hX4, hX5⟩ :=
    build_quotient_entry_blocks w hw qs hinv hc entry hrid (hrep entry hentry)
  have hgrid : (build_quotient_entry w qs entry).get_masked_state_id entry.1 =
      entry.1 ||| FLAG w := by rw [hge, if_pos rfl]
  obtain ⟨qs2, k1, k2, k3⟩ := build_quotient_loop_blocks w hw entry.1 hrid submdp
    (build_quotient_entry w qs entry) X hi hgrid hnodup hlt
    (fun e he hne => by rw [hge, if_neg hne]; exact hrep e he) hX1
  have hsame : qs2 = qs1 := by
    have h1' : build_quotient_loop w entry.1 (build_quotient_entry w qs entry) submdp =
        some qs1 := h1
    rw [k1] at h1'
    exact Option.some.inj h1'
  subst hsame
  have hblocks : (submdp.filter (fun e => decide (e.1 ≠ entry.1))).map
        (listed_block w (build_quotient_entry w qs entry)) =
      (submdp.filter (fun e => decide (e.1 ≠ entry.1))).map (listed_block w qs) := by
    apply List.map_congr_left
    intro e1 he1
    have he1s : e1 ∈ submdp := (List.mem_filter.1 he1).1
    have hne1 : e1.1 ≠ entry.1 := by simpa using (List.mem_filter.1 he1).2
    apply listed_block_congr w qs _ e1 hss (by rw [hge, if_neg hne1])
    intro hf
    rcases hrep e1 he1s with hf0 | hr
    · exact absurd hf0 hf
    · rw [hr, or_FLAG_and_MASK w e1.1 hw (hlt e1 he1s)]
      exact hX2 e1.1 hne1
  rw [hblocks] at k2
  refine ⟨qs2, X, h1, hX3, hX4, hX5, ?_, ?_⟩
  · have hf : (entry.1 ||| FLAG w) &&& FLAG w ≠ 0 := or_FLAG_and_FLAG w entry.1 hw
    simp only [get_quotient_info, h4 entry hentry, hf, ne_eq, not_false_eq_true, if_true,
      or_FLAG_and_MASK w entry.1 hw hrid, k2]
  · intro e he hne
    rw [k3 e.1 hne, if_pos]
    exact List.mem_map_of_mem Prod.fst (List.mem_filter.2 ⟨he, by simpa using hne⟩)

/-- The method `build_quotient(submdp, entry)` on a system that satisfies
the representation invariant and whose counts agree with the action
vectors, for listed states that are pairwise distinct, below `2^(w-1)`, and
each in no class or representing its own class. If the listed state `e`,
other than the entry state, represents the class `Q`, then after the call
`Q` is no longer stored; the class of the entry state has its former `n0`
members and those of the blocks of the other listed states, of which the
one of `e` has the members of `Q`, and `quotient_size` gives these numbers
modulo `2^32`; the applicable actions of the new class that belong to
members of `Q` are the former outer actions of `Q` that the listed inner
actions of `e` do not name, in order; and the pruned actions of the new
class that belong to members of `Q` are the former outer actions of `Q`
that the listed inner actions name together with the former pruned actions
of `Q`. -/
theorem build_quotient_merges_class [DecidableEq Action] (w : Nat) (hw : 0 < w)
    (qs : DefaultQuotientSystem Action) (hinv : Inv w qs) (hc : qs.counts_ok)
    (submdp : List (Nat × List (QuotientAction Action)))
    (entry : Nat × List (QuotientAction Action)) (hentry : entry ∈ submdp)
    (hnodup : (submdp.map Prod.fst).Nodup)
    (hlt : ∀ e ∈ submdp, e.1 < 2 ^ (w - 1))
    (hrep : ∀ e ∈ submdp, qs.get_masked_state_id e.1 &&& FLAG w = 0 ∨
      qs.get_masked_state_id e.1 = e.1 ||| FLAG w)
    (e : Nat × List (QuotientAction Action)) (he : e ∈ submdp) (hne : e.1 ≠ entry.1)
    (Q : QuotientInformation Action) (hQ : qs.quotients_ e.1 = some Q) :
    ∃ qs1 acts pruned n0, build_quotient w qs submdp entry = some qs1 ∧
      qs1.quotients_ e.1 = none ∧
      quotient_size w qs e.1 = some (Q.state_infos.length % 2 ^ 32) ∧
      (listed_block w qs e).state_infos.length = Q.state_infos.length ∧
      quotient_size w qs entry.1 = some (n0 % 2 ^ 32) ∧
      quotient_size w qs1 entry.1 = some ((n0 +
        ((submdp.filter (fun e1 => decide (e1.1 ≠ entry.1))).map
          (fun e1 => (listed_block w qs e1).state_infos.length)).sum) % 2 ^ 32) ∧
      generate_applicable_actions w qs1 entry.1 [] = some acts ∧
      get_pruned_ops w qs1 entry.1 [] = some pruned ∧
      acts.filter (fun a => decide (a.state_id ∈ Q.states)) =
        (outer_actions Q.state_infos Q.aops).filter (fun a => !(e.2.contains a)) ∧
      (pruned.filter (fun a => decide (a.state_id ∈ Q.states))).Perm
        ((outer_actions Q.state_infos Q.aops).filter (fun a => e.2.contains a) ++
          inner_actions Q.state_infos Q.aops) := by
  obtain ⟨qs1, X, h1, hX3, hX4, hX5, hinfo, herased⟩ :=
    build_quotient_blocks w hw qs hinv hc submdp entry hentry hnodup hlt hrep
  have hfacts : ∀ e1 ∈ submdp.filter (fun e1 => decide (e1.1 ≠ entry.1)),
      (listed_block w qs e1).counts_ok ∧
        quotient_size w qs e1.1 = some ((listed_block w qs e1).state_infos.length % 2 ^ 32) ∧
        (∀ m ∈ (listed_block w qs e1).states,
          m = e1.1 ∨ ∃ q, qs.quotients_ e1.1 = some q ∧ m ∈ q.states) ∧
        (∀ Q, qs.quotients_ e1.1 = some Q → listed_block w qs e1 = Q.filter_actions e1.2) := by
    intro e1 he1
    have he1s : e1 ∈ submdp := (List.mem_filter.1 he1).1
    exact listed_block_facts w hw qs hinv hc e1 (hlt e1 he1s) (hrep e1 he1s)
  have hel : e ∈ submdp.filter (fun e1 => decide (e1.1 ≠ entry.1)) :=
    List.mem_filter.2 ⟨he, by simpa using hne⟩
  obtain ⟨hf1, hf2, hf3, hf4⟩ := foldl_append_blocks
    ((submdp.filter (fun e => decide (e.1 ≠ entry.1))).map (listed_block w qs)) X hX3
    (by
      intro b hb
      obtain ⟨e1, he1, rfl⟩ := List.mem_map.1 hb
      exact (hfacts e1 he1).1)
  have hblockQ : listed_block w qs e = Q.filter_actions e.2 := (hfacts e hel).2.2.2 Q hQ
  have hQc : Q.counts_ok := hc _ Q hQ
  have hndl : (submdp.filter (fun e1 => decide (e1.1 ≠ entry.1))).Nodup :=
    (List.Nodup.of_map Prod.fst hnodup).filter _
  -- the states of the class of the entry and of the other blocks are not in `Q`
  have hXout : ∀ m ∈ X.states, m ∉ Q.states := fun m hm =>
    class_disjoint_listed w hw qs hinv entry.1 e.1 (hlt entry hentry) (hlt e he)
      (Ne.symm hne) (hrep entry hentry) Q hQ m (hX5 m hm)
  have hother : ∀ e1 ∈ submdp.filter (fun e1 => decide (e1.1 ≠ entry.1)), e1 ≠ e →
      ∀ m ∈ (listed_block w qs e1).states, m ∉ Q.states := by
    intro e1 he1 hne1 m hm
    have he1s : e1 ∈ submdp := (List.mem_filter.1 he1).1
    have hdiff : e1.1 ≠ e.1 := by
      intro h
      exact hne1 (eq_of_mem_of_fst_eq submdp hnodup e1 e he1s he h)
    exact class_disjoint_listed w hw qs hinv e1.1 e.1 (hlt e1 he1s) (hlt e he) hdiff
      (hrep e1 he1s) Q hQ m ((hfacts e1 he1).2.2.1 m hm)
  have hstQ : (listed_block w qs e).states = Q.states := by
    rw [hblockQ]; exact filter_actions_states Q e.2
  have hfa := QuotientInformation.filter_actions_actions Q e.2 hQc
  refine ⟨qs1,
    [] ++ outer_actions
      (((submdp.filter (fun e => decide (e.1 ≠ entry.1))).map (listed_block w qs)).foldl
        QuotientInformation.append X).state_infos
      (((submdp.filter (fun e => decide (e.1 ≠ entry.1))).map (listed_block w qs)).foldl
        QuotientInformation.append X).aops,
    [] ++ inner_actions
      (((submdp.filter (fun e => decide (e.1 ≠ entry.1))).map (listed_block w qs)).foldl
        QuotientInformation.append X).state_infos
      (((submdp.filter (fun e => decide (e.1 ≠ entry.1))).map (listed_block w qs)).foldl
        QuotientInformation.append X).aops,
    X.state_infos.length, h1, herased e he hne, ?_, ?_, hX4, ?_, ?_, ?_, ?_, ?_⟩
  · have := (hfacts e hel).2.1
    rw [this, hblockQ]
    have hl := congrArg List.length (filter_actions_states Q e.2)
    simp only [QuotientInformation.states, List.length_map] at hl
    rw [hl]
  · rw [hblockQ]
    have hl := congrArg List.length (filter_actions_states Q e.2)
    simp only [QuotientInformation.states, List.length_map] at hl
    exact hl
  · have hsz : quotient_size w qs1 entry.1 = some
        ((((submdp.filter (fun e => decide (e.1 ≠ entry.1))).map (listed_block w qs)).foldl
          QuotientInformation.append X).state_infos.length % 2 ^ 32) := by
      simp only [quotient_size, hinfo]
    rw [hsz, hf2, List.map_map]
    rfl
  · simp only [generate_applicable_actions, hinfo]
  · simp only [get_pruned_ops, hinfo]
  · rw [List.nil_append, hf3, List.filter_append, List.flatMap_map]
    have hX0 : (outer_actions X.state_infos X.aops).filter
        (fun a => decide (a.state_id ∈ Q.states)) = [] := by
      rw [List.filter_eq_nil_iff]
      intro a ha
      have := hXout a.state_id (outer_actions_state_id _ _ a ha)
      simpa using this
    rw [hX0, List.nil_append,
      filter_flatMap_single _ e
        (fun e1 => outer_actions (listed_block w qs e1).state_infos (listed_block w qs e1).aops)
        _ hndl hel ?_ ?_]
    · show outer_actions (listed_block w qs e).state_infos (listed_block w qs e).aops = _
      rw [hblockQ]; exact hfa.1
    · rw [List.filter_eq_self]
      intro a ha
      have := outer_actions_state_id _ _ a ha
      have hmem : a.state_id ∈ (listed_block w qs e).states := this
      rw [hstQ] at hmem
      simpa using hmem
    · intro e1 he1 hne1
      rw [List.filter_eq_nil_iff]
      intro a ha
      have := hother e1 he1 hne1 a.state_id (outer_actions_state_id _ _ a ha)
      simpa using this
  · rw [List.nil_append, hf4, List.filter_append, List.flatMap_map]
    have hX0 : (inner_actions X.state_infos X.aops).filter
        (fun a => decide (a.state_id ∈ Q.states)) = [] := by
      rw [List.filter_eq_nil_iff]
      intro a ha
      have := hXout a.state_id (inner_actions_state_id _ _ a ha)
      simpa using this
    rw [hX0, List.nil_append,
      filter_flatMap_single _ e
        (fun e1 => inner_actions (listed_block w qs e1).state_infos (listed_block w qs e1).aops)
        _ hndl hel ?_ ?_]
    · show (inner_actions (listed_block w qs e).state_infos
        (listed_block w qs e).aops).Perm _
      rw [hblockQ]; exact hfa.2
    · rw [List.filter_eq_self]
      intro a ha
      have := inner_actions_state_id _ _ a ha
      have hmem : a.state_id ∈ (listed_block w qs e).states := this
      rw [hstQ] at hmem
      simpa using hmem
    · intro e1 he1 hne1
      rw [List.filter_eq_nil_iff]
      intro a ha
      have := hother e1 he1 hne1 a.state_id (inner_actions_state_id _ _ a ha)
      simpa using this

end DefaultQuotientSystem
end quotients
end probfd

namespace probfd
namespace quotients
namespace DefaultQuotientSystem

/-- An instance of `build_quotient_merges_class`: in the system over the
example MDP with the class `Q` of the states `1` and `2` (representative
`1`), built by `build_quotient`, the call of `build_quotient` for the entry
state `0` with the inner action `8` and the listed state `1` with the inner
action `9`. -/
theorem build_quotient_merges_class_instance :
    ∃ sys Q, build_quotient 64 (init example_space) [(1, []), (2, [])] (1, []) = some sys ∧
      Inv 64 sys ∧ sys.counts_ok ∧ sys.quotients_ 1 = some Q ∧
      ∃ qs1 acts pruned n0,
        build_quotient 64 sys [(0, [⟨0, 8⟩]), (1, [⟨1, 9⟩])] (0, [⟨0, 8⟩]) = some qs1 ∧
        qs1.quotients_ 1 = none ∧
        quotient_size 64 sys 1 = some (Q.state_infos.length % 2 ^ 32) ∧
        (listed_block 64 sys (1, [⟨1, 9⟩])).state_infos.length = Q.state_infos.length ∧
        quotient_size 64 sys 0 = some (n0 % 2 ^ 32) ∧
        quotient_size 64 qs1 0 = some ((n0 +
          ((([(0, [⟨0, 8⟩]), (1, [⟨1, 9⟩])] :
              List (Nat × List (QuotientAction Nat))).filter
            (fun e1 => decide (e1.1 ≠ 0))).map
            (fun e1 => (listed_block 64 sys e1).state_infos.length)).sum) % 2 ^ 32) ∧
        generate_applicable_actions 64 qs1 0 [] = some acts ∧
        get_pruned_ops 64 qs1 0 [] = some pruned ∧
        acts.filter (fun a => decide (a.state_id ∈ Q.states)) =
          (outer_actions Q.state_infos Q.aops).filter
            (fun a => !(([⟨1, 9⟩] : List (QuotientAction Nat)).contains a)) ∧
        (pruned.filter (fun a => decide (a.state_id ∈ Q.states))).Perm
          ((outer_actions Q.state_infos Q.aops).filter
              (fun a => ([⟨1, 9⟩] : List (QuotientAction Nat)).contains a) ++
            inner_actions Q.state_infos Q.aops) := by
  obtain ⟨sys, h1, h2, _, h4, _, h6⟩ :=
    build_quotient_masked 64 (by decide) (init example_space)
      (inv_init 64 example_space) [(1, []), (2, [])] (1, []) (by decide) (by decide)
      (by decide) (by intro e he; left; revert e he; decide)
  have hc : sys.counts_ok :=
    counts_build_quotient 64 (init example_space) sys _ _ (counts_init example_space) h1
  have hg1 : sys.get_masked_state_id 1 = 1 ||| FLAG 64 := h4 (1, []) (by decide)
  have hg0 : sys.get_masked_state_id 0 = (init example_space).get_masked_state_id 0 := by
    apply h6
    intro e he
    refine ⟨?_, ?_⟩
    · revert e he; decide
    · intro q hq; simp [init] at hq
  obtain ⟨Q, hQ, _⟩ := inv_rep_class 64 (by decide) sys h2 1 (by decide) hg1
  refine ⟨sys, Q, h1, h2, hc, hQ, ?_⟩
  exact build_quotient_merges_class 64 (by decide) sys h2 hc
    [(0, [⟨0, 8⟩]), (1, [⟨1, 9⟩])] (0, [⟨0, 8⟩]) (by decide) (by decide) (by decide)
    (by
      intro e he
      simp only [List.mem_cons, List.mem_singleton, List.not_mem_nil, or_false] at he
      rcases he with rfl | rfl
      · left
        show sys.get_masked_state_id 0 &&& FLAG 64 = 0
        rw [hg0]; decide
      · right; exact hg1)
    (1, [⟨1, 9⟩]) (by decide) (by decide) Q hQ

/-- C25 fails on the code for a class built by `build_new_quotient` (the
defect of C11): in the system with the class `Q` of the states `0` and `1`
stored by `build_new_quotient` on the fresh system (members `(0, 1, 1)` and
`(1, 2, 2)` with four stored actions), the call of `build_quotient` for the
new entry state `2` and the listed state `0`, the representative of `Q`,
with the inner action `(1, 7)` meets the preconditions of the call; the
assertion at the end of `filter_actions` on `Q` fails, since the iterator
has been advanced by `6` in a vector of `4` actions; and in the class stored
for `2` the member `1` has `0` outer and `4` inner actions, so that the loop
of `get_pruned_ops` leaves the action vector. -/
theorem build_quotient_merges_corrupt_class :
    (build_new_quotient 64 (init example_space_shared) [(0, [8]), (1, [7])]
          (0, [8])).quotients_ 0 =
        some { state_infos := [⟨0, 1, 1⟩, ⟨1, 2, 2⟩], aops := [8, 9, 7, 7],
               total_num_outer_acts := 3 } ∧
      (build_new_quotient 64 (init example_space_shared) [(0, [8]), (1, [7])]
          (0, [8])).get_masked_state_id 0 = 0 ||| FLAG 64 ∧
      (build_new_quotient 64 (init example_space_shared) [(0, [8]), (1, [7])]
          (0, [8])).get_masked_state_id 2 &&& FLAG 64 = 0 ∧
      filter_actions_assert
        ({ state_infos := [⟨0, 1, 1⟩, ⟨1, 2, 2⟩], aops := [8, 9, 7, 7],
           total_num_outer_acts := 3 } : QuotientInformation Nat) [⟨1, 7⟩] = false ∧
      (build_quotient 64
          (build_new_quotient 64 (init example_space_shared) [(0, [8]), (1, [7])] (0, [8]))
          [(2, []), (0, [⟨1, 7⟩])] (2, [])).map (fun qs1 => qs1.quotients_ 2) =
        some (some { state_infos := [⟨2, 0, 0⟩, ⟨0, 1, 1⟩, ⟨1, 0, 4⟩], aops := [8, 9, 7, 7],
                     total_num_outer_acts := 1 }) ∧
      reads_in_bounds [⟨2, 0, 0⟩, ⟨0, 1, 1⟩, ⟨1, 0, 4⟩] ([8, 9, 7, 7] : List Nat).length =
        false := by
  refine ⟨by decide, by decide, by decide, by decide, by decide, by decide⟩

end DefaultQuotientSystem
end quotients
end probfd
